import Mathlib

/-!
# Tile extract/insert lowering: arithmetic of the Triton XLA pass

A shallow embedding of the pure parts of
`xla/backends/gpu/codegen/triton/transforms/triton_xla_extract_insert_to_triton_pass.cc`
and theorems about them.

Conventions of the embedding.

* `int64_t` values are `Int`; `ArrayRef<int64_t>` and `SmallVector<int64_t>` are `List Int`.
  Where the source converts between signed and unsigned 64-bit integers, or multiplies
  machine integers, the conversion is written out with `toUInt64` / `toInt64`.
* An indexed read `xs[i]` of the source is `xs[i]?`; a read outside the array (undefined
  in the source) makes the embedded function return `none`.
* A remainder `a % b` of the source with `b == 0` (undefined in the source) makes the
  embedded function return `none` as well.
* A loop `for (i = 0; i < n; ++i)` is a recursive function over the number of remaining
  iterations that carries the index `i` and the mutated state.
* A dimension number (the position of a dimension in a shape) is a `Nat`. Where the source
  stores such a number in an `int32_t`, the narrowing is not written out: it is the identity
  below `2^31`, and a rank is far below that.
* Signed overflow, undefined in C++, is the two's complement wrap-around of the machine.
-/

namespace TritonXLA

/-! ## Machine integers -/

/-- Conversion of an integer to `uint64_t`: the value modulo `2^64`. -/
def toUInt64 (x : Int) : Int := x % 2 ^ 64

/-- Conversion of an integer to `int64_t`: two's complement wrap-around. -/
def toInt64 (x : Int) : Int := (x + 2 ^ 63) % 2 ^ 64 - 2 ^ 63

/-- Conversion of an integer to `int32_t`: two's complement wrap-around. -/
def toInt32 (x : Int) : Int := (x + 2 ^ 31) % 2 ^ 32 - 2 ^ 31

/-- Range of `int64_t`. -/
def IsInt64 (x : Int) : Prop := -2 ^ 63 ≤ x ∧ x < 2 ^ 63

instance (x : Int) : Decidable (IsInt64 x) := by unfold IsInt64; exact inferInstance

/-! ## `absl::Status` -/

/-- The two statuses `CanonicalizeTileStrides` produces. The invalid-argument error keeps the
three values its message is formatted from: the index, `tile_shape[i]`, `original_shape[i]`. -/
inductive Status where
  | OkStatus
  | InvalidArgumentError (i : Nat) (tile_shape_i original_shape_i : Int)
  deriving DecidableEq, Repr

/-- Whether the status is OK (`Status::ok()`). -/
def Status.ok : Status → Bool
  | Status.OkStatus => true
  | Status.InvalidArgumentError _ _ _ => false

/-! ## `CanonicalizeTileStrides` (lines 100-119) -/

/-- The loop of `CanonicalizeTileStrides`: `n` iterations remain, `i` is the loop index and
`tile_strides` the vector mutated in place. The result is the returned status together with
the final contents of `tile_strides`. The test `tile_shape[i] != 1 && original_shape[i] != 1`
short-circuits: `original_shape[i]` is read only when `tile_shape[i]` is not 1. -/
def CanonicalizeTileStrides.loop (tile_shape original_shape : List Int) :
    Nat → Nat → List Int → Option (Status × List Int)
  | 0, _, tile_strides => some (Status.OkStatus, tile_strides)
  | n + 1, i, tile_strides =>
    match tile_strides[i]? with
    | none => none
    | some s =>
      if s = 0 then
        match tile_shape[i]? with
        | none => none
        | some t =>
          if t ≠ 1 then
            match original_shape[i]? with
            | none => none
            | some o =>
              if o ≠ 1 then
                some (Status.InvalidArgumentError i t o, tile_strides)
              else
                CanonicalizeTileStrides.loop tile_shape original_shape n (i + 1)
                  (tile_strides.set i 1)
          else
            CanonicalizeTileStrides.loop tile_shape original_shape n (i + 1)
              (tile_strides.set i 1)
      else
        CanonicalizeTileStrides.loop tile_shape original_shape n (i + 1) tile_strides

/-- The function `CanonicalizeTileStrides(tile_strides, tile_shape, original_shape)`: the
returned status and the contents of the in-out parameter `tile_strides` on return. -/
def CanonicalizeTileStrides (tile_strides tile_shape original_shape : List Int) :
    Option (Status × List Int) :=
  CanonicalizeTileStrides.loop tile_shape original_shape tile_strides.length 0 tile_strides

/-! ## IR values and `IsOffsetDivisibilityGuaranteed` (lines 121-150) -/

/-- An affine expression of MLIR, seen through the one query the pass makes of it:
`isMultipleOf(k)`. -/
structure AffineExpr where
  isMultipleOf : Int → Bool

/-- An `mlir::Value`, classified by what defines it, as far as the pass looks. -/
inductive Value where
  /-- A block argument with its argument number: a value without defining operation. -/
  | blockArgument (arg_number : Nat)
  /-- The result of an `arith::ConstantIndexOp` with the given constant. -/
  | constantIndex (value : Int)
  /-- The result of an `xla::ApplyIndexingOp`; `results` are the results of the affine map of
  its indexing map. -/
  | applyIndexing (results : List AffineExpr)
  /-- The result of any other operation, identified by the name of the operation. -/
  | otherOp (name : String)

/-- The function `IsOffsetDivisibilityGuaranteed(offset_val, element_byte_size)`. `std::gcd`
is the gcd of the absolute values, and both `/` and `%` are on `int64_t`. -/
def IsOffsetDivisibilityGuaranteed (offset_val : Value) (element_byte_size : Int) : Bool :=
  let kByteDivisibilityFactor : Int := 16
  let divisor : Int :=
    Int.tdiv kByteDivisibilityFactor (Int.gcd kByteDivisibilityFactor element_byte_size)
  match offset_val with
  | Value.constantIndex value => Int.tmod value divisor == 0
  | Value.applyIndexing results =>
    if results.length ≠ 1 then false
    else
      match results[0]? with
      | some result => result.isMultipleOf divisor
      | none => false
  | _ => false

/-! ## `CanUseTMA` (lines 152-252) -/

/-- Read `xs[i]` with an `int64_t` index. The index is converted to `size_t`, which sends a
negative index beyond every array length. -/
def readAt {α : Type} (xs : List α) (i : Int) : Option α :=
  if 0 ≤ i then xs[i.toNat]? else none

/-- A `RankedTensorType`: its shape and the bit width of its element type. -/
structure RankedTensorType where
  shape : List Int
  elementTypeBitWidth : Nat

/-- A `TypedValue<RankedTensorType>`, with the facts `CanUseTMA` asks of it. -/
structure TensorValue where
  type : RankedTensorType
  /-- Whether `dyn_cast<BlockArgument>` succeeds. -/
  isBlockArgument : Bool
  /-- The number of uses of the value; `hasOneUse()` is `numUses = 1`. -/
  numUses : Nat
  /-- Whether the parent operation of the block owning the argument is a `func::FuncOp`. -/
  ownerIsFuncOp : Bool

/-- The device description, seen through the one query the pass makes of it. -/
structure DeviceDescription where
  tma_supported : Bool

/-- Modelled from the spec: `xla::gpu::IsTmaEnabledForDevice` of
`xla/backends/gpu/codegen/triton/tma_utils.h` is not among the translated sources; by the
spec it tells whether the "device descriptor reports the feature supported". -/
def IsTmaEnabledForDevice (device_description : DeviceDescription) : Bool :=
  device_description.tma_supported

/-- The constant `kMaxGlobalDim = pow(2, 32)`. -/
def kMaxGlobalDim : Int := 2 ^ 32
/-- The constant `kMaxGlobalStride = pow(2, 40) - 1`. -/
def kMaxGlobalStride : Int := 2 ^ 40 - 1
/-- The constant `kByteDivisibilityFactor = 16`. -/
def kByteDivisibilityFactor : Int := 16
/-- The constant `kMaxBoxDim = 256`. -/
def kMaxBoxDim : Int := 256
/-- The constant `ShapedType::kDynamic`, the least `int64_t`. -/
def kDynamic : Int := -2 ^ 63

/-- The loop of lines 237-243: `n` iterations remain, `i` is the loop index. Each round
appends `global_strides[i - 1] * global_shape[minor_to_major_layout[i]]`, a product of two
`int64_t` that wraps around on overflow, and compares it as `uint64_t` with
`kMaxGlobalStride`. The result is `false` when a round returns `false` from `CanUseTMA`, and
`true` when the loop runs to its end; the strides collected so far come with it. -/
def CanUseTMA.stridesLoop (global_shape minor_to_major_layout : List Int) :
    Nat → Nat → List Int → Option (Bool × List Int)
  | 0, _, global_strides => some (true, global_strides)
  | n + 1, i, global_strides =>
    match global_strides[i - 1]?, minor_to_major_layout[i]? with
    | some prev, some dim =>
      match readAt global_shape dim with
      | some size =>
        let global_strides := global_strides ++ [toInt64 (prev * size)]
        match global_strides[i]? with
        | some stride =>
          if toUInt64 stride > kMaxGlobalStride then some (false, global_strides)
          else CanUseTMA.stridesLoop global_shape minor_to_major_layout n (i + 1) global_strides
        | none => none
      | none => none
    | _, _ => none

/-- The block "Validate global strides" of lines 229-244: whether every check passes, and the
vector `global_strides` at that point. -/
def CanUseTMA.validateGlobalStrides (global_shape minor_to_major_layout : List Int)
    (minor_dim_idx : Int) (element_byte_size : Int) : Option (Bool × List Int) :=
  if global_shape.length ≥ 2 then
    match readAt global_shape minor_dim_idx with
    | some size =>
      let global_strides : List Int := [toInt64 (toUInt64 (toUInt64 size * element_byte_size))]
      match global_strides[0]? with
      | some stride =>
        if toUInt64 stride % kByteDivisibilityFactor ≠ 0 ∨ toUInt64 stride > kMaxGlobalStride then
          some (false, global_strides)
        else
          CanUseTMA.stridesLoop global_shape minor_to_major_layout (global_shape.length - 1) 1
            global_strides
      | none => none
    | none => none
  else some (true, [])

/-- The function `CanUseTMA(builder, tma_enabled, device_description, tile_shape, tile_strides,
offsets, tensor, minor_to_major_layout)`. The checks come in the order of the source, so that
a read outside an array counts only when the source reaches it. -/
def CanUseTMA (tma_enabled : Bool) (device_description : DeviceDescription)
    (tile_shape tile_strides : List Int) (offsets : List Value) (tensor : TensorValue)
    (minor_to_major_layout : List Int) : Option Bool :=
  if !tma_enabled then some false
  else if !IsTmaEnabledForDevice device_description then some false
  else if tile_shape.isEmpty || tile_shape.length > 5 then some false
  else if !tensor.isBlockArgument || !(tensor.numUses == 1) then some false
  else if !tensor.ownerIsFuncOp then some false
  else
    let element_byte_size : Int := ((tensor.type.elementTypeBitWidth / 8 : Nat) : Int)
    let global_shape := tensor.type.shape
    match minor_to_major_layout[0]? with
    | none => none
    | some minor_dim_idx =>
      if global_shape.any (fun dim => toUInt64 dim == 0 || toUInt64 dim > kMaxGlobalDim) then
        some false
      else
        match readAt tile_shape minor_dim_idx with
        | none => none
        | some minor_tile =>
          if toUInt64 (toUInt64 minor_tile * element_byte_size) % kByteDivisibilityFactor ≠ 0 then
            some false
          else if tile_shape.any (fun dim => toUInt64 dim == 0 || toUInt64 dim > kMaxBoxDim) then
            some false
          else if tile_strides.any (fun s => s == kDynamic) then some false
          else
            match readAt tile_strides minor_dim_idx with
            | none => none
            | some minor_stride =>
              if minor_stride ≠ 1 then some false
              else
                match CanUseTMA.validateGlobalStrides global_shape minor_to_major_layout
                    minor_dim_idx element_byte_size with
                | none => none
                | some (false, _) => some false
                | some (true, _) =>
                  match readAt offsets minor_dim_idx with
                  | none => none
                  | some offset =>
                    if !IsOffsetDivisibilityGuaranteed offset (toInt64 element_byte_size) then
                      some false
                    else some true

/-! ## `ComputeBoundaryChecks` (lines 254-266) -/

/-- The function `ComputeBoundaryChecks(original_shape, tile_shape)`. `llvm::zip` stops at the
shorter of the two ranges, `llvm::enumerate` numbers the pairs from 0, and `%` on `int64_t`
truncates towards zero (`Int.tmod`). The source divides by `tile_size` without a check, and a
division by zero is undefined: the function does not return when it meets a tile size 0. The
other undefined pair, the least `int64_t` divided by -1, is one that tensor dimensions (none
of them -1) never form. -/
def ComputeBoundaryChecks (original_shape tile_shape : List Int) : Option (List Nat) :=
  (original_shape.zip tile_shape).enum.foldl
    (fun (boundary_checks : Option (List Nat)) (p : Nat × Int × Int) =>
      match boundary_checks with
      | none => none
      | some boundary_checks =>
        if p.2.2 = 0 then none
        else if Int.tmod p.2.1 p.2.2 ≠ 0 then some (boundary_checks ++ [p.1])
        else some boundary_checks)
    (some [])

/-! ## Layout normalisation (lines 367-409) -/

/-- The function `IsNormalizedLayout(layout)`. The comparison
`layout_entry != layout.size() - 1 - idx`
has an `int64_t` on the left and a `size_t` on the right, so both sides are compared as
`uint64_t`. -/
def IsNormalizedLayout (layout : List Int) : Bool :=
  layout.enum.all (fun p => toUInt64 p.2 == toUInt64 ((layout.length : Int) - 1 - (p.1 : Int)))

/-- Modelled from the spec: `xla::IsPermutation` of `xla/permutation_util.h` is not among the
translated sources. By the spec's data model a layout "is always a permutation of
`[0, len-1]`": the list is a rearrangement of `0, 1, ..., len-1`. -/
def IsPermutation (permutation : List Int) : Prop :=
  List.Perm permutation ((List.range permutation.length).map (fun k : Nat => (k : Int)))

instance (permutation : List Int) : Decidable (IsPermutation permutation) := by
  unfold IsPermutation; exact inferInstance

/-- Modelled from the spec: `xla::Permute` of `xla/permutation_util.h` is not among the
translated sources. By the spec it permutes `values` by the given permutation: entry `i` of the
result is `input[permutation[i]]`. It is defined when `permutation` is a permutation of the
indices of `input`, as the data model has it. -/
def Permute {α : Type} (input : List α) (permutation : List Int) : Option (List α) :=
  if permutation.length = input.length ∧ IsPermutation permutation then
    some (permutation.filterMap (fun p => readAt input p))
  else none

/-- Modelled from the spec: `xla::InversePermutation` of `xla/permutation_util.h` is not among
the translated sources. By the spec it inverts its argument "as a permutation": entry `j` of the
result is the position at which `j` stands in the argument. -/
def InversePermutation (input_permutation : List Int) : List Nat :=
  (List.range input_permutation.length).map (fun j : Nat => input_permutation.indexOf (j : Int))

/-- The function template `NormalizeImpl<T>(values, layout)`. -/
def NormalizeImpl {α : Type} (values : List α) (layout : List Int) : Option (List α) :=
  if IsNormalizedLayout layout then some values
  else
    let reversed_layout := layout.reverse
    Permute values reversed_layout

/-- The overload `Normalize(ArrayRef<int64_t> values, ArrayRef<int64_t> layout)`. -/
def Normalize (values : List Int) (layout : List Int) : Option (List Int) :=
  NormalizeImpl values layout

/-- The overload `Normalize(ValueRange values, ArrayRef<int64_t> layout)` for IR values. -/
def NormalizeValues (values : List Value) (layout : List Int) : Option (List Value) :=
  NormalizeImpl values layout

/-- The function `GetInverseLayoutPermutation(layout)`. Its result is a list of dimension
numbers. -/
def GetInverseLayoutPermutation (layout : List Int) : List Nat :=
  let reversed_layout := layout.reverse
  InversePermutation reversed_layout

/-! ## Values and operations the pass builds

The operations the rewrite rules create are terms: a value is the result of the operation that
defines it, applied to its operands. The rules create every operation at the place of the
access they rewrite, so the order of creation is the order of the data flow and is not kept
apart from it. -/

/-- The integer types of the values the pass builds: `builder.getI32Type()` and
`builder.getI64Type()`. -/
inductive IntType where
  | I32
  | I64
  deriving DecidableEq, Repr

/-- Modelled from the spec: `xla::GetBitcastMap`, `ShapeUtil::MakeShapeWithDenseLayout` and
`ShapeUtil::MakeShape` are not among the translated sources. By the spec the map bridges the
tensor shape in its dense layout and the flattened 1-D shape; it is recorded here by the
dimensions and the minor-to-major layout it is built from. -/
structure BitcastMap where
  dimensions : List Int
  minor_to_major : List Int

/-- A scalar value of the rewritten program: a value that was there before, or the result of
an operation the pass creates. -/
inductive Scalar where
  /-- A default-constructed `mlir::Value`. -/
  | null
  /-- A value of the program before the rewrite. -/
  | value (v : Value)
  /-- The scalar `CreateConst(builder, type, value).UnwrapScalar()`. -/
  | CreateConst (type : IntType) (value : Int)
  /-- The result of `arith::IndexCastUIOp` to the given type. -/
  | IndexCastUIOp (type : IntType) (operand : Scalar)
  /-- The result of `arith::SubIOp`. -/
  | SubIOp (lhs rhs : Scalar)
  /-- The result of `arith::MulIOp`. -/
  | MulIOp (lhs rhs : Scalar)
  /-- Result 0 of `xla::ApplyIndexingOp` on the operands with the given map. -/
  | ApplyIndexingOp (operands : List Value) (indexing_map : BitcastMap)

/-- A pointer-typed value the pass builds. -/
inductive Ptr where
  /-- The cast `tensor -> !tt.ptr<>` of `CreateAddPtrOp`. -/
  | UnrealizedConversionCastOp (tensor : TensorValue)
  /-- The result of `tt.addptr`. -/
  | AddPtrOp (ptr : Ptr) (offset : Scalar)
  /-- The result of `tt.make_tensor_ptr`. -/
  | MakeTensorPtrOp (ptr : Ptr) (shape strides offsets : List Scalar) (tensor_shape : List Int)
      (order : List Int)

/-- The cast `tensor -> !tt.tensordesc<tile_type>`: the type of the tile and the tensor that is
cast. -/
structure TensorDesc where
  tile_type : RankedTensorType
  tensor : TensorValue

/-- The padding option of `tt.load`. -/
inductive PaddingOption where
  | PAD_ZERO
  | PAD_NAN
  deriving DecidableEq, Repr

/-- A tile-typed value: the tile operand of a tile insert, or the result of an operation the
pass creates. The cache modifier, eviction policy and volatility of a load are the constants
`NONE`, `NORMAL` and `false` and are left out. -/
inductive Tile where
  /-- The tile a tile insert writes: `op.getSrc()`. -/
  | operand
  /-- The result of `tt.load`. -/
  | LoadOp (ptr : Ptr) (boundary_checks : List Nat) (padding : Option PaddingOption)
  /-- The result of `tt.descriptor_load`. -/
  | DescriptorLoadOp (result_type : RankedTensorType) (desc : TensorDesc)
      (indices : List Scalar)
  /-- The result of `tt.trans`. -/
  | TransOp (result_type : RankedTensorType) (src : Tile) (order : List Int)

/-- A store the pass creates. -/
inductive Store where
  /-- The operation `tt.descriptor_store`. -/
  | DescriptorStoreOp (desc : TensorDesc) (src : Tile) (indices : List Scalar)
  /-- The operation `tt.store`. -/
  | StoreOp (ptr : Ptr) (value : Tile) (boundary_checks : List Nat)

/-- The helper `IndexCastUI(builder, type, values)` (lines 90-98). -/
def IndexCastUI (type : IntType) (values : List Value) : List Scalar :=
  values.map (fun value => Scalar.IndexCastUIOp type (Scalar.value value))

/-! ## Address arithmetic of the generic path (lines 268-344) -/

/-- The function `ComputeResidualShape(builder, original_shape, tile_offsets)`. -/
def ComputeResidualShape (original_shape : List Int) (tile_offsets : List Value) :
    List Scalar :=
  (original_shape.zip tile_offsets).enum.foldl
    (fun residual_shape p =>
      let size := Scalar.CreateConst IntType.I64 p.2.1
      let offset := Scalar.IndexCastUIOp IntType.I64 (Scalar.value p.2.2)
      residual_shape ++ [Scalar.SubIOp size offset])
    []

/-- The loop of `ComputeStrides` over the entries of `minor_to_major_layout` that are left:
`strides` is the vector filled so far and `current_stride` the running product, an
`int64_t`. -/
def ComputeStrides.loop (original_shape : List Int) (tile_strides : List Value) :
    List Int → List Scalar → Int → Option (List Scalar)
  | [], strides, _ => some strides
  | cur_dim :: rest, strides, current_stride =>
    match readAt tile_strides cur_dim with
    | none => none
    | some tile_stride =>
      if 0 ≤ cur_dim ∧ cur_dim.toNat < strides.length then
        let strides := strides.set cur_dim.toNat
          (Scalar.MulIOp (Scalar.IndexCastUIOp IntType.I64 (Scalar.value tile_stride))
            (Scalar.CreateConst IntType.I64 current_stride))
        match readAt original_shape cur_dim with
        | none => none
        | some size =>
          ComputeStrides.loop original_shape tile_strides rest strides
            (toInt64 (current_stride * size))
      else none

/-- The function `ComputeStrides(builder, original_shape, tile_strides,
minor_to_major_layout)`. -/
def ComputeStrides (original_shape : List Int) (tile_strides : List Value)
    (minor_to_major_layout : List Int) : Option (List Scalar) :=
  ComputeStrides.loop original_shape tile_strides minor_to_major_layout
    (List.replicate tile_strides.length Scalar.null) 1

/-- The function `ComputeLinearOffset(builder, tensor_type, offsets, layout)`. -/
def ComputeLinearOffset (tensor_type : RankedTensorType) (offsets : List Value)
    (layout : List Int) : Scalar :=
  let bitcast_map : BitcastMap := ⟨tensor_type.shape, layout⟩
  Scalar.IndexCastUIOp IntType.I64 (Scalar.ApplyIndexingOp offsets bitcast_map)

/-! ## `AddTmaAttributes` (lines 346-365) -/

/-- The attribute `TmaDescriptorAttr`. -/
structure TmaDescriptorAttr where
  global_shape : List Int
  tile_shape : List Int
  tile_strides : List Int
  layout : List Int
  element_byte_size : Nat
  deriving DecidableEq, Repr

/-- An attribute the pass attaches to a function argument. -/
inductive Attribute where
  | IntegerAttr (type : IntType) (value : Int)
  | TmaDescriptor (attr : TmaDescriptorAttr)
  deriving DecidableEq, Repr

/-- The function `AddTmaAttributes(builder, tensor, tile_shape, tile_strides, layout)`: the
named attributes it sets on the function argument that `tensor` is. It goes through the block
argument and its function without a check, so it is defined for an argument of a function
only. -/
def AddTmaAttributes (tensor : TensorValue) (tile_shape tile_strides layout : List Int) :
    Option (List (String × Attribute)) :=
  if tensor.isBlockArgument && tensor.ownerIsFuncOp then
    some [("tt.nv_tma_desc", Attribute.IntegerAttr IntType.I32 1),
      ("tt.tma_descriptor",
        Attribute.TmaDescriptor
          ⟨tensor.type.shape, tile_shape, tile_strides, layout,
            tensor.type.elementTypeBitWidth / 8⟩)]
  else none

/-! ## `CreateAddPtrOp` and `CreateMakeTensorPtrOp` (lines 411-455) -/

/-- The function `CreateAddPtrOp(builder, tensor, offsets, layout)`. -/
def CreateAddPtrOp (tensor : TensorValue) (offsets : List Value) (layout : List Int) : Ptr :=
  let cast_to_tensor_ptr_type := Ptr.UnrealizedConversionCastOp tensor
  let linear_offset := ComputeLinearOffset tensor.type offsets layout
  Ptr.AddPtrOp cast_to_tensor_ptr_type linear_offset

/-- The function `CreateMakeTensorPtrOp(builder, ptr, original_shape, tile_shape, offsets,
tile_strides, layout)`. -/
def CreateMakeTensorPtrOp (ptr : Ptr) (original_shape tile_shape : List Int)
    (offsets tile_strides : List Value) (layout : List Int) : Option Ptr :=
  let residual_shape := ComputeResidualShape original_shape offsets
  let zero_offsets := List.replicate tile_shape.length (Scalar.CreateConst IntType.I32 0)
  match ComputeStrides original_shape tile_strides layout with
  | none => none
  | some strides =>
    let dim_order : List Int := (List.range layout.length).reverse.map (fun k : Nat => (k : Int))
    some (Ptr.MakeTensorPtrOp ptr residual_shape strides zero_offsets (tile_shape.map toInt32)
      dim_order)

/-! ## The access-site rules (lines 552-737) -/

/-- A tile extract `ExtractOp`, through the accessors the rule uses: `getSrc()` (whose type is
`getSrcType()`), `getResultType()`, `getOffsetsAsValues(builder)`, `getStaticStrides()`,
`getStridesAsValues(builder)` and `getLayout()`. -/
structure ExtractOp where
  src : TensorValue
  result_type : RankedTensorType
  offsets : List Value
  static_strides : List Int
  strides : List Value
  layout : List Int

/-- A tile insert `InsertOp`, through the accessors the rule uses: `getSrcType()` (the type of
the tile `getSrc()`), `getDst()` (whose type is `getResultType()`),
`getOffsetsAsValues(builder)`, `getStaticStrides()`, `getStridesAsValues(builder)` and
`getLayout()`. -/
structure InsertOp where
  src_type : RankedTensorType
  dst : TensorValue
  offsets : List Value
  static_strides : List Int
  strides : List Value
  layout : List Int

/-- The outcome of `matchAndRewrite`: `success()` with what the rule did, or the match failure
with the status whose message is reported. -/
inductive LogicalResult (α : Type) where
  | success (rewrite : α)
  | failure (status : Status)

/-- What `RewriteExtract` does on success: the attributes set on the function argument of the
source, and the value the extract is replaced by. -/
structure ExtractRewrite where
  arg_attrs : List (String × Attribute)
  replacement : Tile

/-- What `RewriteInsert` does on success: the attributes set on the function argument of the
destination, the store created, and the value that replaces all uses of the result of the
insert. -/
structure InsertRewrite where
  arg_attrs : List (String × Attribute)
  store : Store
  result_replaced_by : TensorValue

/-- The rule `RewriteExtract::matchAndRewrite(op, rewriter)`. -/
def RewriteExtract.matchAndRewrite (device_description : DeviceDescription) (tma_enabled : Bool)
    (op : ExtractOp) : Option (LogicalResult ExtractRewrite) :=
  let original_type := op.src.type
  let tile_type := op.result_type
  let original_shape := original_type.shape
  let tile_shape := tile_type.shape
  let offsets := op.offsets
  match CanUseTMA tma_enabled device_description tile_shape op.static_strides offsets op.src
      op.layout with
  | none => none
  | some true =>
    match CanonicalizeTileStrides op.static_strides tile_shape original_shape with
    | none => none
    | some (Status.InvalidArgumentError i t o, _) =>
      some (LogicalResult.failure (Status.InvalidArgumentError i t o))
    | some (Status.OkStatus, strides) =>
      match AddTmaAttributes op.src tile_shape strides op.layout,
        Normalize tile_shape op.layout, NormalizeValues offsets op.layout with
      | some arg_attrs, some normalized_tile_shape, some normalized_offsets =>
        let normalized_tile_type : RankedTensorType :=
          ⟨normalized_tile_shape, tile_type.elementTypeBitWidth⟩
        let cast_to_tensor_desc : TensorDesc := ⟨normalized_tile_type, op.src⟩
        let descriptor_load := Tile.DescriptorLoadOp normalized_tile_type cast_to_tensor_desc
          (IndexCastUI IntType.I32 normalized_offsets)
        if !IsNormalizedLayout op.layout then
          let transpose := Tile.TransOp op.result_type descriptor_load
            ((GetInverseLayoutPermutation op.layout).map (fun k : Nat => (k : Int)))
          some (LogicalResult.success ⟨arg_attrs, transpose⟩)
        else some (LogicalResult.success ⟨arg_attrs, descriptor_load⟩)
      | _, _, _ => none
  | some false =>
    let ptr := CreateAddPtrOp op.src offsets op.layout
    let strides := op.strides
    match CreateMakeTensorPtrOp ptr original_shape tile_shape offsets strides op.layout with
    | none => none
    | some ptr =>
      match ComputeBoundaryChecks original_shape tile_shape with
      | none => none
      | some boundary_checks =>
        let padding : Option PaddingOption :=
          if !boundary_checks.isEmpty then some PaddingOption.PAD_ZERO else none
        let load := Tile.LoadOp ptr boundary_checks padding
        some (LogicalResult.success ⟨[], load⟩)

/-- The rule `RewriteInsert::matchAndRewrite(op, rewriter)`. -/
def RewriteInsert.matchAndRewrite (device_description : DeviceDescription) (tma_enabled : Bool)
    (op : InsertOp) : Option (LogicalResult InsertRewrite) :=
  let original_type := op.dst.type
  let tile_type := op.src_type
  let original_shape := original_type.shape
  let tile_shape := tile_type.shape
  let offsets := op.offsets
  match CanUseTMA tma_enabled device_description tile_shape op.static_strides offsets op.dst
      op.layout with
  | none => none
  | some true =>
    match CanonicalizeTileStrides op.static_strides tile_shape original_shape with
    | none => none
    | some (Status.InvalidArgumentError i t o, _) =>
      some (LogicalResult.failure (Status.InvalidArgumentError i t o))
    | some (Status.OkStatus, strides) =>
      match AddTmaAttributes op.dst tile_shape strides op.layout,
        Normalize tile_shape op.layout, NormalizeValues offsets op.layout with
      | some arg_attrs, some normalized_tile_shape, some normalized_offsets =>
        let normalized_tile_type : RankedTensorType :=
          ⟨normalized_tile_shape, tile_type.elementTypeBitWidth⟩
        let cast_to_tensor_desc : TensorDesc := ⟨normalized_tile_type, op.dst⟩
        let src : Tile :=
          if !IsNormalizedLayout op.layout then
            let transpose_order := op.layout.reverse
            Tile.TransOp normalized_tile_type Tile.operand transpose_order
          else Tile.operand
        let store := Store.DescriptorStoreOp cast_to_tensor_desc src
          (IndexCastUI IntType.I32 normalized_offsets)
        some (LogicalResult.success ⟨arg_attrs, store, op.dst⟩)
      | _, _, _ => none
  | some false =>
    let ptr := CreateAddPtrOp op.dst offsets op.layout
    let strides := op.strides
    match CreateMakeTensorPtrOp ptr original_shape tile_shape offsets strides op.layout with
    | none => none
    | some ptr =>
      match ComputeBoundaryChecks original_shape tile_shape with
      | none => none
      | some boundary_checks =>
        let store := Store.StoreOp ptr Tile.operand boundary_checks
        some (LogicalResult.success ⟨[], store, op.dst⟩)

/-! ## The signature rule `RewriteFuncOp` (lines 457-550)

The body of the function is not part of the embedding: the rule changes the types of the
block arguments, casts them back for their users, and replaces the terminator by `tt.return`.
What is kept is the signature of the new function, its argument attributes, and the type of
the cast that takes the place of each argument. -/

deriving instance DecidableEq, Repr for RankedTensorType

/-- A type of a function signature, as far as the rule tells types apart. The element type of
a tensor is kept by its bit width, as in `RankedTensorType`. -/
inductive MlirType where
  /-- A ranked tensor type. -/
  | RankedTensor (type : RankedTensorType)
  /-- The type `!tt.tensordesc<tensor<...>>` of `TensorDescType::get`. -/
  | TensorDesc (block_type : RankedTensorType)
  /-- The type `!tt.ptr<...>` in the global memory space, of the given pointee. -/
  | GlobalPointer (pointee : Nat)
  /-- Any other type, by its name. -/
  | Other (name : String)
  deriving DecidableEq, Repr

/-- A `func::FuncOp`, through the accessors the rule uses: `getName()`, the inputs and
results of `getFunctionType()`, and `getArgAttrs()`, which has no value when no argument has
an attribute and else holds one dictionary per argument. -/
structure FuncOp where
  name : String
  inputs : List MlirType
  results : List MlirType
  arg_attrs : Option (List (List (String × Attribute)))

/-- The `triton::FuncOp` the rule creates: name, function type and one attribute dictionary
per argument (the empty one for an argument without attribute). -/
structure TritonFuncOp where
  name : String
  inputs : List MlirType
  results : List MlirType
  arg_attrs : List (List (String × Attribute))
  deriving DecidableEq, Repr

/-- The outcome of `RewriteFuncOp::matchAndRewrite`: `success()` with the function created and,
per argument, the result type of the cast that replaces the uses of the argument, or the match
failure with its message. -/
inductive FuncMatchResult where
  | success (new_func : TritonFuncOp) (cast_types : List MlirType)
  | failure (message : String)
  deriving DecidableEq, Repr

/-- The function `GetTensorPtrType(type)` (lines 79-82). The helper `xgt::StorageType` of
`xla/backends/gpu/codegen/triton/emitter_helpers.h` is not among the translated sources and is
a parameter. -/
def GetTensorPtrType (StorageType : Nat → Nat) (type : Nat) : MlirType :=
  MlirType.GlobalPointer (StorageType type)

/-- The function `AreRankedTensors(types)` (lines 84-88). -/
def AreRankedTensors (types : List MlirType) : Bool :=
  types.all (fun type =>
    match type with
    | MlirType.RankedTensor _ => true
    | _ => false)

/-- The accessor `getArgAttr(index, name)` of a function: the attribute of that name of the
argument, if there is one. -/
def FuncOp.getArgAttr (op : FuncOp) (index : Nat) (name : String) : Option Attribute :=
  match op.arg_attrs with
  | none => none
  | some dictionaries => (dictionaries.getD index []).lookup name

/-- The attribute dictionary after `setArgAttr` with the given name and value: an attribute of
that name is replaced, and the others stay. A dictionary has no order; here the attribute set
comes last. -/
def setAttr (dictionary : List (String × Attribute)) (name : String) (value : Attribute) :
    List (String × Attribute) :=
  dictionary.filter (fun named => named.1 != name) ++ [(name, value)]

/-- One round of the loop of lines 477-503, for the argument `index` of type `operand_type`:
the new type of the argument, and the result type of the cast `cast_to_orig_type` that
replaces its uses. The casts `mlir::cast<TensorType>` and `mlir::cast<TmaDescriptorAttr>` are
unchecked in the source. -/
def RewriteFuncOp.operandType (StorageType : Nat → Nat) (op : FuncOp) (index : Nat)
    (operand_type : MlirType) : Option (MlirType × MlirType) :=
  match operand_type with
  | MlirType.RankedTensor tensor_type =>
    let element_type := tensor_type.elementTypeBitWidth
    match op.getArgAttr index "tt.tma_descriptor" with
    | some attr =>
      match attr with
      | Attribute.TmaDescriptor tma_descriptor =>
        let layout := tma_descriptor.layout
        let block_shape := tma_descriptor.tile_shape
        match Normalize block_shape layout with
        | none => none
        | some normalized_block_shape =>
          let operand_type := MlirType.TensorDesc ⟨normalized_block_shape, element_type⟩
          some (operand_type, operand_type)
      | _ => none
    | none =>
      some (GetTensorPtrType StorageType element_type, MlirType.RankedTensor tensor_type)
  | _ => none

/-- The loop of lines 477-503 over the operand types that are left, `index` being the number
of the first of them. -/
def RewriteFuncOp.operandTypes (StorageType : Nat → Nat) (op : FuncOp) :
    Nat → List MlirType → Option (List (MlirType × MlirType))
  | _, [] => some []
  | index, operand_type :: rest =>
    match RewriteFuncOp.operandType StorageType op index operand_type with
    | none => none
    | some operand =>
      match RewriteFuncOp.operandTypes StorageType op (index + 1) rest with
      | none => none
      | some operands => some (operand :: operands)

/-- The rule `RewriteFuncOp::matchAndRewrite(op, rewriter)`. -/
def RewriteFuncOp.matchAndRewrite (StorageType : Nat → Nat) (op : FuncOp) :
    Option FuncMatchResult :=
  let input_types := op.inputs
  let output_types := op.results
  if !AreRankedTensors input_types || !AreRankedTensors output_types then
    some (FuncMatchResult.failure "Expected all inputs and results to have tensor type.")
  else
    match RewriteFuncOp.operandTypes StorageType op 0 input_types with
    | none => none
    | some operands =>
      let new_operand_types := operands.map Prod.fst
      let arg_attrs : List (List (String × Attribute)) :=
        match op.arg_attrs with
        | some oldArgAttrsArray => oldArgAttrsArray
        | none => []
      let new_arg_attrs := (List.range new_operand_types.length).map (fun i : Nat =>
        if (op.getArgAttr i "tt.nv_tma_desc").isSome then arg_attrs.getD i []
        else setAttr (arg_attrs.getD i []) "tt.divisibility"
          (Attribute.IntegerAttr IntType.I32 16))
      some (FuncMatchResult.success ⟨op.name, new_operand_types, [], new_arg_attrs⟩
        (operands.map Prod.snd))

/-! ## Notions the statements use -/

/-- The canonical form of one tile stride: 0 becomes 1. -/
def canonicalStride (s : Int) : Int := if s = 0 then 1 else s

/-- The normalized layout of rank `n`: `[n-1, n-2, ..., 1, 0]`. -/
def normalizedLayout (n : Nat) : List Int :=
  (List.range n).map (fun i : Nat => (n : Int) - 1 - (i : Int))

/-- The identity permutation of rank `n`: `[0, 1, ..., n-1]`. -/
def identityLayout (n : Nat) : List Int :=
  (List.range n).map (fun k : Nat => (k : Int))

/-- Entry `i` of `result` is `values[layout[N-1-i]]`, for every `i` below the length `N` of
`layout`: `result` is `values` permuted by the reversed layout. -/
def IsPermutedByReversed {α : Type} (values : List α) (layout : List Int) (result : List α) :
    Prop :=
  result.length = layout.length ∧
    ∀ i : Nat, i < layout.length →
      ∃ (d : Int) (v : α), layout[layout.length - 1 - i]? = some d ∧ readAt values d = some v ∧
        result[i]? = some v

/-- The physical byte stride number `i` in the words of the spec: the exact product, over the
unbounded integers, `element_byte_size * shape[layout[0]] * ... * shape[layout[i]]`. -/
def exactByteStride (element_byte_size : Int) (global_shape layout : List Int) (i : Nat) : Int :=
  element_byte_size * ((layout.take (i + 1)).map (fun d => (readAt global_shape d).getD 1)).prod

/-- The invariant of the data model on the operands of one access: tile shape, offsets,
static strides and layout have the rank of the tensor, and the layout is a permutation. -/
def WellFormedAccess (original_shape tile_shape : List Int) (offsets : List Value)
    (static_strides layout : List Int) : Prop :=
  tile_shape.length = original_shape.length ∧ offsets.length = original_shape.length ∧
    static_strides.length = original_shape.length ∧ layout.length = original_shape.length ∧
    IsPermutation layout

instance (original_shape tile_shape : List Int) (offsets : List Value)
    (static_strides layout : List Int) :
    Decidable (WellFormedAccess original_shape tile_shape offsets static_strides layout) := by
  unfold WellFormedAccess; exact inferInstance

/-- The invariant of the data model on a tile extract. -/
def ExtractOp.WellFormed (op : ExtractOp) : Prop :=
  WellFormedAccess op.src.type.shape op.result_type.shape op.offsets op.static_strides
    op.layout ∧ op.strides.length = op.src.type.shape.length

instance (op : ExtractOp) : Decidable op.WellFormed := by
  unfold ExtractOp.WellFormed; exact inferInstance

/-- The invariant of the data model on a tile insert. -/
def InsertOp.WellFormed (op : InsertOp) : Prop :=
  WellFormedAccess op.dst.type.shape op.src_type.shape op.offsets op.static_strides
    op.layout ∧ op.strides.length = op.dst.type.shape.length

instance (op : InsertOp) : Decidable op.WellFormed := by
  unfold InsertOp.WellFormed; exact inferInstance

/-- An offset whose divisibility the pass does not try to prove: a value without defining
operation, the result of an operation other than a constant index or an apply-indexing, or the
result of an apply-indexing whose affine map does not have exactly one result. -/
def Value.notProvable : Value → Bool
  | Value.blockArgument _ => true
  | Value.constantIndex _ => false
  | Value.applyIndexing results => results.length != 1
  | Value.otherOp _ => true

/-- The product of the sizes of the `k` minor-most dimensions:
`shape[layout[0]] * ... * shape[layout[k-1]]`, over the unbounded integers. -/
def minorProduct (shape layout : List Int) (k : Nat) : Int :=
  ((layout.take k).map (fun j => (readAt shape j).getD 1)).prod

/-- The multiplier `m_d` of dimension `d` in the dense layout: the product of
`shape[layout[j]]` over the positions `j` that precede `d` in the layout. -/
def denseMultiplier (shape layout : List Int) (d : Nat) : Int :=
  minorProduct shape layout (layout.indexOf (d : Int))

/-- Modelled from the spec: `xla::GetBitcastMap` is not among the translated sources. By the
spec the bitcast map from the tensor shape in its dense layout to the flattened 1-D shape gives
"a single linear (flattened) element offset": the sum over the dimensions `d` of
`x[d] * m_d`. -/
def linearIndex (shape layout : List Int) (x : List Int) : Int :=
  ((List.range shape.length).map (fun d : Nat => x.getD d 0 * denseMultiplier shape layout d)).sum

/-- The run-time value of a value of the program before the rewrite, under a valuation of the
values: the constant of a constant-index operation is its own value. -/
def Value.runtime (valueOf : Value → Int) : Value → Int
  | Value.constantIndex value => value
  | v => valueOf v

/-- The run-time value of a scalar the pass builds, in 64-bit two's complement arithmetic (the
index type has 64 bits). The subtraction and the multiplication are those on `i64`; a cast to
`i32` truncates. The null value has no run-time value and is given 0. -/
def Scalar.eval (valueOf : Value → Int) : Scalar → Int
  | Scalar.null => 0
  | Scalar.value v => v.runtime valueOf
  | Scalar.CreateConst IntType.I32 c => toInt32 c
  | Scalar.CreateConst IntType.I64 c => toInt64 c
  | Scalar.IndexCastUIOp IntType.I32 operand => toInt32 (Scalar.eval valueOf operand)
  | Scalar.IndexCastUIOp IntType.I64 operand => toInt64 (Scalar.eval valueOf operand)
  | Scalar.SubIOp lhs rhs => toInt64 (Scalar.eval valueOf lhs - Scalar.eval valueOf rhs)
  | Scalar.MulIOp lhs rhs => toInt64 (Scalar.eval valueOf lhs * Scalar.eval valueOf rhs)
  | Scalar.ApplyIndexingOp operands indexing_map =>
    toInt64 (linearIndex indexing_map.dimensions indexing_map.minor_to_major
      (operands.map (Value.runtime valueOf)))

/-- The logical index of element `index` of a tile, dimension by dimension:
`offsets[d] + index[d] * tile_strides[d]`, for the dimensions below `rank`. -/
def tileElement (rank : Nat) (offsets index tile_strides : List Int) : List Int :=
  (List.range rank).map
    (fun d : Nat => offsets.getD d 0 + index.getD d 0 * tile_strides.getD d 0)

/-- The attributes of an argument record the access: a `tt.tma_descriptor` attribute is among
them whose global shape, tile shape and layout are those given, and whose tile strides are the
given static strides with every 0 replaced by 1. -/
def RecordsAccess (arg_attrs : List (String × Attribute))
    (global_shape tile_shape static_strides layout : List Int) : Prop :=
  ∃ attr : TmaDescriptorAttr, ("tt.tma_descriptor", Attribute.TmaDescriptor attr) ∈ arg_attrs ∧
    attr.global_shape = global_shape ∧ attr.tile_shape = tile_shape ∧
    attr.tile_strides = static_strides.map canonicalStride ∧ attr.layout = layout

/-- The tile extract of the end-to-end example of the spec: original shape `[1024, 1024]`, tile
shape `[128, 128]`, constant offsets `[0, 0]`, layout `[1, 0]`, strides `[1, 1]`, on a
function argument with a single use, for elements of the given bit width. -/
def endToEndExtract (bit_width : Nat) : ExtractOp where
  src := ⟨⟨[1024, 1024], bit_width⟩, true, 1, true⟩
  result_type := ⟨[128, 128], bit_width⟩
  offsets := [Value.constantIndex 0, Value.constantIndex 0]
  static_strides := [1, 1]
  strides := [Value.constantIndex 1, Value.constantIndex 1]
  layout := [1, 0]

/-- The invariant of the data model on the descriptor attributes of a function: an attribute
`tt.tma_descriptor` of an argument is a `TmaDescriptorAttr` whose layout is a permutation of
the rank of its tile shape. -/
def FuncOp.DescriptorsWellFormed (op : FuncOp) : Prop :=
  ∀ (i : Nat) (attr : Attribute), op.getArgAttr i "tt.tma_descriptor" = some attr →
    ∃ d : TmaDescriptorAttr, attr = Attribute.TmaDescriptor d ∧ IsPermutation d.layout ∧
      d.tile_shape.length = d.layout.length

/-- A function of two tensor arguments and one tensor result, as the access-site rules leave
it: argument 0 was put on the fast path with the tile `[16, 32]` of layout `[0, 1]` and carries
the two TMA attributes, argument 1 carries none. -/
def fusedFuncOp : FuncOp :=
  ⟨"fused_computation",
    [MlirType.RankedTensor ⟨[128, 64], 32⟩, MlirType.RankedTensor ⟨[128, 64], 16⟩],
    [MlirType.RankedTensor ⟨[128, 64], 32⟩],
    some [[("tt.nv_tma_desc", Attribute.IntegerAttr IntType.I32 1),
        ("tt.tma_descriptor", Attribute.TmaDescriptor ⟨[128, 64], [16, 32], [1, 1], [0, 1], 4⟩)],
      []]⟩

/-- The violation of the input contract on strides: a stride of 0 at an index where the tile
extent and the extent of the original tensor both differ from 1. -/
def ZeroStrideViolation (tile_strides tile_shape original_shape : List Int) : Prop :=
  ∃ (i : Nat) (t o : Int), tile_strides[i]? = some 0 ∧ tile_shape[i]? = some t ∧
    original_shape[i]? = some o ∧ t ≠ 1 ∧ o ≠ 1

/-- The plain permutation of `values` by the reversed layout, in the words of the
specification of `Normalize`: entry `i` of the result is `values[layout[N-1-i]]`, for `N` the
length of the layout. -/
def NormalizePlain {α : Type} (values : List α) (layout : List Int) : List α :=
  (List.range layout.length).filterMap
    (fun i : Nat => (layout[layout.length - 1 - i]?).bind (readAt values))

/-! ## `CanonicalizeTileStrides`: theorems -/

/-- What a run of the loop of `CanonicalizeTileStrides` from index `i` on establishes, whatever
it returns. -/
theorem CanonicalizeTileStrides.loop_sound (tile_shape original_shape : List Int) :
    ∀ (n i : Nat) (s : List Int) (st : Status) (r : List Int), i + n = s.length →
      CanonicalizeTileStrides.loop tile_shape original_shape n i s = some (st, r) →
        (st = Status.OkStatus →
          (∀ j, i ≤ j → s[j]? = some 0 → tile_shape[j]? = some 1 ∨ original_shape[j]? = some 1) ∧
          ∀ j, r[j]? = if j < i then s[j]? else (s[j]?).map canonicalStride) ∧
        (∀ j t o, st = Status.InvalidArgumentError j t o →
          i ≤ j ∧ s[j]? = some 0 ∧ tile_shape[j]? = some t ∧ original_shape[j]? = some o ∧
            t ≠ 1 ∧ o ≠ 1) := by
  intro n
  induction n with
  | zero =>
    intro i s st r hi hrun
    simp only [CanonicalizeTileStrides.loop, Option.some.injEq, Prod.mk.injEq] at hrun
    obtain ⟨rfl, rfl⟩ := hrun
    refine ⟨fun _ => ⟨?_, ?_⟩, ?_⟩
    · intro j hj h0
      have : s[j]? = none := List.getElem?_eq_none (by omega)
      rw [this] at h0; cases h0
    · intro j
      by_cases hj : j < i
      · simp [hj]
      · have : s[j]? = none := List.getElem?_eq_none (by omega)
        simp [hj, this]
    · intro j t o h; cases h
  | succ n ih =>
    intro i s st r hi hrun
    have his : i < s.length := by omega
    have hsi : s[i]? = some s[i] := List.getElem?_eq_getElem his
    rw [CanonicalizeTileStrides.loop] at hrun
    simp only [hsi] at hrun
    by_cases h0 : s[i] = 0
    · rw [if_pos h0] at hrun
      -- the rounds after a stride 0 that is within the contract
      have hcont : (tile_shape[i]? = some 1 ∨ original_shape[i]? = some 1) →
          CanonicalizeTileStrides.loop tile_shape original_shape n (i + 1) (s.set i 1)
            = some (st, r) →
          (st = Status.OkStatus →
            (∀ j, i ≤ j → s[j]? = some 0 →
              tile_shape[j]? = some 1 ∨ original_shape[j]? = some 1) ∧
            ∀ j, r[j]? = if j < i then s[j]? else (s[j]?).map canonicalStride) ∧
          (∀ j t o, st = Status.InvalidArgumentError j t o →
            i ≤ j ∧ s[j]? = some 0 ∧ tile_shape[j]? = some t ∧ original_shape[j]? = some o ∧
              t ≠ 1 ∧ o ≠ 1) := by
        intro hone hrest
        obtain ⟨hok, herr⟩ := ih (i + 1) (s.set i 1) st r (by simp; omega) hrest
        refine ⟨?_, ?_⟩
        · intro hst
          obtain ⟨hgood, hr⟩ := hok hst
          refine ⟨?_, ?_⟩
          · intro j hj hj0
            rcases Nat.eq_or_lt_of_le hj with rfl | hlt
            · exact hone
            · apply hgood j hlt
              rw [List.getElem?_set]
              have : ¬ i = j := by omega
              simpa [this] using hj0
          · intro j
            rw [hr j, List.getElem?_set]
            by_cases hji : j < i
            · have h1 : j < i + 1 := by omega
              have h2 : ¬ i = j := by omega
              simp [hji, h1, h2]
            · by_cases hje : i = j
              · subst hje
                simp [his, hsi, h0, canonicalStride]
              · have h1 : ¬ j < i + 1 := by omega
                simp [hji, h1, hje]
        · intro j t' o' hst
          obtain ⟨h1, h2, h3, h4, h5, h6⟩ := herr j t' o' hst
          refine ⟨by omega, ?_, h3, h4, h5, h6⟩
          rw [List.getElem?_set] at h2
          have : ¬ i = j := by omega
          simpa [this] using h2
      cases hti : tile_shape[i]? with
      | none => simp [hti] at hrun
      | some t =>
        simp only [hti] at hrun
        by_cases ht1 : t ≠ 1
        · rw [if_pos ht1] at hrun
          cases hoi : original_shape[i]? with
          | none => simp [hoi] at hrun
          | some o =>
            simp only [hoi] at hrun
            by_cases ho1 : o ≠ 1
            · rw [if_pos ho1] at hrun
              simp only [Option.some.injEq, Prod.mk.injEq] at hrun
              obtain ⟨rfl, rfl⟩ := hrun
              refine ⟨fun h => (nomatch h), ?_⟩
              intro j t' o' h
              cases h
              exact ⟨le_refl _, by rw [hsi, h0], hti, hoi, ht1, ho1⟩
            · rw [if_neg ho1] at hrun
              have hoe : o = 1 := by
                by_contra h2; exact ho1 h2
              exact hcont (Or.inr (by rw [hoi, hoe])) hrun
        · rw [if_neg ht1] at hrun
          have hte : t = 1 := by
            by_contra h2; exact ht1 h2
          exact hcont (Or.inl (by rw [hti, hte])) hrun
    · rw [if_neg h0] at hrun
      obtain ⟨hok, herr⟩ := ih (i + 1) s st r (by omega) hrun
      refine ⟨?_, ?_⟩
      · intro hst
        obtain ⟨hgood, hr⟩ := hok hst
        refine ⟨?_, ?_⟩
        · intro j hj hj0
          rcases Nat.eq_or_lt_of_le hj with rfl | hlt
          · rw [hsi] at hj0
            exact absurd (Option.some.inj hj0) h0
          · exact hgood j hlt hj0
        · intro j
          rw [hr j]
          by_cases hji : j < i
          · have h1 : j < i + 1 := by omega
            simp [hji, h1]
          · by_cases hje : i = j
            · subst hje
              simp [hsi, h0, canonicalStride]
            · have h1 : ¬ j < i + 1 := by omega
              simp [hji, h1]
      · intro j t o hst
        obtain ⟨h1, h2, h3, h4, h5, h6⟩ := herr j t o hst
        exact ⟨by omega, h2, h3, h4, h5, h6⟩

/-- With shapes at least as long as the strides, the loop of `CanonicalizeTileStrides` reads
inside its arrays and returns. -/
theorem CanonicalizeTileStrides.loop_defined (tile_shape original_shape : List Int) :
    ∀ (n i : Nat) (s : List Int), i + n = s.length → s.length ≤ tile_shape.length →
      s.length ≤ original_shape.length →
      ∃ st r, CanonicalizeTileStrides.loop tile_shape original_shape n i s = some (st, r) := by
  intro n
  induction n with
  | zero => intro i s _ _ _; exact ⟨_, _, rfl⟩
  | succ n ih =>
    intro i s hi hts hos
    have hsi : s[i]? = some s[i] := List.getElem?_eq_getElem (by omega)
    have hti : tile_shape[i]? = some tile_shape[i] := List.getElem?_eq_getElem (by omega)
    have hoi : original_shape[i]? = some original_shape[i] := List.getElem?_eq_getElem (by omega)
    rw [CanonicalizeTileStrides.loop]
    simp only [hsi, hti]
    by_cases h0 : s[i] = 0
    · rw [if_pos h0]
      by_cases ht1 : tile_shape[i] ≠ 1
      · rw [if_pos ht1]
        simp only [hoi]
        by_cases ho1 : original_shape[i] ≠ 1
        · rw [if_pos ho1]; exact ⟨_, _, rfl⟩
        · rw [if_neg ho1]
          exact ih (i + 1) (s.set i 1) (by simp; omega) (by simpa using hts)
            (by simpa using hos)
      · rw [if_neg ht1]
        exact ih (i + 1) (s.set i 1) (by simp; omega) (by simpa using hts) (by simpa using hos)
    · rw [if_neg h0]
      exact ih (i + 1) s (by omega) hts hos

/-- The short-circuit at work: with `tile_shape[0] == 1` the loop does not read
`original_shape[0]`, which is not there, and returns OK. -/
theorem CanonicalizeTileStrides_short_circuit :
    CanonicalizeTileStrides [0] [1] [] = some (Status.OkStatus, [1]) := by
  decide

/-- On OK the strides left by `CanonicalizeTileStrides` are the input with every 0 replaced
by 1. -/
theorem CanonicalizeTileStrides_ok_eq_map (tile_strides tile_shape original_shape r : List Int)
    (h : CanonicalizeTileStrides tile_strides tile_shape original_shape
      = some (Status.OkStatus, r)) :
    r = tile_strides.map canonicalStride := by
  have hs := (CanonicalizeTileStrides.loop_sound tile_shape original_shape tile_strides.length 0
    tile_strides Status.OkStatus r (by simp) h).1 rfl
  apply List.ext_getElem?
  intro j
  rw [hs.2 j]
  simp

/-- C1: for shapes as long as the strides, `CanonicalizeTileStrides` returns, and its status is
OK if and only if at every index where the tile stride is 0 the tile shape or the original
shape is 1; otherwise the status is the invalid-argument error, raised at an index with
stride 0 where both shapes differ from 1. -/
theorem CanonicalizeTileStrides_ok_iff (tile_strides tile_shape original_shape : List Int)
    (hts : tile_shape.length = tile_strides.length)
    (hos : original_shape.length = tile_strides.length) :
    ∃ st r, CanonicalizeTileStrides tile_strides tile_shape original_shape = some (st, r) ∧
      (st = Status.OkStatus ↔
        ∀ i : Nat, tile_strides[i]? = some 0 →
          tile_shape[i]? = some 1 ∨ original_shape[i]? = some 1) ∧
      (st ≠ Status.OkStatus →
        ∃ (i : Nat) (t o : Int), st = Status.InvalidArgumentError i t o ∧
          tile_strides[i]? = some 0 ∧
          tile_shape[i]? = some t ∧ original_shape[i]? = some o ∧ t ≠ 1 ∧ o ≠ 1) := by
  obtain ⟨st, r, hrun⟩ := CanonicalizeTileStrides.loop_defined tile_shape original_shape
    tile_strides.length 0 tile_strides (by simp) (by omega) (by omega)
  obtain ⟨hok, herr⟩ := CanonicalizeTileStrides.loop_sound tile_shape original_shape
    tile_strides.length 0 tile_strides st r (by simp) hrun
  have hbad : st ≠ Status.OkStatus →
      ∃ (i : Nat) (t o : Int), st = Status.InvalidArgumentError i t o ∧ tile_strides[i]? = some 0 ∧
        tile_shape[i]? = some t ∧ original_shape[i]? = some o ∧ t ≠ 1 ∧ o ≠ 1 := by
    intro hne
    cases st with
    | OkStatus => exact absurd rfl hne
    | InvalidArgumentError i t o =>
      obtain ⟨_, h2, h3, h4, h5, h6⟩ := herr i t o rfl
      exact ⟨i, t, o, rfl, h2, h3, h4, h5, h6⟩
  refine ⟨st, r, hrun, ⟨?_, ?_⟩, hbad⟩
  · intro hst i hi
    exact (hok hst).1 i (Nat.zero_le _) hi
  · intro hall
    by_contra hne
    obtain ⟨i, t, o, _, h2, h3, h4, h5, h6⟩ := hbad hne
    rcases hall i h2 with h | h
    · rw [h3] at h; exact h5 (Option.some.inj h)
    · rw [h4] at h; exact h6 (Option.some.inj h)

/-- C1 at the inputs of the spec: strides `[0,2]`, tile shape `[1,4]`, original shape `[5,8]`
succeed, and with tile shape `[2,4]` the call fails. -/
theorem CanonicalizeTileStrides_ok_iff_witness :
    ([1, 4] : List Int).length = ([0, 2] : List Int).length ∧
    ([5, 8] : List Int).length = ([0, 2] : List Int).length ∧
    (∃ st r, CanonicalizeTileStrides [0, 2] [1, 4] [5, 8] = some (st, r) ∧
      (st = Status.OkStatus ↔
        ∀ i : Nat, ([0, 2] : List Int)[i]? = some 0 →
          ([1, 4] : List Int)[i]? = some 1 ∨ ([5, 8] : List Int)[i]? = some 1) ∧
      (st ≠ Status.OkStatus →
        ∃ (i : Nat) (t o : Int), st = Status.InvalidArgumentError i t o ∧
          ([0, 2] : List Int)[i]? = some 0 ∧
          ([1, 4] : List Int)[i]? = some t ∧ ([5, 8] : List Int)[i]? = some o ∧ t ≠ 1 ∧ o ≠ 1)) ∧
    CanonicalizeTileStrides [0, 2] [1, 4] [5, 8] = some (Status.OkStatus, [1, 2]) ∧
    CanonicalizeTileStrides [0, 2] [2, 4] [5, 8]
      = some (Status.InvalidArgumentError 0 2 5, [0, 2]) :=
  ⟨rfl, rfl, CanonicalizeTileStrides_ok_iff [0, 2] [1, 4] [5, 8] rfl rfl, by decide, by decide⟩

/-- C2: whenever `CanonicalizeTileStrides` returns OK, the strides it leaves have the length of
the input, hold 1 wherever the input held 0, hold the input's entry wherever that was not 0,
and so hold no 0. -/
theorem CanonicalizeTileStrides_ok_result
    (tile_strides tile_shape original_shape r : List Int)
    (h : CanonicalizeTileStrides tile_strides tile_shape original_shape
      = some (Status.OkStatus, r)) :
    r.length = tile_strides.length ∧
    (∀ i : Nat, tile_strides[i]? = some 0 → r[i]? = some 1) ∧
    (∀ (i : Nat) (s : Int), tile_strides[i]? = some s → s ≠ 0 → r[i]? = some s) ∧
    (∀ x ∈ r, x ≠ 0) := by
  have hr := CanonicalizeTileStrides_ok_eq_map tile_strides tile_shape original_shape r h
  subst hr
  refine ⟨by simp, ?_, ?_, ?_⟩
  · intro i hi
    simp [hi, canonicalStride]
  · intro i s hi hs
    simp [hi, canonicalStride, hs]
  · intro x hx
    obtain ⟨s, _, rfl⟩ := List.mem_map.1 hx
    unfold canonicalStride
    split <;> simp_all

/-- C2 at the input of the spec: strides `[0,2]` with tile shape `[1,4]` and original shape
`[5,8]` yield `[1,2]`. -/
theorem CanonicalizeTileStrides_ok_result_witness :
    CanonicalizeTileStrides [0, 2] [1, 4] [5, 8] = some (Status.OkStatus, [1, 2]) ∧
    (([1, 2] : List Int).length = ([0, 2] : List Int).length ∧
    (∀ i : Nat, ([0, 2] : List Int)[i]? = some 0 → ([1, 2] : List Int)[i]? = some 1) ∧
    (∀ (i : Nat) (s : Int), ([0, 2] : List Int)[i]? = some s → s ≠ 0 →
      ([1, 2] : List Int)[i]? = some s) ∧
    (∀ x ∈ ([1, 2] : List Int), x ≠ 0)) :=
  ⟨by decide, CanonicalizeTileStrides_ok_result [0, 2] [1, 4] [5, 8] [1, 2] (by decide)⟩

/-! ## `ComputeBoundaryChecks`: theorems -/

/-- Once the loop of `ComputeBoundaryChecks` has met a tile size 0 it does not return. -/
theorem ComputeBoundaryChecks.foldl_none (l : List (Nat × Int × Int)) :
    l.foldl (fun (boundary_checks : Option (List Nat)) (p : Nat × Int × Int) =>
        match boundary_checks with
        | none => none
        | some boundary_checks =>
          if p.2.2 = 0 then none
          else if Int.tmod p.2.1 p.2.2 ≠ 0 then some (boundary_checks ++ [p.1])
          else some boundary_checks) none
      = none := by
  induction l with
  | nil => rfl
  | cons p l ih => rw [List.foldl_cons]; exact ih

/-- The loop of `ComputeBoundaryChecks` returns exactly when no pair has the tile size 0, and
then appends, to what it has collected, the numbers of the pairs whose remainder is not zero,
in the order of the pairs. -/
theorem ComputeBoundaryChecks.foldl_eq (l : List (Nat × Int × Int)) :
    ∀ acc : List Nat,
      l.foldl (fun (boundary_checks : Option (List Nat)) (p : Nat × Int × Int) =>
          match boundary_checks with
          | none => none
          | some boundary_checks =>
            if p.2.2 = 0 then none
            else if Int.tmod p.2.1 p.2.2 ≠ 0 then some (boundary_checks ++ [p.1])
            else some boundary_checks) (some acc)
        = if l.all (fun p => p.2.2 != 0) then
            some (acc ++ (l.filter (fun p => Int.tmod p.2.1 p.2.2 != 0)).map Prod.fst)
          else none := by
  induction l with
  | nil => intro acc; simp
  | cons p l ih =>
    intro acc
    rw [List.foldl_cons]
    by_cases h0 : p.2.2 = 0
    · simp only [h0, if_true]
      rw [ComputeBoundaryChecks.foldl_none]
      simp [h0]
    · by_cases hp : Int.tmod p.2.1 p.2.2 = 0
      · have hb : (p.2.2 != 0) = true := by simpa using h0
        simp only [h0, if_false, hp, ne_eq, not_true_eq_false]
        rw [ih, List.all_cons, hb, Bool.true_and]
        simp [hp]
      · have hb : (p.2.2 != 0) = true := by simpa using h0
        simp only [h0, if_false, hp, ne_eq, not_false_eq_true, if_true]
        rw [ih, List.all_cons, hb, Bool.true_and]
        simp [hp]

/-- The function `ComputeBoundaryChecks` returns exactly when no pair of dimension and tile
size has the tile size 0, and then the numbers of the pairs whose remainder is not zero. -/
theorem ComputeBoundaryChecks_eq_filter (original_shape tile_shape : List Int) :
    ComputeBoundaryChecks original_shape tile_shape
      = if (original_shape.zip tile_shape).all (fun p => p.2 != 0) then
          some (((original_shape.zip tile_shape).enum.filter
            (fun p => Int.tmod p.2.1 p.2.2 != 0)).map Prod.fst)
        else none := by
  unfold ComputeBoundaryChecks
  rw [ComputeBoundaryChecks.foldl_eq]
  have hall : (original_shape.zip tile_shape).enum.all (fun p => p.2.2 != 0)
      = (original_shape.zip tile_shape).all (fun p => p.2 != 0) := by
    rw [Bool.eq_iff_iff, List.all_eq_true, List.all_eq_true]
    constructor
    · intro h q hq
      obtain ⟨i, hi⟩ := List.mem_iff_getElem?.1 hq
      exact h (i, q) (List.mem_enum_iff_getElem?.2 hi)
    · intro h p hp
      exact h p.2 (List.mem_iff_getElem?.2 ⟨p.1, List.mem_enum_iff_getElem?.1 hp⟩)
  rw [hall]
  simp

/-- The function `ComputeBoundaryChecks` returns when no tile size is 0. -/
theorem ComputeBoundaryChecks_defined (original_shape tile_shape : List Int)
    (htile : ∀ t ∈ tile_shape, t ≠ 0) :
    ∃ checks, ComputeBoundaryChecks original_shape tile_shape = some checks := by
  rw [ComputeBoundaryChecks_eq_filter]
  have hall : (original_shape.zip tile_shape).all (fun p => p.2 != 0) = true := by
    rw [List.all_eq_true]
    intro p hp
    have := htile p.2 (List.of_mem_zip hp).2
    simpa using this
  rw [if_pos hall]
  exact ⟨_, rfl⟩

/-- When `ComputeBoundaryChecks` returns, no tile size it has read is 0. -/
theorem ComputeBoundaryChecks_tile_ne_zero (original_shape tile_shape : List Int)
    (checks : List Nat) (hrun : ComputeBoundaryChecks original_shape tile_shape = some checks)
    (d : Nat) (o t : Int) (ho : original_shape[d]? = some o) (ht : tile_shape[d]? = some t) :
    t ≠ 0 := by
  rw [ComputeBoundaryChecks_eq_filter] at hrun
  split at hrun
  · rename_i hall
    rw [List.all_eq_true] at hall
    have hmem : (o, t) ∈ original_shape.zip tile_shape := by
      rw [List.mem_iff_getElem?]
      exact ⟨d, List.getElem?_zip_eq_some.2 ⟨ho, ht⟩⟩
    simpa using hall (o, t) hmem
  · cases hrun

/-- The dimensions `ComputeBoundaryChecks` returns are those whose size leaves a remainder. -/
theorem ComputeBoundaryChecks_mem (original_shape tile_shape : List Int) (checks : List Nat)
    (hrun : ComputeBoundaryChecks original_shape tile_shape = some checks) (d : Nat) :
    d ∈ checks ↔
      ∃ o t, original_shape[d]? = some o ∧ tile_shape[d]? = some t ∧ Int.tmod o t ≠ 0 := by
  rw [ComputeBoundaryChecks_eq_filter] at hrun
  split at hrun
  · rw [← Option.some.inj hrun]
    simp only [List.mem_map, List.mem_filter, List.mem_enum_iff_getElem?,
      List.getElem?_zip_eq_some, bne_iff_ne]
    constructor
    · rintro ⟨⟨i, o, t⟩, ⟨⟨ho, ht⟩, hne⟩, rfl⟩
      exact ⟨o, t, ho, ht, hne⟩
    · rintro ⟨o, t, ho, ht, hne⟩
      exact ⟨(d, o, t), ⟨⟨ho, ht⟩, hne⟩, rfl⟩
  · cases hrun

/-- The dimensions `ComputeBoundaryChecks` returns come in strictly increasing order. -/
theorem ComputeBoundaryChecks_pairwise (original_shape tile_shape : List Int)
    (checks : List Nat)
    (hrun : ComputeBoundaryChecks original_shape tile_shape = some checks) :
    checks.Pairwise (fun a b => a < b) := by
  rw [ComputeBoundaryChecks_eq_filter] at hrun
  split at hrun
  · rw [← Option.some.inj hrun]
    refine List.Pairwise.sublist ((List.filter_sublist _).map Prod.fst) ?_
    rw [List.enum_map_fst]
    exact List.pairwise_lt_range _
  · cases hrun

/-- C3: for an original shape and a tile shape of equal length with no tile size zero,
`ComputeBoundaryChecks` returns exactly the dimensions `d` with
`original_shape[d] % tile_shape[d] != 0`, in strictly increasing order, so that its result is
empty if and only if the tile size divides the dimension size in every dimension. -/
theorem ComputeBoundaryChecks_spec (original_shape tile_shape : List Int)
    (hlen : original_shape.length = tile_shape.length) (htile : ∀ t ∈ tile_shape, t ≠ 0) :
    ∃ checks, ComputeBoundaryChecks original_shape tile_shape = some checks ∧
      checks = (List.range original_shape.length).filter
          (fun d => Int.tmod (original_shape.getD d 0) (tile_shape.getD d 0) != 0) ∧
      (∀ d : Nat, d ∈ checks ↔
        ∃ o t, original_shape[d]? = some o ∧ tile_shape[d]? = some t ∧ Int.tmod o t ≠ 0) ∧
      checks.Pairwise (fun a b => a < b) ∧
      (checks = [] ↔
        ∀ (d : Nat) (o t : Int), original_shape[d]? = some o → tile_shape[d]? = some t →
          t ∣ o) := by
  obtain ⟨checks, hrun⟩ := ComputeBoundaryChecks_defined original_shape tile_shape htile
  have hmem := ComputeBoundaryChecks_mem original_shape tile_shape checks hrun
  have hpw := ComputeBoundaryChecks_pairwise original_shape tile_shape checks hrun
  refine ⟨checks, hrun, ?_, hmem, hpw, ?_⟩
  · have hpw2 : ((List.range original_shape.length).filter
        (fun d => Int.tmod (original_shape.getD d 0) (tile_shape.getD d 0) != 0)).Pairwise
        (fun a b => a < b) :=
      List.Pairwise.sublist (List.filter_sublist _) (List.pairwise_lt_range _)
    refine List.eq_of_perm_of_sorted ?_ hpw hpw2
    refine (List.perm_ext_iff_of_nodup (hpw.imp (fun h => Nat.ne_of_lt h))
      (hpw2.imp (fun h => Nat.ne_of_lt h))).2 ?_
    intro d
    rw [hmem d]
    simp only [List.mem_filter, List.mem_range, bne_iff_ne, List.getD_eq_getElem?_getD]
    constructor
    · rintro ⟨o, t, ho, ht, hne⟩
      have hd : d < original_shape.length := by
        by_contra hge
        rw [List.getElem?_eq_none (by omega)] at ho
        cases ho
      exact ⟨hd, by simpa [ho, ht] using hne⟩
    · rintro ⟨hd, hne⟩
      have ho : original_shape[d]? = some original_shape[d] := List.getElem?_eq_getElem hd
      have hd2 : d < tile_shape.length := by omega
      have ht : tile_shape[d]? = some tile_shape[d] := List.getElem?_eq_getElem hd2
      exact ⟨_, _, ho, ht, by simpa [ho, ht] using hne⟩
  · rw [List.eq_nil_iff_forall_not_mem]
    constructor
    · intro h d o t ho ht
      by_contra hdvd
      exact h d ((hmem d).2 ⟨o, t, ho, ht, fun h0 => hdvd (Int.dvd_of_tmod_eq_zero h0)⟩)
    · intro h d hd
      obtain ⟨o, t, ho, ht, hne⟩ := (hmem d).1 hd
      exact hne (Int.tmod_eq_zero_of_dvd (h d o t ho ht))

/-- C3 at the inputs of the spec: shape `[8,8]` with tile `[4,4]` gives no check, shape `[9,8]`
with tile `[4,4]` gives `[0]`, shape `[1024,1024]` with tile `[128,128]` gives no check; with a
tile size 0 the function does not return. -/
theorem ComputeBoundaryChecks_spec_witness :
    (([9, 8] : List Int).length = ([4, 4] : List Int).length ∧
      (∀ t ∈ ([4, 4] : List Int), t ≠ 0) ∧
      (∃ checks, ComputeBoundaryChecks [9, 8] [4, 4] = some checks ∧
        checks = (List.range ([9, 8] : List Int).length).filter
          (fun d => Int.tmod (([9, 8] : List Int).getD d 0) (([4, 4] : List Int).getD d 0)
            != 0) ∧
        (∀ d : Nat, d ∈ checks ↔
          ∃ o t, ([9, 8] : List Int)[d]? = some o ∧ ([4, 4] : List Int)[d]? = some t ∧
            Int.tmod o t ≠ 0) ∧
        checks.Pairwise (fun a b => a < b) ∧
        (checks = [] ↔
          ∀ (d : Nat) (o t : Int), ([9, 8] : List Int)[d]? = some o →
            ([4, 4] : List Int)[d]? = some t → t ∣ o))) ∧
    ComputeBoundaryChecks [8, 8] [4, 4] = some [] ∧
    ComputeBoundaryChecks [9, 8] [4, 4] = some [0] ∧
    ComputeBoundaryChecks [1024, 1024] [128, 128] = some [] ∧
    ComputeBoundaryChecks [8, 8] [4, 0] = none :=
  ⟨⟨rfl, by decide, ComputeBoundaryChecks_spec [9, 8] [4, 4] rfl (by decide)⟩,
    by decide, by decide, by decide, by decide⟩

/-! ## Layout normalisation: theorems -/

/-- An `int64_t` and a non-negative number below `2^63` are equal as `uint64_t` only when
they are equal. -/
theorem toUInt64_eq_iff (x k : Int) (hx : IsInt64 x) (hk0 : 0 ≤ k) (hk : k < 2 ^ 63) :
    toUInt64 x = toUInt64 k ↔ x = k := by
  unfold IsInt64 at hx
  unfold toUInt64
  constructor
  · intro h
    omega
  · intro h
    rw [h]

/-- The length of the normalized layout. -/
theorem normalizedLayout_length (n : Nat) : (normalizedLayout n).length = n := by
  unfold normalizedLayout
  rw [List.length_map, List.length_range]

/-- The entries of the normalized layout. -/
theorem normalizedLayout_getElem? (n i : Nat) (hi : i < n) :
    (normalizedLayout n)[i]? = some ((n : Int) - 1 - (i : Int)) := by
  unfold normalizedLayout
  rw [List.getElem?_map, List.getElem?_range hi]
  rfl

/-- The test `IsNormalizedLayout` entry by entry, for a layout of `int64_t` entries. -/
theorem IsNormalizedLayout_entries (layout : List Int) (hty : ∀ x ∈ layout, IsInt64 x)
    (hlen : (layout.length : Int) ≤ 2 ^ 63) :
    IsNormalizedLayout layout = true ↔
      ∀ i : Nat, i < layout.length → layout[i]? = some ((layout.length : Int) - 1 - (i : Int)) := by
  unfold IsNormalizedLayout
  rw [List.all_eq_true]
  constructor
  · intro h i hi
    have hmem : (i, layout[i]) ∈ layout.enum :=
      List.mk_mem_enum_iff_getElem?.2 (List.getElem?_eq_getElem hi)
    have h1 := h _ hmem
    simp only [beq_iff_eq] at h1
    rw [toUInt64_eq_iff _ _ (hty _ (List.getElem_mem hi)) (by omega) (by omega)] at h1
    rw [List.getElem?_eq_getElem hi, h1]
  · rintro h ⟨i, x⟩ hmem
    have hx : layout[i]? = some x := List.mk_mem_enum_iff_getElem?.1 hmem
    have hi : i < layout.length := by
      by_contra hge
      rw [List.getElem?_eq_none (by omega)] at hx
      cases hx
    rw [h i hi] at hx
    simp only [beq_iff_eq]
    rw [← Option.some.inj hx]

/-- C4: for a layout of length `N` (an array of `int64_t`), `IsNormalizedLayout(layout)` is true
if and only if `layout[i] == N-1-i` for every `i` in `0..N-1`, that is exactly for the layout
`[N-1, N-2, ..., 0]`; the empty layout is normalized. -/
theorem IsNormalizedLayout_iff (layout : List Int) (hty : ∀ x ∈ layout, IsInt64 x)
    (hlen : (layout.length : Int) ≤ 2 ^ 63) :
    (IsNormalizedLayout layout = true ↔
      ∀ i : Nat, i < layout.length →
        layout[i]? = some ((layout.length : Int) - 1 - (i : Int))) ∧
    (IsNormalizedLayout layout = true ↔ layout = normalizedLayout layout.length) ∧
    IsNormalizedLayout [] = true := by
  have h1 := IsNormalizedLayout_entries layout hty hlen
  refine ⟨h1, ?_, by decide⟩
  rw [h1]
  constructor
  · intro h
    apply List.ext_getElem?
    intro i
    by_cases hi : i < layout.length
    · rw [h i hi, normalizedLayout_getElem? _ _ hi]
    · rw [List.getElem?_eq_none (by omega), List.getElem?_eq_none]
      rw [normalizedLayout_length]; omega
  · intro h i hi
    have : layout[i]? = (normalizedLayout layout.length)[i]? := by rw [← h]
    rw [this, normalizedLayout_getElem? _ _ hi]

/-- C4 at a concrete layout: `[2,1,0]` is normalized, and `[0,1]` is not. -/
theorem IsNormalizedLayout_iff_witness :
    (∀ x ∈ ([2, 1, 0] : List Int), IsInt64 x) ∧
    ((([2, 1, 0] : List Int).length : Int) ≤ 2 ^ 63) ∧
    (IsNormalizedLayout [2, 1, 0] = true ↔
      ([2, 1, 0] : List Int) = normalizedLayout ([2, 1, 0] : List Int).length) ∧
    IsNormalizedLayout [2, 1, 0] = true ∧ IsNormalizedLayout [0, 1] = false :=
  ⟨by decide, by decide,
    (IsNormalizedLayout_iff [2, 1, 0] (by decide) (by decide)).2.1, by decide, by decide⟩

/-- The entries of a permutation are the numbers below its length. -/
theorem IsPermutation.mem_iff {permutation : List Int} (h : IsPermutation permutation) (x : Int) :
    x ∈ permutation ↔ 0 ≤ x ∧ x < permutation.length := by
  unfold IsPermutation at h
  rw [h.mem_iff, List.mem_map]
  constructor
  · rintro ⟨k, hk, rfl⟩
    rw [List.mem_range] at hk
    exact ⟨Int.ofNat_nonneg k, Int.ofNat_lt.2 hk⟩
  · rintro ⟨h0, hlt⟩
    refine ⟨x.toNat, ?_, ?_⟩
    · rw [List.mem_range]; omega
    · show ((x.toNat : Nat) : Int) = x
      omega

/-- A permutation has no repeated entry. -/
theorem IsPermutation.nodup {permutation : List Int} (h : IsPermutation permutation) :
    permutation.Nodup := by
  unfold IsPermutation at h
  rw [h.nodup_iff]
  exact (List.nodup_range _).map (fun a b hab => Int.ofNat.inj hab)

/-- The reverse of a permutation is a permutation. -/
theorem IsPermutation.reverse {permutation : List Int} (h : IsPermutation permutation) :
    IsPermutation permutation.reverse := by
  unfold IsPermutation at h ⊢
  rw [List.length_reverse]
  exact (List.reverse_perm _).trans h

/-- Where `f` succeeds on every entry, `filterMap f` keeps the positions. -/
theorem filterMap_getElem?_of_forall {α β : Type} (f : α → Option β) :
    ∀ l : List α, (∀ x ∈ l, ∃ y, f x = some y) →
      (l.filterMap f).length = l.length ∧ ∀ i : Nat, (l.filterMap f)[i]? = (l[i]?).bind f := by
  intro l
  induction l with
  | nil => intro _; simp
  | cons a l ih =>
    intro h
    obtain ⟨y, hy⟩ := h a (List.mem_cons_self _ _)
    obtain ⟨ih1, ih2⟩ := ih (fun x hx => h x (List.mem_cons_of_mem _ hx))
    rw [List.filterMap_cons_some hy]
    refine ⟨by simp [ih1], ?_⟩
    intro i
    cases i with
    | zero => simp [hy]
    | succ i => simpa using ih2 i

/-- The function `Permute` returns on a permutation of the indices of its input, and entry `i`
of its result is `input[permutation[i]]`. -/
theorem Permute_spec {α : Type} (input : List α) (permutation : List Int)
    (hlen : permutation.length = input.length) (hperm : IsPermutation permutation) :
    ∃ r, Permute input permutation = some r ∧ r.length = permutation.length ∧
      ∀ i : Nat, i < permutation.length →
        ∃ (d : Int) (v : α), permutation[i]? = some d ∧ readAt input d = some v ∧
          r[i]? = some v := by
  have hall : ∀ x ∈ permutation, ∃ y, readAt input x = some y := by
    intro x hx
    obtain ⟨h0, hlt⟩ := (hperm.mem_iff x).1 hx
    have hx2 : x.toNat < input.length := by omega
    exact ⟨input[x.toNat], by simp [readAt, h0, List.getElem?_eq_getElem hx2]⟩
  obtain ⟨h1, h2⟩ := filterMap_getElem?_of_forall (readAt input) permutation hall
  refine ⟨_, by simp only [Permute, hlen, hperm, and_self, if_true], h1, ?_⟩
  intro i hi
  obtain ⟨v, hv⟩ := hall _ (List.getElem_mem hi)
  refine ⟨permutation[i], v, List.getElem?_eq_getElem hi, hv, ?_⟩
  rw [h2 i, List.getElem?_eq_getElem hi]
  simpa using hv

/-- Permuting by the identity permutation returns the input. -/
theorem Permute_identity {α : Type} (input : List α) :
    Permute input ((List.range input.length).map (fun k : Nat => (k : Int))) = some input := by
  have hlen :
      ((List.range input.length).map (fun k : Nat => (k : Int))).length = input.length := by
    simp
  have hperm : IsPermutation ((List.range input.length).map (fun k : Nat => (k : Int))) := by
    unfold IsPermutation
    rw [hlen]
  obtain ⟨r, hr, hrl, hget⟩ := Permute_spec input _ hlen hperm
  rw [hr]
  congr 1
  apply List.ext_getElem?
  intro i
  by_cases hi : i < input.length
  · obtain ⟨d, v, hd, hv, hri⟩ := hget i (by rw [hlen]; exact hi)
    rw [List.getElem?_map, List.getElem?_range hi] at hd
    simp only [Option.map_some', Option.some.injEq] at hd
    subst hd
    rw [hri, ← hv]
    simp [readAt]
  · rw [List.getElem?_eq_none (by omega), List.getElem?_eq_none (by omega)]

/-- When the layout is not normalized, `NormalizeImpl` permutes by the reversed layout. -/
theorem NormalizeImpl_of_not_normalized {α : Type} (values : List α) (layout : List Int)
    (hperm : IsPermutation layout) (hlen : values.length = layout.length)
    (hn : IsNormalizedLayout layout = false) :
    ∃ r, NormalizeImpl values layout = some r ∧ IsPermutedByReversed values layout r := by
  obtain ⟨r, hr, hrl, hget⟩ := Permute_spec values layout.reverse
    (by rw [List.length_reverse, hlen]) hperm.reverse
  refine ⟨r, by simp [NormalizeImpl, hn, hr], by simpa using hrl, ?_⟩
  intro i hi
  obtain ⟨d, v, hd, hv, hri⟩ := hget i (by simpa using hi)
  refine ⟨d, v, ?_, hv, hri⟩
  rw [List.getElem?_reverse hi] at hd
  exact hd

/-- C5: for values and a layout that is a permutation of `0..N-1` of the same length `N`, a
normalized layout makes `Normalize` return the values unchanged, and any other layout makes it
return the list of length `N` whose `i`-th entry is `values[layout[N-1-i]]`; so it is for the
overload on integer shapes and for the overload on IR values. -/
theorem Normalize_spec (values : List Int) (offsets : List Value) (layout : List Int)
    (hperm : IsPermutation layout) (hv : values.length = layout.length)
    (ho : offsets.length = layout.length) :
    (IsNormalizedLayout layout = true →
      Normalize values layout = some values ∧ NormalizeValues offsets layout = some offsets) ∧
    (IsNormalizedLayout layout = false →
      ∃ r ro, Normalize values layout = some r ∧ IsPermutedByReversed values layout r ∧
        NormalizeValues offsets layout = some ro ∧ IsPermutedByReversed offsets layout ro) := by
  refine ⟨?_, ?_⟩
  · intro hn
    simp [Normalize, NormalizeValues, NormalizeImpl, hn]
  · intro hn
    obtain ⟨r, hr, hrs⟩ := NormalizeImpl_of_not_normalized values layout hperm hv hn
    obtain ⟨ro, hro, hros⟩ := NormalizeImpl_of_not_normalized offsets layout hperm ho hn
    exact ⟨r, ro, hr, hrs, hro, hros⟩

/-- C5 at concrete inputs: the layout `[0,2,1]` sends the values `[10,20,30]` to `[20,30,10]`,
and the normalized layout `[2,1,0]` leaves them as they are. -/
theorem Normalize_spec_witness :
    IsPermutation [0, 2, 1] ∧
    ([10, 20, 30] : List Int).length = ([0, 2, 1] : List Int).length ∧
    ([Value.constantIndex 0, Value.blockArgument 1, Value.otherOp "arith.addi"]).length
      = ([0, 2, 1] : List Int).length ∧
    (IsNormalizedLayout [0, 2, 1] = false →
      ∃ r ro, Normalize [10, 20, 30] [0, 2, 1] = some r ∧
        IsPermutedByReversed [10, 20, 30] [0, 2, 1] r ∧
        NormalizeValues
          [Value.constantIndex 0, Value.blockArgument 1, Value.otherOp "arith.addi"] [0, 2, 1]
          = some ro ∧
        IsPermutedByReversed
          [Value.constantIndex 0, Value.blockArgument 1, Value.otherOp "arith.addi"]
          [0, 2, 1] ro) ∧
    Normalize [10, 20, 30] [0, 2, 1] = some [20, 30, 10] ∧
    Normalize [10, 20, 30] [2, 1, 0] = some [10, 20, 30] :=
  ⟨by decide, rfl, rfl,
    (Normalize_spec [10, 20, 30]
      [Value.constantIndex 0, Value.blockArgument 1, Value.otherOp "arith.addi"] [0, 2, 1]
      (by decide) rfl rfl).2,
    by decide, by decide⟩

/-- The reverse of the normalized layout is the identity permutation. -/
theorem normalizedLayout_reverse (n : Nat) : (normalizedLayout n).reverse = identityLayout n := by
  apply List.ext_getElem?
  intro i
  by_cases hi : i < n
  · rw [List.getElem?_reverse (by rw [normalizedLayout_length]; exact hi),
      normalizedLayout_length, normalizedLayout_getElem? _ _ (by omega)]
    unfold identityLayout
    rw [List.getElem?_map, List.getElem?_range hi]
    simp only [Option.map_some', Option.some.injEq]
    omega
  · rw [List.getElem?_eq_none (by simp [normalizedLayout_length]; omega),
      List.getElem?_eq_none (by simp [identityLayout]; omega)]

/-- Normalizing with `NormalizeImpl` by the normalized layout of the length of the values
returns them. -/
theorem NormalizeImpl_normalizedLayout {α : Type} (values : List α) :
    NormalizeImpl values (normalizedLayout values.length) = some values := by
  unfold NormalizeImpl
  by_cases hn : IsNormalizedLayout (normalizedLayout values.length) = true
  · rw [if_pos hn]
  · rw [if_neg hn]
    show Permute values (normalizedLayout values.length).reverse = some values
    rw [normalizedLayout_reverse]
    exact Permute_identity values

/-- For a permutation layout of at most `2^63` entries, `NormalizeImpl` returns the values
permuted by the reversed layout, on the shortcut for normalized layouts as on the general
path. -/
theorem NormalizeImpl_permuted {α : Type} (values : List α) (layout : List Int)
    (hperm : IsPermutation layout) (hlen : values.length = layout.length)
    (hN : (layout.length : Int) ≤ 2 ^ 63) :
    ∃ r, NormalizeImpl values layout = some r ∧ IsPermutedByReversed values layout r := by
  by_cases hn : IsNormalizedLayout layout = true
  · refine ⟨values, by simp [NormalizeImpl, hn], hlen, ?_⟩
    intro i hi
    have hty : ∀ x ∈ layout, IsInt64 x := by
      intro x hx
      obtain ⟨h0, hlt⟩ := (hperm.mem_iff x).1 hx
      unfold IsInt64
      omega
    have h := (IsNormalizedLayout_entries layout hty hN).1 hn (layout.length - 1 - i)
      (by omega)
    have hi2 : i < values.length := by omega
    refine ⟨(i : Int), values[i], ?_, by simp [readAt, List.getElem?_eq_getElem hi2],
      List.getElem?_eq_getElem hi2⟩
    rw [h]
    congr 1
    omega
  · exact NormalizeImpl_of_not_normalized values layout hperm hlen (by simpa using hn)

/-- C6, the claim as stated fails: with the layout `[1,0]` and the identity permutation `[0,1]`
as second layout, the second `Normalize` reverses `[1,2]` instead of returning it. -/
theorem Normalize_identity_counterexample :
    IsPermutation [1, 0] ∧ ([1, 2] : List Int).length = ([1, 0] : List Int).length ∧
    identityLayout 2 = [0, 1] ∧
    Normalize [1, 2] [1, 0] = some [1, 2] ∧
    Normalize [1, 2] (identityLayout 2) = some [2, 1] ∧
    (Normalize [1, 2] [1, 0]).bind (fun y => Normalize y (identityLayout 2))
      ≠ Normalize [1, 2] [1, 0] := by
  decide

/-- C6, amended: for values `x` and a permutation layout `L` of the same length `N`,
`Normalize(x, L)` returns, and normalizing its result again by the normalized layout
`[N-1, ..., 1, 0]` returns that result unchanged. -/
theorem Normalize_normalizedLayout_idempotent (values : List Int) (layout : List Int)
    (hperm : IsPermutation layout) (hlen : values.length = layout.length) :
    ∃ r, Normalize values layout = some r ∧
      Normalize r (normalizedLayout layout.length) = some r ∧
      (Normalize values layout).bind (fun y => Normalize y (normalizedLayout layout.length))
        = Normalize values layout := by
  have hex : ∃ r, Normalize values layout = some r ∧ r.length = layout.length := by
    by_cases hn : IsNormalizedLayout layout = true
    · exact ⟨values, by simp [Normalize, NormalizeImpl, hn], hlen⟩
    · obtain ⟨r, hr, hrl, _⟩ := NormalizeImpl_of_not_normalized values layout hperm hlen
        (by simpa using hn)
      exact ⟨r, hr, hrl⟩
  obtain ⟨r, hr, hrl⟩ := hex
  have h2 : Normalize r (normalizedLayout layout.length) = some r := by
    rw [← hrl]
    exact NormalizeImpl_normalizedLayout r
  refine ⟨r, hr, h2, ?_⟩
  rw [hr, Option.some_bind, h2]

/-- C6, amended, at a concrete input: the layout `[0,2,1]` sends `[10,20,30]` to `[20,30,10]`,
which the normalized layout `[2,1,0]` leaves as it is. -/
theorem Normalize_normalizedLayout_idempotent_witness :
    IsPermutation [0, 2, 1] ∧ ([10, 20, 30] : List Int).length = ([0, 2, 1] : List Int).length ∧
    (∃ r, Normalize [10, 20, 30] [0, 2, 1] = some r ∧
      Normalize r (normalizedLayout ([0, 2, 1] : List Int).length) = some r ∧
      (Normalize [10, 20, 30] [0, 2, 1]).bind
          (fun y => Normalize y (normalizedLayout ([0, 2, 1] : List Int).length))
        = Normalize [10, 20, 30] [0, 2, 1]) ∧
    Normalize [10, 20, 30] [0, 2, 1] = some [20, 30, 10] ∧
    Normalize [20, 30, 10] [2, 1, 0] = some [20, 30, 10] :=
  ⟨by decide, rfl,
    Normalize_normalizedLayout_idempotent [10, 20, 30] [0, 2, 1] (by decide) rfl,
    by decide, by decide⟩

/-- The length of `InversePermutation`. -/
theorem InversePermutation_length (input_permutation : List Int) :
    (InversePermutation input_permutation).length = input_permutation.length := by
  unfold InversePermutation
  rw [List.length_map, List.length_range]

/-- The entries of `InversePermutation`. -/
theorem InversePermutation_getElem? (input_permutation : List Int) (i : Nat)
    (hi : i < input_permutation.length) :
    (InversePermutation input_permutation)[i]? = some (input_permutation.indexOf (i : Int)) := by
  unfold InversePermutation
  rw [List.getElem?_map, List.getElem?_range hi]
  rfl

/-- The permutation `r` followed by its inverse `p`: `r[p[i]] = i`. -/
theorem InversePermutation_right (r : List Int) (hperm : IsPermutation r) (i : Nat)
    (hi : i < r.length) :
    ∃ j : Nat, (InversePermutation r)[i]? = some j ∧ r[j]? = some (i : Int) := by
  have hmem : (i : Int) ∈ r := (hperm.mem_iff _).2 ⟨Int.ofNat_nonneg i, Int.ofNat_lt.2 hi⟩
  have hlt : r.indexOf (i : Int) < r.length := List.indexOf_lt_length.2 hmem
  refine ⟨r.indexOf (i : Int), InversePermutation_getElem? r i hi, ?_⟩
  rw [List.getElem?_eq_getElem hlt, List.getElem_indexOf hlt]

/-- The inverse `p` followed by the permutation `r`: `p[r[i]] = i`. -/
theorem InversePermutation_left (r : List Int) (hperm : IsPermutation r) (i : Nat)
    (hi : i < r.length) :
    ∃ d : Nat, r[i]? = some (d : Int) ∧ (InversePermutation r)[d]? = some i := by
  obtain ⟨h0, hlt⟩ := (hperm.mem_iff _).1 (List.getElem_mem hi)
  have hd : ((r[i].toNat : Nat) : Int) = r[i] := Int.toNat_of_nonneg h0
  refine ⟨r[i].toNat, by rw [hd]; exact List.getElem?_eq_getElem hi, ?_⟩
  rw [InversePermutation_getElem? r _ (by omega), hd, List.indexOf_getElem hperm.nodup]

/-- C7: for a layout that is a permutation (of any length up to `2^63`, so of length 1 to 5),
with `r` the reversed layout and `p = GetInverseLayoutPermutation(layout)`: `p` has the length
of the layout, `r[p[i]] = i` and `p[r[i]] = i` for every `i`, and permuting
`Normalize(x, layout)` by `p` (entry `i` of the result is entry `p[i]` of the normalized list)
gives back `x`. -/
theorem GetInverseLayoutPermutation_spec (layout : List Int) (hperm : IsPermutation layout)
    (hN : (layout.length : Int) ≤ 2 ^ 63) :
    (GetInverseLayoutPermutation layout).length = layout.length ∧
    (∀ i : Nat, i < layout.length →
      ∃ j : Nat, (GetInverseLayoutPermutation layout)[i]? = some j ∧
        layout.reverse[j]? = some (i : Int)) ∧
    (∀ i : Nat, i < layout.length →
      ∃ d : Nat, layout.reverse[i]? = some (d : Int) ∧
        (GetInverseLayoutPermutation layout)[d]? = some i) ∧
    (∀ x : List Int, x.length = layout.length →
      ∃ y, Normalize x layout = some y ∧
        (GetInverseLayoutPermutation layout).map (fun j => y[j]?) = x.map some) := by
  have hrlen : layout.reverse.length = layout.length := List.length_reverse _
  have hplen : (GetInverseLayoutPermutation layout).length = layout.length := by
    unfold GetInverseLayoutPermutation
    rw [InversePermutation_length, hrlen]
  have hright : ∀ i : Nat, i < layout.length →
      ∃ j : Nat, (GetInverseLayoutPermutation layout)[i]? = some j ∧
        layout.reverse[j]? = some (i : Int) := fun i hi =>
    InversePermutation_right layout.reverse hperm.reverse i (by rw [hrlen]; exact hi)
  refine ⟨hplen, hright, ?_, ?_⟩
  · intro i hi
    exact InversePermutation_left layout.reverse hperm.reverse i (by rw [hrlen]; exact hi)
  · intro x hx
    obtain ⟨y, hy, hylen, hyget⟩ := NormalizeImpl_permuted x layout hperm hx hN
    refine ⟨y, hy, ?_⟩
    apply List.ext_getElem?
    intro i
    by_cases hi : i < layout.length
    · obtain ⟨j, hpj, hrj⟩ := hright i hi
      have hj : j < layout.length := by
        by_contra hge
        rw [List.getElem?_eq_none (by rw [hrlen]; omega)] at hrj
        cases hrj
      obtain ⟨d, v, hd, hv, hyj⟩ := hyget j hj
      rw [List.getElem?_reverse hj] at hrj
      rw [hrj] at hd
      have hdi : d = (i : Int) := (Option.some.inj hd).symm
      subst hdi
      have hxi : x[i]? = some v := by simpa [readAt] using hv
      rw [List.getElem?_map, List.getElem?_map, hpj, hxi, Option.map_some', Option.map_some', hyj]
    · rw [List.getElem?_eq_none (by rw [List.length_map, hplen]; omega),
        List.getElem?_eq_none (by rw [List.length_map, hx]; omega)]

/-- C7 at a concrete layout: for `[0,2,1]` the inverse permutation is `[2,0,1]`, and it takes
the normalized tile shape `[20,30,10]` back to `[10,20,30]`. -/
theorem GetInverseLayoutPermutation_spec_witness :
    IsPermutation [0, 2, 1] ∧ ((([0, 2, 1] : List Int).length : Int) ≤ 2 ^ 63) ∧
    (∀ x : List Int, x.length = ([0, 2, 1] : List Int).length →
      ∃ y, Normalize x [0, 2, 1] = some y ∧
        (GetInverseLayoutPermutation [0, 2, 1]).map (fun j => y[j]?) = x.map some) ∧
    GetInverseLayoutPermutation [0, 2, 1] = [2, 0, 1] ∧
    Normalize [10, 20, 30] [0, 2, 1] = some [20, 30, 10] ∧
    ([2, 0, 1] : List Nat).map (fun j => ([20, 30, 10] : List Int)[j]?)
      = ([10, 20, 30] : List Int).map some :=
  ⟨by decide, by decide,
    (GetInverseLayoutPermutation_spec [0, 2, 1] (by decide) (by decide)).2.2.2,
    by decide, by decide, by decide⟩

/-! ## `CanUseTMA`: theorems -/

/-- What `CanUseTMA` has checked when it returns `true`. -/
theorem CanUseTMA_true_inv (tma_enabled : Bool) (device_description : DeviceDescription)
    (tile_shape tile_strides : List Int) (offsets : List Value) (tensor : TensorValue)
    (minor_to_major_layout : List Int)
    (h : CanUseTMA tma_enabled device_description tile_shape tile_strides offsets tensor
      minor_to_major_layout = some true) :
    tma_enabled = true ∧ IsTmaEnabledForDevice device_description = true ∧
    (tile_shape.isEmpty || decide (tile_shape.length > 5)) = false ∧
    tensor.isBlockArgument = true ∧ tensor.numUses = 1 ∧ tensor.ownerIsFuncOp = true ∧
    ∃ minor_dim_idx, minor_to_major_layout[0]? = some minor_dim_idx ∧
      tensor.type.shape.any (fun dim => toUInt64 dim == 0 || toUInt64 dim > kMaxGlobalDim)
        = false ∧
      ∃ minor_tile, readAt tile_shape minor_dim_idx = some minor_tile ∧
        toUInt64 (toUInt64 minor_tile * ((tensor.type.elementTypeBitWidth / 8 : Nat) : Int))
          % kByteDivisibilityFactor = 0 ∧
        tile_shape.any (fun dim => toUInt64 dim == 0 || toUInt64 dim > kMaxBoxDim) = false ∧
        tile_strides.any (fun s => s == kDynamic) = false ∧
        readAt tile_strides minor_dim_idx = some 1 ∧
        ∃ global_strides,
          CanUseTMA.validateGlobalStrides tensor.type.shape minor_to_major_layout minor_dim_idx
            ((tensor.type.elementTypeBitWidth / 8 : Nat) : Int) = some (true, global_strides) ∧
          ∃ offset, readAt offsets minor_dim_idx = some offset ∧
            IsOffsetDivisibilityGuaranteed offset
              (toInt64 ((tensor.type.elementTypeBitWidth / 8 : Nat) : Int)) = true := by
  unfold CanUseTMA at h
  by_cases h1 : (!tma_enabled) = true
  · rw [if_pos h1] at h; cases h
  rw [if_neg h1] at h
  by_cases h2 : (!IsTmaEnabledForDevice device_description) = true
  · rw [if_pos h2] at h; cases h
  rw [if_neg h2] at h
  by_cases h3 : (tile_shape.isEmpty || decide (tile_shape.length > 5)) = true
  · rw [if_pos h3] at h; cases h
  rw [if_neg h3] at h
  by_cases h4 : (!tensor.isBlockArgument || !(tensor.numUses == 1)) = true
  · rw [if_pos h4] at h; cases h
  rw [if_neg h4] at h
  by_cases h5 : (!tensor.ownerIsFuncOp) = true
  · rw [if_pos h5] at h; cases h
  rw [if_neg h5] at h
  simp only at h
  cases hm : minor_to_major_layout[0]? with
  | none => rw [hm] at h; cases h
  | some minor_dim_idx =>
    rw [hm] at h
    simp only at h
    by_cases h6 : (tensor.type.shape.any
        (fun dim => toUInt64 dim == 0 || toUInt64 dim > kMaxGlobalDim)) = true
    · rw [if_pos h6] at h; cases h
    rw [if_neg h6] at h
    cases hmt : readAt tile_shape minor_dim_idx with
    | none => rw [hmt] at h; cases h
    | some minor_tile =>
      rw [hmt] at h
      simp only at h
      by_cases h7 : toUInt64 (toUInt64 minor_tile *
          ((tensor.type.elementTypeBitWidth / 8 : Nat) : Int)) % kByteDivisibilityFactor ≠ 0
      · rw [if_pos h7] at h; cases h
      rw [if_neg h7] at h
      by_cases h8 : (tile_shape.any
          (fun dim => toUInt64 dim == 0 || toUInt64 dim > kMaxBoxDim)) = true
      · rw [if_pos h8] at h; cases h
      rw [if_neg h8] at h
      by_cases h9 : (tile_strides.any (fun s => s == kDynamic)) = true
      · rw [if_pos h9] at h; cases h
      rw [if_neg h9] at h
      cases hms : readAt tile_strides minor_dim_idx with
      | none => rw [hms] at h; cases h
      | some minor_stride =>
        rw [hms] at h
        simp only at h
        by_cases h10 : minor_stride ≠ 1
        · rw [if_pos h10] at h; cases h
        rw [if_neg h10] at h
        cases hgs : CanUseTMA.validateGlobalStrides tensor.type.shape minor_to_major_layout
            minor_dim_idx ((tensor.type.elementTypeBitWidth / 8 : Nat) : Int) with
        | none => rw [hgs] at h; cases h
        | some res =>
          obtain ⟨ok, global_strides⟩ := res
          rw [hgs] at h
          cases ok with
          | false => cases h
          | true =>
            simp only at h
            cases hoff : readAt offsets minor_dim_idx with
            | none => rw [hoff] at h; cases h
            | some offset =>
              rw [hoff] at h
              simp only at h
              by_cases h11 : (!IsOffsetDivisibilityGuaranteed offset
                  (toInt64 ((tensor.type.elementTypeBitWidth / 8 : Nat) : Int))) = true
              · rw [if_pos h11] at h; cases h
              have e1 : tma_enabled = true := by simpa using h1
              have e2 : IsTmaEnabledForDevice device_description = true := by simpa using h2
              have e3 : (tile_shape.isEmpty || decide (tile_shape.length > 5)) = false := by
                simpa using h3
              have e4 : tensor.isBlockArgument = true ∧ tensor.numUses = 1 := by
                simpa using h4
              have e5 : tensor.ownerIsFuncOp = true := by simpa using h5
              have e10 : minor_stride = 1 := by simpa using h10
              subst e10
              exact ⟨e1, e2, e3, e4.1, e4.2, e5, minor_dim_idx, rfl, Bool.eq_false_iff.2 h6,
                minor_tile, hmt, not_not.1 h7, Bool.eq_false_iff.2 h8,
                Bool.eq_false_iff.2 h9, hms, global_strides, hgs, offset, hoff,
                by simpa using h11⟩

/-- Reduction modulo `2^64` does not change a product's remainder modulo 16. -/
theorem toUInt64_mul_emod_sixteen (t e : Int) :
    toUInt64 (toUInt64 t * e) % 16 = (t * e) % 16 := by
  unfold toUInt64
  have h16 : (16 : Int) ∣ 2 ^ 64 := by norm_num
  rw [Int.emod_emod_of_dvd _ h16, Int.mul_emod, Int.emod_emod_of_dvd _ h16, ← Int.mul_emod]

/-- C8: whenever `CanUseTMA` returns `true`, the byte size of the minor dimension of the tile,
`tile_shape[minor_to_major_layout[0]] * element_byte_size`, is a multiple of 16. -/
theorem CanUseTMA_minor_tile_bytes (tma_enabled : Bool) (device_description : DeviceDescription)
    (tile_shape tile_strides : List Int) (offsets : List Value) (tensor : TensorValue)
    (minor_to_major_layout : List Int)
    (h : CanUseTMA tma_enabled device_description tile_shape tile_strides offsets tensor
      minor_to_major_layout = some true) :
    ∃ minor_dim_idx minor_tile, minor_to_major_layout[0]? = some minor_dim_idx ∧
      readAt tile_shape minor_dim_idx = some minor_tile ∧
      (16 : Int) ∣ minor_tile * ((tensor.type.elementTypeBitWidth / 8 : Nat) : Int) := by
  obtain ⟨_, _, _, _, _, _, minor_dim_idx, hm, _, minor_tile, hmt, hbytes, _⟩ :=
    CanUseTMA_true_inv _ _ _ _ _ _ _ h
  refine ⟨minor_dim_idx, minor_tile, hm, hmt, ?_⟩
  unfold kByteDivisibilityFactor at hbytes
  rw [toUInt64_mul_emod_sixteen] at hbytes
  exact Int.dvd_of_emod_eq_zero hbytes

/-- C8 at the inputs of the spec: with 4-byte elements a minor tile dimension of 4 (16 bytes)
is accepted and one of 3 (12 bytes) is rejected. -/
theorem CanUseTMA_minor_tile_bytes_witness :
    CanUseTMA true ⟨true⟩ [4] [1] [Value.constantIndex 0] ⟨⟨[1024], 32⟩, true, 1, true⟩ [0]
      = some true ∧
    (∃ minor_dim_idx minor_tile, ([0] : List Int)[0]? = some minor_dim_idx ∧
      readAt ([4] : List Int) minor_dim_idx = some minor_tile ∧
      (16 : Int) ∣ minor_tile *
        (((⟨⟨[1024], 32⟩, true, 1, true⟩ : TensorValue).type.elementTypeBitWidth / 8 : Nat)
          : Int)) ∧
    CanUseTMA true ⟨true⟩ [3] [1] [Value.constantIndex 0] ⟨⟨[1024], 32⟩, true, 1, true⟩ [0]
      = some false :=
  ⟨by decide,
    CanUseTMA_minor_tile_bytes true ⟨true⟩ [4] [1] [Value.constantIndex 0]
      ⟨⟨[1024], 32⟩, true, 1, true⟩ [0] (by decide),
    by decide⟩

/-- C9, the code at a failing input: for a tensor of shape `[1, 2^32, 2^32]` with 8-byte
elements and layout `[2,1,0]`, the 64-bit product `2^35 * 2^32` wraps around to 0, the stride
check passes and `CanUseTMA` returns `true`, while the exact byte stride number 1 is `2^67`,
above `2^40 - 1`. -/
theorem CanUseTMA_global_stride_overflow :
    CanUseTMA true ⟨true⟩ [1, 1, 2] [1, 1, 1]
      [Value.constantIndex 0, Value.constantIndex 0, Value.constantIndex 0]
      ⟨⟨[1, 4294967296, 4294967296], 64⟩, true, 1, true⟩ [2, 1, 0] = some true ∧
    CanUseTMA.validateGlobalStrides [1, 4294967296, 4294967296] [2, 1, 0] 2 8
      = some (true, [34359738368, 0, 0]) ∧
    exactByteStride 8 [1, 4294967296, 4294967296] [2, 1, 0] 1 = 2 ^ 67 ∧
    ¬ (exactByteStride 8 [1, 4294967296, 4294967296] [2, 1, 0] 1 ≤ 2 ^ 40 - 1) := by
  decide

/-! ## `IsOffsetDivisibilityGuaranteed`: theorems -/

/-- A number is a multiple of `16 / gcd(16, n)` exactly when its product with `n` is a multiple
of 16. -/
theorem sixteen_div_gcd_dvd_iff (a n : Nat) : 16 / Nat.gcd 16 n ∣ a ↔ 16 ∣ a * n := by
  have hg : 0 < Nat.gcd 16 n := Nat.gcd_pos_of_pos_left n (by norm_num)
  have h16 : 16 / Nat.gcd 16 n * Nat.gcd 16 n = 16 := Nat.div_mul_cancel (Nat.gcd_dvd_left 16 n)
  have hn : n / Nat.gcd 16 n * Nat.gcd 16 n = n := Nat.div_mul_cancel (Nat.gcd_dvd_right 16 n)
  constructor
  · intro h
    obtain ⟨k, hk⟩ := h
    refine ⟨k * (n / Nat.gcd 16 n), ?_⟩
    calc a * n = 16 / Nat.gcd 16 n * k * (n / Nat.gcd 16 n * Nat.gcd 16 n) := by rw [hn, hk]
      _ = 16 / Nat.gcd 16 n * Nat.gcd 16 n * (k * (n / Nat.gcd 16 n)) := by ring
      _ = 16 * (k * (n / Nat.gcd 16 n)) := by rw [h16]
  · intro h
    have hcop : Nat.Coprime (16 / Nat.gcd 16 n) (n / Nat.gcd 16 n) :=
      Nat.coprime_div_gcd_div_gcd hg
    apply hcop.dvd_of_dvd_mul_right
    apply Nat.dvd_of_mul_dvd_mul_right hg
    have e1 : a * (n / Nat.gcd 16 n) * Nat.gcd 16 n = a * n := by rw [Nat.mul_assoc, hn]
    rw [h16, e1]
    exact h

/-- C10: for a constant offset `c >= 0` and an element byte size `e >= 1`,
`IsOffsetDivisibilityGuaranteed` returns `true` if and only if the byte offset `c * e` is a
multiple of 16; what it tests is `c % (16 / gcd(16, e)) == 0`. -/
theorem IsOffsetDivisibilityGuaranteed_constant (c e : Int) (_hc : 0 ≤ c) (_he : 1 ≤ e) :
    (IsOffsetDivisibilityGuaranteed (Value.constantIndex c) e = true ↔ (16 : Int) ∣ c * e) ∧
    IsOffsetDivisibilityGuaranteed (Value.constantIndex c) e
      = (Int.tmod c (Int.tdiv 16 (Int.gcd 16 e)) == 0) := by
  refine ⟨?_, rfl⟩
  show (Int.tmod c (Int.tdiv 16 (Int.gcd 16 e)) == 0) = true ↔ (16 : Int) ∣ c * e
  have hdiv : Int.tdiv 16 (Int.gcd 16 e) = ((16 / Nat.gcd 16 e.natAbs : Nat) : Int) := by
    rw [Int.ofNat_tdiv]
    rfl
  rw [beq_iff_eq, hdiv]
  have key := sixteen_div_gcd_dvd_iff c.natAbs e.natAbs
  have h1 : ((16 / Nat.gcd 16 e.natAbs : Nat) : Int) ∣ c ↔ 16 / Nat.gcd 16 e.natAbs ∣ c.natAbs :=
    Int.natCast_dvd
  have h2 : (16 : Int) ∣ c * e ↔ 16 ∣ c.natAbs * e.natAbs := by
    rw [← Int.natAbs_mul]
    exact Int.natCast_dvd (m := 16)
  rw [h2, ← key, ← h1]
  exact ⟨Int.dvd_of_tmod_eq_zero, Int.tmod_eq_zero_of_dvd⟩

/-- C10 at concrete inputs: with 4-byte elements the constant offset 8 (32 bytes) is accepted
and the constant offset 2 (8 bytes) is not. -/
theorem IsOffsetDivisibilityGuaranteed_constant_witness :
    (0 : Int) ≤ 8 ∧ (1 : Int) ≤ 4 ∧
    (IsOffsetDivisibilityGuaranteed (Value.constantIndex 8) 4 = true ↔ (16 : Int) ∣ 8 * 4) ∧
    IsOffsetDivisibilityGuaranteed (Value.constantIndex 8) 4 = true ∧
    IsOffsetDivisibilityGuaranteed (Value.constantIndex 2) 4 = false :=
  ⟨by decide, by decide,
    (IsOffsetDivisibilityGuaranteed_constant 8 4 (by decide) (by decide)).1,
    by decide, by decide⟩

/-! ## `CanUseTMA`: rejection -/

/-- An in-range `int64_t` index reads an element. -/
theorem readAt_of_lt {α : Type} (xs : List α) (i : Int) (h0 : 0 ≤ i) (hlt : i < xs.length) :
    ∃ x, readAt xs i = some x := by
  have h : i.toNat < xs.length := by omega
  exact ⟨xs[i.toNat], by simp [readAt, h0, List.getElem?_eq_getElem h]⟩

/-- With a layout as long as the shape whose entries are dimensions of the shape, the loop over
the global strides reads inside its arrays and returns. -/
theorem CanUseTMA.stridesLoop_defined (global_shape minor_to_major_layout : List Int)
    (hlen : minor_to_major_layout.length = global_shape.length)
    (hrange : ∀ x ∈ minor_to_major_layout, 0 ≤ x ∧ x < global_shape.length) :
    ∀ (n i : Nat) (global_strides : List Int), i + n = global_shape.length →
      global_strides.length = i → 1 ≤ i →
      ∃ r, CanUseTMA.stridesLoop global_shape minor_to_major_layout n i global_strides
        = some r := by
  intro n
  induction n with
  | zero => intro i gs _ _ _; exact ⟨_, rfl⟩
  | succ n ih =>
    intro i gs hi hgs h1
    have hp : gs[i - 1]? = some gs[i - 1] := List.getElem?_eq_getElem (by omega)
    have hl : minor_to_major_layout[i]? = some minor_to_major_layout[i] :=
      List.getElem?_eq_getElem (by omega)
    obtain ⟨h0, hlt⟩ := hrange _ (List.getElem_mem (by omega : i < minor_to_major_layout.length))
    obtain ⟨size, hsize⟩ := readAt_of_lt global_shape _ h0 hlt
    have hnew : (gs ++ [toInt64 (gs[i - 1] * size)])[i]? = some (toInt64 (gs[i - 1] * size)) := by
      rw [List.getElem?_append_right (by omega)]
      simp [hgs]
    rw [CanUseTMA.stridesLoop]
    simp only [hp, hl, hsize, hnew]
    by_cases hbig : toUInt64 (toInt64 (gs[i - 1] * size)) > kMaxGlobalStride
    · rw [if_pos hbig]; exact ⟨_, rfl⟩
    · rw [if_neg hbig]
      exact ih (i + 1) _ (by omega) (by simp [hgs]) (by omega)

/-- On a well-formed access every read of `CanUseTMA` is inside its array: it returns. -/
theorem CanUseTMA_defined (tma_enabled : Bool) (device_description : DeviceDescription)
    (tile_shape tile_strides : List Int) (offsets : List Value) (tensor : TensorValue)
    (minor_to_major_layout : List Int)
    (hwf : WellFormedAccess tensor.type.shape tile_shape offsets tile_strides
      minor_to_major_layout) :
    ∃ b, CanUseTMA tma_enabled device_description tile_shape tile_strides offsets tensor
      minor_to_major_layout = some b := by
  obtain ⟨hts, hoff, hst, hlay, hperm⟩ := hwf
  have hrange : ∀ x ∈ minor_to_major_layout, 0 ≤ x ∧ x < tensor.type.shape.length := by
    intro x hx
    have := (hperm.mem_iff x).1 hx
    rw [hlay] at this
    exact this
  unfold CanUseTMA
  by_cases h1 : (!tma_enabled) = true
  · rw [if_pos h1]; exact ⟨_, rfl⟩
  rw [if_neg h1]
  by_cases h2 : (!IsTmaEnabledForDevice device_description) = true
  · rw [if_pos h2]; exact ⟨_, rfl⟩
  rw [if_neg h2]
  by_cases h3 : (tile_shape.isEmpty || decide (tile_shape.length > 5)) = true
  · rw [if_pos h3]; exact ⟨_, rfl⟩
  rw [if_neg h3]
  by_cases h4 : (!tensor.isBlockArgument || !(tensor.numUses == 1)) = true
  · rw [if_pos h4]; exact ⟨_, rfl⟩
  rw [if_neg h4]
  by_cases h5 : (!tensor.ownerIsFuncOp) = true
  · rw [if_pos h5]; exact ⟨_, rfl⟩
  rw [if_neg h5]
  have hne : tile_shape ≠ [] := by
    intro hnil
    apply h3
    simp [hnil]
  have hpos : 0 < tensor.type.shape.length := by
    rw [← hts]
    exact List.length_pos.2 hne
  have hm : minor_to_major_layout[0]? = some minor_to_major_layout[0] :=
    List.getElem?_eq_getElem (by omega)
  obtain ⟨hm0, hmlt⟩ := hrange _ (List.getElem_mem (by omega : 0 < minor_to_major_layout.length))
  obtain ⟨minor_tile, hmt⟩ := readAt_of_lt tile_shape _ hm0 (by omega)
  obtain ⟨minor_stride, hms⟩ := readAt_of_lt tile_strides _ hm0 (by omega)
  obtain ⟨minor_size, hmsz⟩ := readAt_of_lt tensor.type.shape _ hm0 hmlt
  obtain ⟨offset, hof⟩ := readAt_of_lt offsets _ hm0 (by omega)
  simp only [hm, hmt, hms, hof]
  by_cases h6 : (tensor.type.shape.any
      (fun dim => toUInt64 dim == 0 || toUInt64 dim > kMaxGlobalDim)) = true
  · rw [if_pos h6]; exact ⟨_, rfl⟩
  rw [if_neg h6]
  by_cases h7 : toUInt64 (toUInt64 minor_tile *
      ((tensor.type.elementTypeBitWidth / 8 : Nat) : Int)) % kByteDivisibilityFactor ≠ 0
  · rw [if_pos h7]; exact ⟨_, rfl⟩
  rw [if_neg h7]
  by_cases h8 : (tile_shape.any
      (fun dim => toUInt64 dim == 0 || toUInt64 dim > kMaxBoxDim)) = true
  · rw [if_pos h8]; exact ⟨_, rfl⟩
  rw [if_neg h8]
  by_cases h9 : (tile_strides.any (fun s => s == kDynamic)) = true
  · rw [if_pos h9]; exact ⟨_, rfl⟩
  rw [if_neg h9]
  by_cases h10 : minor_stride ≠ 1
  · rw [if_pos h10]; exact ⟨_, rfl⟩
  rw [if_neg h10]
  have hgs : ∃ r, CanUseTMA.validateGlobalStrides tensor.type.shape minor_to_major_layout
      minor_to_major_layout[0] ((tensor.type.elementTypeBitWidth / 8 : Nat) : Int)
        = some r := by
    unfold CanUseTMA.validateGlobalStrides
    by_cases hr : tensor.type.shape.length ≥ 2
    · rw [if_pos hr]
      simp only [hmsz, List.getElem?_cons_zero]
      split
      · exact ⟨_, rfl⟩
      · exact CanUseTMA.stridesLoop_defined _ _ hlay hrange _ 1 _ (by omega) (by simp)
          (le_refl _)
    · rw [if_neg hr]; exact ⟨_, rfl⟩
  obtain ⟨⟨ok, gs⟩, hgs⟩ := hgs
  rw [hgs]
  cases ok with
  | false => exact ⟨_, rfl⟩
  | true =>
    simp only
    split <;> exact ⟨_, rfl⟩

/-- The divisibility of an offset that is not provable is not guaranteed. -/
theorem IsOffsetDivisibilityGuaranteed_of_notProvable (offset : Value) (element_byte_size : Int)
    (h : offset.notProvable = true) :
    IsOffsetDivisibilityGuaranteed offset element_byte_size = false := by
  cases offset with
  | blockArgument n => rfl
  | constantIndex c => simp [Value.notProvable] at h
  | applyIndexing results =>
    have hne : results.length ≠ 1 := by simpa [Value.notProvable] using h
    simp [IsOffsetDivisibilityGuaranteed, hne]
  | otherOp name => rfl

/-- C11: `IsOffsetDivisibilityGuaranteed` returns `false` for a value without defining
operation, for the result of an operation that is neither a constant index nor an
apply-indexing, and for an apply-indexing whose affine map does not have exactly one result;
hence on a well-formed access whose minor-dimension offset is of such a kind `CanUseTMA`
returns `false`. -/
theorem CanUseTMA_offset_conservative (tma_enabled : Bool)
    (device_description : DeviceDescription) (tile_shape tile_strides : List Int)
    (offsets : List Value) (tensor : TensorValue) (minor_to_major_layout : List Int)
    (minor_dim_idx : Int) (offset : Value)
    (hwf : WellFormedAccess tensor.type.shape tile_shape offsets tile_strides
      minor_to_major_layout)
    (hm : minor_to_major_layout[0]? = some minor_dim_idx)
    (hoff : readAt offsets minor_dim_idx = some offset)
    (hkind : offset.notProvable = true) :
    (∀ (arg_number : Nat) (e : Int),
      IsOffsetDivisibilityGuaranteed (Value.blockArgument arg_number) e = false) ∧
    (∀ (name : String) (e : Int),
      IsOffsetDivisibilityGuaranteed (Value.otherOp name) e = false) ∧
    (∀ (results : List AffineExpr) (e : Int), results.length ≠ 1 →
      IsOffsetDivisibilityGuaranteed (Value.applyIndexing results) e = false) ∧
    (∀ e : Int, IsOffsetDivisibilityGuaranteed offset e = false) ∧
    CanUseTMA tma_enabled device_description tile_shape tile_strides offsets tensor
      minor_to_major_layout = some false := by
  refine ⟨fun _ _ => rfl, fun _ _ => rfl, ?_, ?_, ?_⟩
  · intro results e hne
    exact IsOffsetDivisibilityGuaranteed_of_notProvable _ e (by simpa [Value.notProvable] using hne)
  · intro e
    exact IsOffsetDivisibilityGuaranteed_of_notProvable offset e hkind
  · obtain ⟨b, hb⟩ := CanUseTMA_defined tma_enabled device_description tile_shape tile_strides
      offsets tensor minor_to_major_layout hwf
    cases b with
    | false => exact hb
    | true =>
      obtain ⟨_, _, _, _, _, _, m, hm2, _, _, _, _, _, _, _, _, _, off, hoff2, hdiv⟩ :=
        CanUseTMA_true_inv _ _ _ _ _ _ _ hb
      rw [hm] at hm2
      cases hm2
      rw [hoff] at hoff2
      cases hoff2
      rw [IsOffsetDivisibilityGuaranteed_of_notProvable offset _ hkind] at hdiv
      cases hdiv

/-- C11 at concrete inputs: with an offset produced by an addition in the minor dimension the
access of the end-to-end example is rejected. -/
theorem CanUseTMA_offset_conservative_witness :
    WellFormedAccess (⟨⟨[1024, 1024], 32⟩, true, 1, true⟩ : TensorValue).type.shape [128, 128]
      [Value.constantIndex 0, Value.otherOp "arith.addi"] [1, 1] [1, 0] ∧
    ([1, 0] : List Int)[0]? = some 1 ∧
    readAt [Value.constantIndex 0, Value.otherOp "arith.addi"] 1
      = some (Value.otherOp "arith.addi") ∧
    (Value.otherOp "arith.addi").notProvable = true ∧
    CanUseTMA true ⟨true⟩ [128, 128] [1, 1] [Value.constantIndex 0, Value.otherOp "arith.addi"]
      ⟨⟨[1024, 1024], 32⟩, true, 1, true⟩ [1, 0] = some false :=
  ⟨by decide, rfl, rfl, rfl,
    (CanUseTMA_offset_conservative true ⟨true⟩ [128, 128] [1, 1]
      [Value.constantIndex 0, Value.otherOp "arith.addi"] ⟨⟨[1024, 1024], 32⟩, true, 1, true⟩
      [1, 0] 1 (Value.otherOp "arith.addi") (by decide) rfl rfl rfl).2.2.2.2⟩

/-- C13: whenever `CanUseTMA` returns `true` the tensor is a block argument of a function with
exactly one use; when it is not a block argument, or not of a function, or has no use or more
than one, `CanUseTMA` returns `false`. -/
theorem CanUseTMA_function_argument_single_use (tma_enabled : Bool)
    (device_description : DeviceDescription) (tile_shape tile_strides : List Int)
    (offsets : List Value) (tensor : TensorValue) (minor_to_major_layout : List Int) :
    (CanUseTMA tma_enabled device_description tile_shape tile_strides offsets tensor
        minor_to_major_layout = some true →
      tensor.isBlockArgument = true ∧ tensor.ownerIsFuncOp = true ∧ tensor.numUses = 1) ∧
    (¬ (tensor.isBlockArgument = true ∧ tensor.ownerIsFuncOp = true ∧ tensor.numUses = 1) →
      CanUseTMA tma_enabled device_description tile_shape tile_strides offsets tensor
        minor_to_major_layout = some false) := by
  refine ⟨?_, ?_⟩
  · intro h
    obtain ⟨_, _, _, h4, h5, h6, _⟩ := CanUseTMA_true_inv _ _ _ _ _ _ _ h
    exact ⟨h4, h6, h5⟩
  · intro hnot
    unfold CanUseTMA
    by_cases h1 : (!tma_enabled) = true
    · rw [if_pos h1]
    rw [if_neg h1]
    by_cases h2 : (!IsTmaEnabledForDevice device_description) = true
    · rw [if_pos h2]
    rw [if_neg h2]
    by_cases h3 : (tile_shape.isEmpty || decide (tile_shape.length > 5)) = true
    · rw [if_pos h3]
    rw [if_neg h3]
    by_cases h4 : (!tensor.isBlockArgument || !(tensor.numUses == 1)) = true
    · rw [if_pos h4]
    rw [if_neg h4]
    by_cases h5 : (!tensor.ownerIsFuncOp) = true
    · rw [if_pos h5]
    exfalso
    apply hnot
    have e4 : tensor.isBlockArgument = true ∧ tensor.numUses = 1 := by simpa using h4
    have e5 : tensor.ownerIsFuncOp = true := by simpa using h5
    exact ⟨e4.1, e5, e4.2⟩

/-- C13 at concrete inputs: the access of the end-to-end example is accepted on a function
argument with one use, and rejected with two uses, with no use, and on a value that is not a
block argument. -/
theorem CanUseTMA_function_argument_single_use_witness :
    CanUseTMA true ⟨true⟩ [128, 128] [1, 1] [Value.constantIndex 0, Value.constantIndex 0]
      ⟨⟨[1024, 1024], 32⟩, true, 1, true⟩ [1, 0] = some true ∧
    ((⟨⟨[1024, 1024], 32⟩, true, 1, true⟩ : TensorValue).isBlockArgument = true ∧
      (⟨⟨[1024, 1024], 32⟩, true, 1, true⟩ : TensorValue).ownerIsFuncOp = true ∧
      (⟨⟨[1024, 1024], 32⟩, true, 1, true⟩ : TensorValue).numUses = 1) ∧
    CanUseTMA true ⟨true⟩ [128, 128] [1, 1] [Value.constantIndex 0, Value.constantIndex 0]
      ⟨⟨[1024, 1024], 32⟩, true, 2, true⟩ [1, 0] = some false ∧
    CanUseTMA true ⟨true⟩ [128, 128] [1, 1] [Value.constantIndex 0, Value.constantIndex 0]
      ⟨⟨[1024, 1024], 32⟩, true, 0, true⟩ [1, 0] = some false ∧
    CanUseTMA true ⟨true⟩ [128, 128] [1, 1] [Value.constantIndex 0, Value.constantIndex 0]
      ⟨⟨[1024, 1024], 32⟩, false, 1, false⟩ [1, 0] = some false :=
  ⟨by decide,
    (CanUseTMA_function_argument_single_use true ⟨true⟩ [128, 128] [1, 1]
      [Value.constantIndex 0, Value.constantIndex 0] ⟨⟨[1024, 1024], 32⟩, true, 1, true⟩
      [1, 0]).1 (by decide),
    (CanUseTMA_function_argument_single_use true ⟨true⟩ [128, 128] [1, 1]
      [Value.constantIndex 0, Value.constantIndex 0] ⟨⟨[1024, 1024], 32⟩, true, 2, true⟩
      [1, 0]).2 (by decide),
    by decide, by decide⟩

/-- C14: whenever `CanUseTMA` returns `true` on shapes of `int64_t` entries, the tile rank is
between 1 and 5, every dimension of the tensor shape is in `(0, 2^32]`, and every tile
dimension is in `(0, 256]`. -/
theorem CanUseTMA_shape_limits (tma_enabled : Bool) (device_description : DeviceDescription)
    (tile_shape tile_strides : List Int) (offsets : List Value) (tensor : TensorValue)
    (minor_to_major_layout : List Int)
    (h : CanUseTMA tma_enabled device_description tile_shape tile_strides offsets tensor
      minor_to_major_layout = some true)
    (hglobal : ∀ dim ∈ tensor.type.shape, IsInt64 dim)
    (htile : ∀ dim ∈ tile_shape, IsInt64 dim) :
    1 ≤ tile_shape.length ∧ tile_shape.length ≤ 5 ∧
    (∀ dim ∈ tensor.type.shape, 0 < dim ∧ dim ≤ 2 ^ 32) ∧
    (∀ dim ∈ tile_shape, 0 < dim ∧ dim ≤ 256) := by
  obtain ⟨_, _, h3, _, _, _, _, _, hg, _, _, _, ht, _⟩ := CanUseTMA_true_inv _ _ _ _ _ _ _ h
  have hrank : tile_shape ≠ [] ∧ tile_shape.length ≤ 5 := by
    simpa [List.isEmpty_iff] using h3
  refine ⟨List.length_pos.2 hrank.1, hrank.2, ?_, ?_⟩
  · intro dim hdim
    have h1 := List.any_eq_false.1 hg dim hdim
    have h2 := hglobal dim hdim
    simp only [Bool.or_eq_true, beq_iff_eq, decide_eq_true_eq, not_or, kMaxGlobalDim,
      toUInt64] at h1
    unfold IsInt64 at h2
    omega
  · intro dim hdim
    have h1 := List.any_eq_false.1 ht dim hdim
    have h2 := htile dim hdim
    simp only [Bool.or_eq_true, beq_iff_eq, decide_eq_true_eq, not_or, kMaxBoxDim,
      toUInt64] at h1
    unfold IsInt64 at h2
    omega

/-- C14 at concrete inputs: a tile dimension of 256 is accepted and one of 257 is rejected, and
a dynamic or a negative dimension of the tensor is rejected. -/
theorem CanUseTMA_shape_limits_witness :
    CanUseTMA true ⟨true⟩ [128, 256] [1, 1] [Value.constantIndex 0, Value.constantIndex 0]
      ⟨⟨[1024, 1024], 32⟩, true, 1, true⟩ [1, 0] = some true ∧
    (∀ dim ∈ (⟨⟨[1024, 1024], 32⟩, true, 1, true⟩ : TensorValue).type.shape, IsInt64 dim) ∧
    (∀ dim ∈ ([128, 256] : List Int), IsInt64 dim) ∧
    (1 ≤ ([128, 256] : List Int).length ∧ ([128, 256] : List Int).length ≤ 5 ∧
      (∀ dim ∈ (⟨⟨[1024, 1024], 32⟩, true, 1, true⟩ : TensorValue).type.shape,
        0 < dim ∧ dim ≤ 2 ^ 32) ∧
      (∀ dim ∈ ([128, 256] : List Int), 0 < dim ∧ dim ≤ 256)) ∧
    CanUseTMA true ⟨true⟩ [128, 257] [1, 1] [Value.constantIndex 0, Value.constantIndex 0]
      ⟨⟨[1024, 1024], 32⟩, true, 1, true⟩ [1, 0] = some false ∧
    CanUseTMA true ⟨true⟩ [128, 256] [1, 1] [Value.constantIndex 0, Value.constantIndex 0]
      ⟨⟨[kDynamic, 1024], 32⟩, true, 1, true⟩ [1, 0] = some false ∧
    CanUseTMA true ⟨true⟩ [128, 256] [1, 1] [Value.constantIndex 0, Value.constantIndex 0]
      ⟨⟨[-4, 1024], 32⟩, true, 1, true⟩ [1, 0] = some false ∧
    CanUseTMA true ⟨true⟩ [] [] [] ⟨⟨[], 32⟩, true, 1, true⟩ [] = some false ∧
    CanUseTMA true ⟨true⟩ [1, 1, 1, 1, 1, 4] [1, 1, 1, 1, 1, 1]
      [Value.constantIndex 0, Value.constantIndex 0, Value.constantIndex 0,
        Value.constantIndex 0, Value.constantIndex 0, Value.constantIndex 0]
      ⟨⟨[8, 8, 8, 8, 8, 8], 32⟩, true, 1, true⟩ [5, 4, 3, 2, 1, 0] = some false :=
  ⟨by decide, by decide, by decide,
    CanUseTMA_shape_limits true ⟨true⟩ [128, 256] [1, 1]
      [Value.constantIndex 0, Value.constantIndex 0] ⟨⟨[1024, 1024], 32⟩, true, 1, true⟩ [1, 0]
      (by decide) (by decide) (by decide),
    by decide, by decide, by decide, by decide, by decide⟩

/-- C15: whenever `CanUseTMA` returns `true` no tile stride is dynamic and the tile stride of
the minor dimension `minor_to_major_layout[0]` is 1; on a well-formed access with a dynamic
tile stride in some dimension, or with a minor tile stride other than 1, `CanUseTMA` returns
`false`. -/
theorem CanUseTMA_static_unit_minor_stride (tma_enabled : Bool)
    (device_description : DeviceDescription) (tile_shape tile_strides : List Int)
    (offsets : List Value) (tensor : TensorValue) (minor_to_major_layout : List Int) :
    (CanUseTMA tma_enabled device_description tile_shape tile_strides offsets tensor
        minor_to_major_layout = some true →
      (∀ s ∈ tile_strides, s ≠ kDynamic) ∧
      ∃ minor_dim_idx, minor_to_major_layout[0]? = some minor_dim_idx ∧
        readAt tile_strides minor_dim_idx = some 1) ∧
    (WellFormedAccess tensor.type.shape tile_shape offsets tile_strides minor_to_major_layout →
      (kDynamic ∈ tile_strides ∨
        ∃ minor_dim_idx s, minor_to_major_layout[0]? = some minor_dim_idx ∧
          readAt tile_strides minor_dim_idx = some s ∧ s ≠ 1) →
      CanUseTMA tma_enabled device_description tile_shape tile_strides offsets tensor
        minor_to_major_layout = some false) := by
  have hinv : CanUseTMA tma_enabled device_description tile_shape tile_strides offsets tensor
        minor_to_major_layout = some true →
      (∀ s ∈ tile_strides, s ≠ kDynamic) ∧
      ∃ minor_dim_idx, minor_to_major_layout[0]? = some minor_dim_idx ∧
        readAt tile_strides minor_dim_idx = some 1 := by
    intro h
    obtain ⟨_, _, _, _, _, _, m, hm, _, _, _, _, _, hdyn, hms, _⟩ :=
      CanUseTMA_true_inv _ _ _ _ _ _ _ h
    refine ⟨?_, m, hm, hms⟩
    intro s hs hk
    have := List.any_eq_false.1 hdyn s hs
    simp [hk] at this
  refine ⟨hinv, ?_⟩
  intro hwf hbad
  obtain ⟨b, hb⟩ := CanUseTMA_defined tma_enabled device_description tile_shape tile_strides
    offsets tensor minor_to_major_layout hwf
  cases b with
  | false => exact hb
  | true =>
    exfalso
    obtain ⟨hdyn, m, hm, hms⟩ := hinv hb
    rcases hbad with hk | ⟨m2, s, hm2, hs, hne⟩
    · exact hdyn _ hk rfl
    · rw [hm] at hm2
      cases hm2
      rw [hms] at hs
      cases hs
      exact hne rfl

/-- C15 at concrete inputs: the access of the end-to-end example is accepted with strides
`[1,1]`, and rejected with a minor stride of 0 or 2 and with a dynamic stride in the major
dimension. -/
theorem CanUseTMA_static_unit_minor_stride_witness :
    CanUseTMA true ⟨true⟩ [128, 128] [1, 1] [Value.constantIndex 0, Value.constantIndex 0]
      ⟨⟨[1024, 1024], 32⟩, true, 1, true⟩ [1, 0] = some true ∧
    ((∀ s ∈ ([1, 1] : List Int), s ≠ kDynamic) ∧
      ∃ minor_dim_idx, ([1, 0] : List Int)[0]? = some minor_dim_idx ∧
        readAt ([1, 1] : List Int) minor_dim_idx = some 1) ∧
    CanUseTMA true ⟨true⟩ [128, 128] [1, 0] [Value.constantIndex 0, Value.constantIndex 0]
      ⟨⟨[1024, 1024], 32⟩, true, 1, true⟩ [1, 0] = some false ∧
    CanUseTMA true ⟨true⟩ [128, 128] [1, 2] [Value.constantIndex 0, Value.constantIndex 0]
      ⟨⟨[1024, 1024], 32⟩, true, 1, true⟩ [1, 0] = some false ∧
    CanUseTMA true ⟨true⟩ [128, 128] [kDynamic, 1]
      [Value.constantIndex 0, Value.constantIndex 0]
      ⟨⟨[1024, 1024], 32⟩, true, 1, true⟩ [1, 0] = some false :=
  ⟨by decide,
    (CanUseTMA_static_unit_minor_stride true ⟨true⟩ [128, 128] [1, 1]
      [Value.constantIndex 0, Value.constantIndex 0] ⟨⟨[1024, 1024], 32⟩, true, 1, true⟩
      [1, 0]).1 (by decide),
    (CanUseTMA_static_unit_minor_stride true ⟨true⟩ [128, 128] [1, 0]
      [Value.constantIndex 0, Value.constantIndex 0] ⟨⟨[1024, 1024], 32⟩, true, 1, true⟩
      [1, 0]).2 (by decide) (Or.inr ⟨1, 0, rfl, rfl, by decide⟩),
    by decide, by decide⟩

/-! ## Address arithmetic of the generic path: theorems -/

/-- Wrapping to `int64_t` does not change the residue modulo `2^64`. -/
theorem toInt64_modEq (x : Int) : toInt64 x ≡ x [ZMOD 2 ^ 64] := by
  unfold toInt64 Int.ModEq
  omega

/-- Numbers with the same residue modulo `2^64` wrap to the same `int64_t`. -/
theorem toInt64_eq_of_modEq {a b : Int} (h : a ≡ b [ZMOD 2 ^ 64]) : toInt64 a = toInt64 b := by
  unfold toInt64
  unfold Int.ModEq at h
  omega

/-- An `int64_t` wraps to itself. -/
theorem toInt64_of_isInt64 {x : Int} (h : IsInt64 x) : toInt64 x = x := by
  unfold IsInt64 at h
  unfold toInt64
  omega

/-- Wrapping is idempotent. -/
theorem toInt64_toInt64 (x : Int) : toInt64 (toInt64 x) = toInt64 x :=
  toInt64_eq_of_modEq (toInt64_modEq x)

/-- A product wraps to the same value when its left factor is wrapped first. -/
theorem toInt64_mul_left (a b : Int) : toInt64 (toInt64 a * b) = toInt64 (a * b) :=
  toInt64_eq_of_modEq ((toInt64_modEq a).mul_right b)

/-- A product wraps to the same value when its right factor is wrapped first. -/
theorem toInt64_mul_right (a b : Int) : toInt64 (a * toInt64 b) = toInt64 (a * b) :=
  toInt64_eq_of_modEq ((toInt64_modEq b).mul_left a)

/-- The product of no dimension is 1. -/
theorem minorProduct_zero (shape layout : List Int) : minorProduct shape layout 0 = 1 := by
  simp [minorProduct]

/-- The product over a layout that starts with a dimension of the shape. -/
theorem minorProduct_cons (shape : List Int) (d : Int) (rest : List Int) (k : Nat) (size : Int)
    (h : readAt shape d = some size) :
    minorProduct shape (d :: rest) (k + 1) = size * minorProduct shape rest k := by
  simp [minorProduct, h]

/-- The loop of `ComputeStrides` over the rest of a layout without repetition, all of whose
entries are dimensions: it returns, leaves the other dimensions as they are, and gives the
dimension at position `k` of the rest its tile stride times the running product. -/
theorem ComputeStrides.loop_spec (original_shape : List Int) (tile_strides : List Value) :
    ∀ (rest : List Int) (strides : List Scalar) (current_stride : Int),
      (∀ x ∈ rest, 0 ≤ x ∧ x < tile_strides.length ∧ x < original_shape.length ∧
        x < strides.length) →
      rest.Nodup → toInt64 current_stride = current_stride →
      ∃ out, ComputeStrides.loop original_shape tile_strides rest strides current_stride
          = some out ∧
        out.length = strides.length ∧
        (∀ d : Nat, (d : Int) ∉ rest → out[d]? = strides[d]?) ∧
        ∀ k : Nat, k < rest.length →
          ∃ (d : Nat) (ts : Value), rest[k]? = some (d : Int) ∧ tile_strides[d]? = some ts ∧
            out[d]? = some (Scalar.MulIOp (Scalar.IndexCastUIOp IntType.I64 (Scalar.value ts))
              (Scalar.CreateConst IntType.I64
                (toInt64 (current_stride * minorProduct original_shape rest k)))) := by
  intro rest
  induction rest with
  | nil =>
    intro strides cs _ _ _
    exact ⟨strides, rfl, rfl, fun _ _ => rfl, fun k hk => absurd hk (by simp)⟩
  | cons d0 rest ih =>
    intro strides cs hrange hnodup hcs
    obtain ⟨h0, hts, hos, hst⟩ := hrange d0 (List.mem_cons_self _ _)
    have hd0 : ((d0.toNat : Nat) : Int) = d0 := Int.toNat_of_nonneg h0
    have htsn : d0.toNat < tile_strides.length := by omega
    have hosn : d0.toNat < original_shape.length := by omega
    have hstn : d0.toNat < strides.length := by omega
    have hrts : readAt tile_strides d0 = some tile_strides[d0.toNat] := by
      simp [readAt, h0, List.getElem?_eq_getElem htsn]
    have hros : readAt original_shape d0 = some original_shape[d0.toNat] := by
      simp [readAt, h0, List.getElem?_eq_getElem hosn]
    obtain ⟨hnotin, hnodup'⟩ := List.nodup_cons.1 hnodup
    obtain ⟨out, hrun, hlen, hother, hpos⟩ := ih
      (strides.set d0.toNat
        (Scalar.MulIOp (Scalar.IndexCastUIOp IntType.I64 (Scalar.value tile_strides[d0.toNat]))
          (Scalar.CreateConst IntType.I64 cs)))
      (toInt64 (cs * original_shape[d0.toNat]))
      (fun x hx => by
        obtain ⟨a, b, c, d⟩ := hrange x (List.mem_cons_of_mem _ hx)
        exact ⟨a, b, c, by simpa using d⟩)
      hnodup' (toInt64_toInt64 _)
    refine ⟨out, ?_, by simpa using hlen, ?_, ?_⟩
    · rw [ComputeStrides.loop]
      simp only [hrts, hros]
      rw [if_pos ⟨h0, hstn⟩]
      exact hrun
    · intro d hd
      have hne : d0.toNat ≠ d := by
        intro h
        apply hd
        rw [← h, hd0]
        exact List.mem_cons_self _ _
      rw [hother d (fun hmem => hd (List.mem_cons_of_mem _ hmem)), List.getElem?_set]
      simp [hne]
    · intro k hk
      cases k with
      | zero =>
        refine ⟨d0.toNat, tile_strides[d0.toNat], by simp [hd0],
          List.getElem?_eq_getElem htsn, ?_⟩
        rw [hother d0.toNat (by rw [hd0]; exact hnotin), List.getElem?_set]
        simp [hstn, minorProduct_zero, hcs]
      | succ k =>
        obtain ⟨d, ts, hd, hts', hout⟩ := hpos k (by simpa using hk)
        refine ⟨d, ts, by simpa using hd, hts', ?_⟩
        rw [hout, minorProduct_cons _ _ _ _ _ hros, toInt64_mul_left, mul_assoc]

/-- For the normalized layout the product of the `k` minor-most sizes is the product of the
last `k` entries of the shape. -/
theorem minorProduct_normalizedLayout (shape : List Int) :
    ∀ k : Nat, k ≤ shape.length →
      minorProduct shape (normalizedLayout shape.length) k
        = (shape.drop (shape.length - k)).prod := by
  intro k
  induction k with
  | zero => intro _; simp [minorProduct]
  | succ k ih =>
    intro hk
    have hk' : k < (normalizedLayout shape.length).length := by
      rw [normalizedLayout_length]; omega
    have hget : (normalizedLayout shape.length)[k]
        = (shape.length : Int) - 1 - (k : Int) := by
      have := normalizedLayout_getElem? shape.length k (by omega)
      rw [List.getElem?_eq_getElem hk'] at this
      exact Option.some.inj this
    have hidx : shape.length - (k + 1) < shape.length := by omega
    have hread : readAt shape ((shape.length : Int) - 1 - (k : Int))
        = some shape[shape.length - (k + 1)] := by
      have e : ((shape.length : Int) - 1 - (k : Int)).toNat = shape.length - (k + 1) := by omega
      have h0 : (0 : Int) ≤ (shape.length : Int) - 1 - (k : Int) := by omega
      simp [readAt, h0, e, List.getElem?_eq_getElem hidx]
    have hdrop : shape.drop (shape.length - (k + 1))
        = shape[shape.length - (k + 1)] :: shape.drop (shape.length - k) := by
      rw [List.drop_eq_getElem_cons hidx]
      congr 2
      omega
    have ih' := ih (by omega)
    unfold minorProduct at ih' ⊢
    rw [List.take_succ, List.getElem?_eq_getElem hk', hget, hdrop, List.map_append,
      List.prod_append, ih', List.prod_cons]
    simp [hread, mul_comm]

/-- The run-time value of a stride built by `ComputeStrides`: the 64-bit product of the tile
stride and the constant. -/
theorem Scalar.eval_stride (valueOf : Value → Int) (ts : Value) (c : Int) :
    (Scalar.MulIOp (Scalar.IndexCastUIOp IntType.I64 (Scalar.value ts))
      (Scalar.CreateConst IntType.I64 c)).eval valueOf = toInt64 (ts.runtime valueOf * c) := by
  simp only [Scalar.eval]
  rw [toInt64_mul_left, toInt64_mul_right]

/-- What `ComputeStrides` returns on a permutation layout of the rank of shape and strides. -/
theorem ComputeStrides_entries (original_shape : List Int) (tile_strides : List Value)
    (layout : List Int) (hperm : IsPermutation layout)
    (hshape : original_shape.length = layout.length)
    (hstrides : tile_strides.length = layout.length) :
    ∃ strides, ComputeStrides original_shape tile_strides layout = some strides ∧
      strides.length = layout.length ∧
      ∀ k : Nat, k < layout.length →
        ∃ (d : Nat) (ts : Value), layout[k]? = some (d : Int) ∧ tile_strides[d]? = some ts ∧
          strides[d]? = some (Scalar.MulIOp (Scalar.IndexCastUIOp IntType.I64 (Scalar.value ts))
            (Scalar.CreateConst IntType.I64
              (toInt64 (minorProduct original_shape layout k)))) := by
  obtain ⟨out, hrun, hlen, _, hpos⟩ := ComputeStrides.loop_spec original_shape tile_strides
    layout (List.replicate tile_strides.length Scalar.null) 1
    (fun x hx => by
      obtain ⟨h0, hlt⟩ := (hperm.mem_iff x).1 hx
      refine ⟨h0, by omega, by omega, ?_⟩
      rw [List.length_replicate]
      omega)
    hperm.nodup (by decide)
  refine ⟨out, hrun, by rw [hlen, List.length_replicate, hstrides], ?_⟩
  intro k hk
  obtain ⟨d, ts, hd, hts, hout⟩ := hpos k hk
  rw [one_mul] at hout
  exact ⟨d, ts, hd, hts, hout⟩

/-- C17: for a permutation layout of the rank `N` of the original shape and the tile strides,
`ComputeStrides` returns `N` strides, and the stride of the dimension `layout[k]` is the tile
stride of that dimension times the 64-bit constant
`original_shape[layout[0]] * ... * original_shape[layout[k-1]]`, the exact product when that
is an `int64_t`; the run-time value of the stride is the product of the two in 64-bit
arithmetic. The minor-most dimension `layout[0]` has the multiplier 1, and for the normalized
layout the multiplier of dimension `d` is the product of `original_shape[j]` for `j > d`. -/
theorem ComputeStrides_spec (original_shape : List Int) (tile_strides : List Value)
    (layout : List Int) (hperm : IsPermutation layout)
    (hshape : original_shape.length = layout.length)
    (hstrides : tile_strides.length = layout.length) :
    ∃ strides, ComputeStrides original_shape tile_strides layout = some strides ∧
      strides.length = layout.length ∧
      (∀ k : Nat, k < layout.length →
        ∃ (d : Nat) (ts : Value), layout[k]? = some (d : Int) ∧ tile_strides[d]? = some ts ∧
          strides[d]? = some (Scalar.MulIOp (Scalar.IndexCastUIOp IntType.I64 (Scalar.value ts))
            (Scalar.CreateConst IntType.I64
              (toInt64 (minorProduct original_shape layout k)))) ∧
          (IsInt64 (minorProduct original_shape layout k) →
            strides[d]? = some (Scalar.MulIOp
              (Scalar.IndexCastUIOp IntType.I64 (Scalar.value ts))
              (Scalar.CreateConst IntType.I64 (minorProduct original_shape layout k)))) ∧
          ∀ valueOf : Value → Int,
            (Scalar.MulIOp (Scalar.IndexCastUIOp IntType.I64 (Scalar.value ts))
              (Scalar.CreateConst IntType.I64
                (toInt64 (minorProduct original_shape layout k)))).eval valueOf
              = toInt64 (ts.runtime valueOf * minorProduct original_shape layout k)) ∧
      (∀ (d : Nat) (ts : Value), layout[0]? = some (d : Int) → tile_strides[d]? = some ts →
        strides[d]? = some (Scalar.MulIOp (Scalar.IndexCastUIOp IntType.I64 (Scalar.value ts))
          (Scalar.CreateConst IntType.I64 1))) ∧
      (layout = normalizedLayout layout.length →
        ∀ d : Nat, d < layout.length →
          ∃ ts : Value, tile_strides[d]? = some ts ∧
            strides[d]? = some (Scalar.MulIOp
              (Scalar.IndexCastUIOp IntType.I64 (Scalar.value ts))
              (Scalar.CreateConst IntType.I64 (toInt64 (original_shape.drop (d + 1)).prod)))) := by
  obtain ⟨strides, hrun, hlen, hall⟩ :=
    ComputeStrides_entries original_shape tile_strides layout hperm hshape hstrides
  refine ⟨strides, hrun, hlen, ?_, ?_, ?_⟩
  · intro k hk
    obtain ⟨d, ts, hd, hts, hout⟩ := hall k hk
    refine ⟨d, ts, hd, hts, hout, ?_, ?_⟩
    · intro hfit
      rw [hout, toInt64_of_isInt64 hfit]
    · intro valueOf
      rw [Scalar.eval_stride, toInt64_mul_right]
  · intro d ts hd hts
    have hk : 0 < layout.length := by
      by_contra hn
      rw [List.getElem?_eq_none (by omega)] at hd
      cases hd
    obtain ⟨d', ts', hd', hts', hout⟩ := hall 0 hk
    rw [hd] at hd'
    have hdd : d = d' := by exact_mod_cast Option.some.inj hd'
    subst hdd
    rw [hts] at hts'
    cases hts'
    rw [hout, minorProduct_zero]
    rfl
  · intro hnorm d hd
    obtain ⟨d', ts, hd', hts, hout⟩ := hall (layout.length - 1 - d) (by omega)
    have hget := normalizedLayout_getElem? layout.length (layout.length - 1 - d) (by omega)
    rw [← hnorm, hd'] at hget
    have hdd : d' = d := by
      have := Option.some.inj hget
      omega
    rw [hdd] at hts hout
    refine ⟨ts, hts, ?_⟩
    have hmp : minorProduct original_shape layout (layout.length - 1 - d)
        = (original_shape.drop (d + 1)).prod := by
      have h1 : minorProduct original_shape layout (layout.length - 1 - d)
          = minorProduct original_shape (normalizedLayout layout.length)
              (layout.length - 1 - d) :=
        congrArg (fun l => minorProduct original_shape l (layout.length - 1 - d)) hnorm
      rw [h1, ← hshape, minorProduct_normalizedLayout original_shape _ (by omega)]
      congr 2
      omega
    rw [hout, hmp]

/-- C17 at a concrete input: shape `[4, 8, 16]` with layout `[0, 2, 1]` gives the multipliers
1 for dimension 0, 4 for dimension 2 and 64 for dimension 1. -/
theorem ComputeStrides_spec_witness :
    IsPermutation [0, 2, 1] ∧
    ([4, 8, 16] : List Int).length = ([0, 2, 1] : List Int).length ∧
    [Value.constantIndex 1, Value.blockArgument 3, Value.constantIndex 2].length
      = ([0, 2, 1] : List Int).length ∧
    (∃ strides,
      ComputeStrides [4, 8, 16]
        [Value.constantIndex 1, Value.blockArgument 3, Value.constantIndex 2] [0, 2, 1]
        = some strides ∧ strides.length = ([0, 2, 1] : List Int).length) ∧
    ComputeStrides [4, 8, 16]
      [Value.constantIndex 1, Value.blockArgument 3, Value.constantIndex 2] [0, 2, 1]
      = some [
        Scalar.MulIOp (Scalar.IndexCastUIOp IntType.I64 (Scalar.value (Value.constantIndex 1)))
          (Scalar.CreateConst IntType.I64 1),
        Scalar.MulIOp (Scalar.IndexCastUIOp IntType.I64 (Scalar.value (Value.blockArgument 3)))
          (Scalar.CreateConst IntType.I64 64),
        Scalar.MulIOp (Scalar.IndexCastUIOp IntType.I64 (Scalar.value (Value.constantIndex 2)))
          (Scalar.CreateConst IntType.I64 4)] :=
  ⟨by decide, rfl, rfl,
    (ComputeStrides_spec [4, 8, 16]
      [Value.constantIndex 1, Value.blockArgument 3, Value.constantIndex 2] [0, 2, 1]
      (by decide) rfl rfl).imp (fun _ h => ⟨h.1, h.2.1⟩),
    rfl⟩

/-- Sums of terms with the same residues have the same residue. -/
theorem sum_map_modEq (n : Int) (f g : Nat → Int) :
    ∀ l : List Nat, (∀ d ∈ l, f d ≡ g d [ZMOD n]) → (l.map f).sum ≡ (l.map g).sum [ZMOD n] := by
  intro l
  induction l with
  | nil => intro _; exact Int.ModEq.refl _
  | cons a l ih =>
    intro h
    rw [List.map_cons, List.map_cons, List.sum_cons, List.sum_cons]
    exact (h a (List.mem_cons_self _ _)).add (ih (fun d hd => h d (List.mem_cons_of_mem _ hd)))

/-- The linear index is additive: moving by `index[d]` steps of `tile_strides[d]` in every
dimension adds `index[d] * (tile_strides[d] * m_d)` for every dimension `d`. -/
theorem linearIndex_tileElement (shape layout offsets index tile_strides : List Int) :
    linearIndex shape layout (tileElement shape.length offsets index tile_strides)
      = linearIndex shape layout offsets
        + ((List.range shape.length).map (fun d : Nat =>
            index.getD d 0 * (tile_strides.getD d 0 * denseMultiplier shape layout d))).sum := by
  unfold linearIndex
  rw [← List.sum_map_add]
  congr 1
  apply List.map_congr_left
  intro d hd
  have hd' : d < shape.length := List.mem_range.1 hd
  have hget : (tileElement shape.length offsets index tile_strides).getD d 0
      = offsets.getD d 0 + index.getD d 0 * tile_strides.getD d 0 := by
    unfold tileElement
    rw [List.getD_eq_getElem?_getD, List.getElem?_map, List.getElem?_range hd']
    rfl
  rw [hget]
  ring

/-- The run-time value of the stride `ComputeStrides` gives dimension `d`: the 64-bit product
of the tile stride and the multiplier `m_d` of the dimension in the dense layout. -/
theorem ComputeStrides_eval (original_shape : List Int) (tile_strides : List Value)
    (layout : List Int) (hperm : IsPermutation layout)
    (hshape : original_shape.length = layout.length)
    (hstrides : tile_strides.length = layout.length) (valueOf : Value → Int) :
    ∃ strides, ComputeStrides original_shape tile_strides layout = some strides ∧
      ∀ d : Nat, d < layout.length →
        (strides.getD d Scalar.null).eval valueOf
          = toInt64 ((tile_strides.map (Value.runtime valueOf)).getD d 0
              * denseMultiplier original_shape layout d) := by
  obtain ⟨strides, hrun, _, hall⟩ :=
    ComputeStrides_entries original_shape tile_strides layout hperm hshape hstrides
  refine ⟨strides, hrun, ?_⟩
  intro d hd
  have hmem : (d : Int) ∈ layout := (hperm.mem_iff _).2 ⟨Int.ofNat_nonneg d, Int.ofNat_lt.2 hd⟩
  have hk : layout.indexOf (d : Int) < layout.length := List.indexOf_lt_length.2 hmem
  obtain ⟨d', ts, hd', hts, hout⟩ := hall _ hk
  rw [List.getElem?_eq_getElem hk, List.getElem_indexOf hk] at hd'
  have hdd : d = d' := by exact_mod_cast Option.some.inj hd'
  rw [← hdd] at hts hout
  have hs : (tile_strides.map (Value.runtime valueOf)).getD d 0 = ts.runtime valueOf := by
    rw [List.getD_eq_getElem?_getD, List.getElem?_map, hts]
    rfl
  rw [List.getD_eq_getElem?_getD, hout, hs]
  show (Scalar.MulIOp _ _).eval valueOf = _
  rw [Scalar.eval_stride, toInt64_mul_right]
  rfl

/-- C18: with `lin` the linear element index of the dense layout, which `ComputeLinearOffset`
evaluates at the access offsets, the linear index of element `index` of the tile is the linear
offset plus the sum over the dimensions of `index[d]` times the stride `ComputeStrides` gives
the dimension: so it is over the integers for the exact strides `tile_strides[d] * m_d`, and
so it is in 64-bit arithmetic for the values the created operations compute. -/
theorem ComputeLinearOffset_add_strides (original_shape : List Int) (bit_width : Nat)
    (offsets tile_strides : List Value) (layout : List Int) (index : List Int)
    (valueOf : Value → Int) (hperm : IsPermutation layout)
    (hshape : original_shape.length = layout.length)
    (hstrides : tile_strides.length = layout.length) :
    ∃ strides, ComputeStrides original_shape tile_strides layout = some strides ∧
      linearIndex original_shape layout
          (tileElement original_shape.length (offsets.map (Value.runtime valueOf)) index
            (tile_strides.map (Value.runtime valueOf)))
        = linearIndex original_shape layout (offsets.map (Value.runtime valueOf))
          + ((List.range original_shape.length).map (fun d : Nat =>
              index.getD d 0 * ((tile_strides.map (Value.runtime valueOf)).getD d 0
                * denseMultiplier original_shape layout d))).sum ∧
      toInt64 (linearIndex original_shape layout
          (tileElement original_shape.length (offsets.map (Value.runtime valueOf)) index
            (tile_strides.map (Value.runtime valueOf))))
        = toInt64 ((ComputeLinearOffset ⟨original_shape, bit_width⟩ offsets layout).eval valueOf
          + ((List.range original_shape.length).map (fun d : Nat =>
              index.getD d 0 * (strides.getD d Scalar.null).eval valueOf)).sum) ∧
      (IsInt64 (linearIndex original_shape layout (offsets.map (Value.runtime valueOf))) →
        (∀ d : Nat, d < original_shape.length →
          IsInt64 ((tile_strides.map (Value.runtime valueOf)).getD d 0
            * denseMultiplier original_shape layout d)) →
        linearIndex original_shape layout
            (tileElement original_shape.length (offsets.map (Value.runtime valueOf)) index
              (tile_strides.map (Value.runtime valueOf)))
          = (ComputeLinearOffset ⟨original_shape, bit_width⟩ offsets layout).eval valueOf
            + ((List.range original_shape.length).map (fun d : Nat =>
                index.getD d 0 * (strides.getD d Scalar.null).eval valueOf)).sum) := by
  obtain ⟨strides, hrun, heval⟩ :=
    ComputeStrides_eval original_shape tile_strides layout hperm hshape hstrides valueOf
  have hlin : (ComputeLinearOffset ⟨original_shape, bit_width⟩ offsets layout).eval valueOf
      = toInt64 (linearIndex original_shape layout (offsets.map (Value.runtime valueOf))) := by
    simp only [ComputeLinearOffset, Scalar.eval]
    rw [toInt64_toInt64]
  have hexact := linearIndex_tileElement original_shape layout
    (offsets.map (Value.runtime valueOf)) index (tile_strides.map (Value.runtime valueOf))
  refine ⟨strides, hrun, hexact, ?_, ?_⟩
  · rw [hexact, hlin]
    apply toInt64_eq_of_modEq
    refine ((toInt64_modEq _).symm).add ?_
    apply sum_map_modEq
    intro d hd
    have hd' : d < layout.length := by rw [← hshape]; exact List.mem_range.1 hd
    rw [heval d hd']
    exact ((toInt64_modEq _).symm).mul_left _
  · intro hfit hfits
    rw [hexact, hlin, toInt64_of_isInt64 hfit]
    congr 2
    apply List.map_congr_left
    intro d hd
    have hd' : d < original_shape.length := List.mem_range.1 hd
    rw [heval d (by omega), toInt64_of_isInt64 (hfits d hd')]

/-- C18 at a concrete access: shape `[4, 8]` with layout `[0, 1]`, offsets `[1, 2]`, tile
strides `[2, 3]` and tile element `[1, 1]`; direct indexing reaches the linear index
`3 + 5 * 4 = 23`, the linear offset is `1 + 2 * 4 = 9`, and the strides are `2` and `12`. -/
theorem ComputeLinearOffset_add_strides_witness :
    IsPermutation [0, 1] ∧ ([4, 8] : List Int).length = ([0, 1] : List Int).length ∧
    [Value.constantIndex 2, Value.constantIndex 3].length = ([0, 1] : List Int).length ∧
    (∃ strides,
      ComputeStrides [4, 8] [Value.constantIndex 2, Value.constantIndex 3] [0, 1]
        = some strides ∧
      linearIndex [4, 8] [0, 1]
          (tileElement ([4, 8] : List Int).length
            ([Value.constantIndex 1, Value.constantIndex 2].map (Value.runtime (fun _ => 0)))
            [1, 1]
            ([Value.constantIndex 2, Value.constantIndex 3].map (Value.runtime (fun _ => 0))))
        = (ComputeLinearOffset ⟨[4, 8], 32⟩ [Value.constantIndex 1, Value.constantIndex 2]
              [0, 1]).eval (fun _ => 0)
          + ((List.range ([4, 8] : List Int).length).map (fun d : Nat =>
              ([1, 1] : List Int).getD d 0
                * (strides.getD d Scalar.null).eval (fun _ => 0))).sum) ∧
    linearIndex [4, 8] [0, 1] (tileElement 2 [1, 2] [1, 1] [2, 3]) = 23 ∧
    (ComputeLinearOffset ⟨[4, 8], 32⟩ [Value.constantIndex 1, Value.constantIndex 2]
      [0, 1]).eval (fun _ => 0) = 9 :=
  ⟨by decide, rfl, rfl,
    (ComputeLinearOffset_add_strides [4, 8] 32 [Value.constantIndex 1, Value.constantIndex 2]
      [Value.constantIndex 2, Value.constantIndex 3] [0, 1] [1, 1] (fun _ => 0) (by decide)
      rfl rfl).imp
      (fun _ h => ⟨h.1, h.2.2.2 (by decide) (by decide)⟩),
    by decide, by decide⟩

/-- A loop that appends one value per element builds the list of these values. -/
theorem foldl_append_singleton {α β : Type} (f : α → β) :
    ∀ (l : List α) (acc : List β),
      l.foldl (fun acc p => acc ++ [f p]) acc = acc ++ l.map f := by
  intro l
  induction l with
  | nil => intro acc; simp
  | cons a l ih =>
    intro acc
    rw [List.foldl_cons, ih]
    simp

/-- The residual shape, dimension by dimension: the size minus the offset. -/
theorem ComputeResidualShape_eq_zipWith (original_shape : List Int) (tile_offsets : List Value) :
    ComputeResidualShape original_shape tile_offsets
      = List.zipWith
          (fun shape tile_offset =>
            Scalar.SubIOp (Scalar.CreateConst IntType.I64 shape)
              (Scalar.IndexCastUIOp IntType.I64 (Scalar.value tile_offset)))
          original_shape tile_offsets := by
  unfold ComputeResidualShape
  have h := foldl_append_singleton
    (fun p : Nat × Int × Value =>
      Scalar.SubIOp (Scalar.CreateConst IntType.I64 p.2.1)
        (Scalar.IndexCastUIOp IntType.I64 (Scalar.value p.2.2)))
    (original_shape.zip tile_offsets).enum []
  rw [List.nil_append] at h
  rw [h]
  have h2 : (original_shape.zip tile_offsets).enum.map
      (fun p : Nat × Int × Value =>
        Scalar.SubIOp (Scalar.CreateConst IntType.I64 p.2.1)
          (Scalar.IndexCastUIOp IntType.I64 (Scalar.value p.2.2)))
      = ((original_shape.zip tile_offsets).enum.map Prod.snd).map
          (fun q : Int × Value =>
            Scalar.SubIOp (Scalar.CreateConst IntType.I64 q.1)
              (Scalar.IndexCastUIOp IntType.I64 (Scalar.value q.2))) := by
    rw [List.map_map]
    rfl
  rw [h2, List.enum_map_snd, List.zip_eq_zipWith, List.map_zipWith]

/-- C19: `ComputeResidualShape` returns, per dimension `d` and in the order of the dimensions,
`original_shape[d] - tile_offsets[d]`; `CreateMakeTensorPtrOp` returns on a permutation layout
and passes that residual shape to `tt.make_tensor_ptr` together with as many zero offsets as
the tile has dimensions; and whenever `0 <= tile_offsets[d] <= original_shape[d]` the residual
entry is not negative and adds up with the offset to `original_shape[d]`. -/
theorem ComputeResidualShape_spec (ptr : Ptr) (original_shape tile_shape : List Int)
    (offsets tile_strides : List Value) (layout : List Int) (valueOf : Value → Int)
    (hperm : IsPermutation layout) (hshape : original_shape.length = layout.length)
    (hstrides : tile_strides.length = layout.length) :
    (ComputeResidualShape original_shape offsets).length
      = min original_shape.length offsets.length ∧
    (∀ (d : Nat) (shape : Int) (tile_offset : Value), original_shape[d]? = some shape →
      offsets[d]? = some tile_offset →
      (ComputeResidualShape original_shape offsets)[d]?
        = some (Scalar.SubIOp (Scalar.CreateConst IntType.I64 shape)
            (Scalar.IndexCastUIOp IntType.I64 (Scalar.value tile_offset))) ∧
      (IsInt64 shape → 0 ≤ tile_offset.runtime valueOf →
        tile_offset.runtime valueOf ≤ shape →
        (Scalar.SubIOp (Scalar.CreateConst IntType.I64 shape)
            (Scalar.IndexCastUIOp IntType.I64 (Scalar.value tile_offset))).eval valueOf
          = shape - tile_offset.runtime valueOf ∧
        0 ≤ (Scalar.SubIOp (Scalar.CreateConst IntType.I64 shape)
            (Scalar.IndexCastUIOp IntType.I64 (Scalar.value tile_offset))).eval valueOf ∧
        (Scalar.SubIOp (Scalar.CreateConst IntType.I64 shape)
            (Scalar.IndexCastUIOp IntType.I64 (Scalar.value tile_offset))).eval valueOf
          + tile_offset.runtime valueOf = shape)) ∧
    (∃ strides dim_order,
      CreateMakeTensorPtrOp ptr original_shape tile_shape offsets tile_strides layout
        = some (Ptr.MakeTensorPtrOp ptr (ComputeResidualShape original_shape offsets) strides
            (List.replicate tile_shape.length (Scalar.CreateConst IntType.I32 0))
            (tile_shape.map toInt32) dim_order) ∧
      ComputeStrides original_shape tile_strides layout = some strides) ∧
    (∀ zero ∈ List.replicate tile_shape.length (Scalar.CreateConst IntType.I32 0),
      zero.eval valueOf = 0) := by
  refine ⟨?_, ?_, ?_, ?_⟩
  · rw [ComputeResidualShape_eq_zipWith, List.length_zipWith]
  · intro d shape tile_offset hs ho
    refine ⟨?_, ?_⟩
    · rw [ComputeResidualShape_eq_zipWith, List.getElem?_zipWith, hs, ho]
    · intro hfit h0 hle
      have hev : (Scalar.SubIOp (Scalar.CreateConst IntType.I64 shape)
          (Scalar.IndexCastUIOp IntType.I64 (Scalar.value tile_offset))).eval valueOf
          = shape - tile_offset.runtime valueOf := by
        simp only [Scalar.eval]
        unfold IsInt64 at hfit
        unfold toInt64
        omega
      rw [hev]
      omega
  · obtain ⟨strides, hrun, _⟩ :=
      ComputeStrides_entries original_shape tile_strides layout hperm hshape hstrides
    exact ⟨strides, (List.range layout.length).reverse.map (fun k : Nat => (k : Int)),
      by simp only [CreateMakeTensorPtrOp, hrun], hrun⟩
  · intro zero hz
    rw [List.eq_of_mem_replicate hz]
    rfl

/-- C19 at a concrete access: shape `[9, 8]` with offsets `[4, 8]` leaves the residual shape
`[5, 0]`. -/
theorem ComputeResidualShape_spec_witness :
    IsPermutation [1, 0] ∧ ([9, 8] : List Int).length = ([1, 0] : List Int).length ∧
    [Value.constantIndex 1, Value.constantIndex 1].length = ([1, 0] : List Int).length ∧
    (ComputeResidualShape [9, 8] [Value.constantIndex 4, Value.constantIndex 8]).length
      = min ([9, 8] : List Int).length [Value.constantIndex 4, Value.constantIndex 8].length ∧
    ComputeResidualShape [9, 8] [Value.constantIndex 4, Value.constantIndex 8]
      = [Scalar.SubIOp (Scalar.CreateConst IntType.I64 9)
          (Scalar.IndexCastUIOp IntType.I64 (Scalar.value (Value.constantIndex 4))),
        Scalar.SubIOp (Scalar.CreateConst IntType.I64 8)
          (Scalar.IndexCastUIOp IntType.I64 (Scalar.value (Value.constantIndex 8)))] ∧
    (ComputeResidualShape [9, 8] [Value.constantIndex 4, Value.constantIndex 8]).map
      (Scalar.eval (fun _ => 0)) = [5, 0] :=
  ⟨by decide, rfl, rfl,
    (ComputeResidualShape_spec (Ptr.UnrealizedConversionCastOp ⟨⟨[9, 8], 32⟩, true, 1, true⟩)
      [9, 8] [4, 4] [Value.constantIndex 4, Value.constantIndex 8]
      [Value.constantIndex 1, Value.constantIndex 1] [1, 0] (fun _ => 0) (by decide) rfl
      rfl).1,
    rfl, by decide⟩

/-! ## The access-site rules: theorems -/

/-- When `CanUseTMA` returns `false` on a well-formed tile extract without a tile size 0,
`RewriteExtract` takes the generic path: pointer advance, tensor pointer, load. -/
theorem RewriteExtract_generic (device_description : DeviceDescription) (tma_enabled : Bool)
    (op : ExtractOp) (hwf : op.WellFormed) (htile : ∀ t ∈ op.result_type.shape, t ≠ 0)
    (hcan : CanUseTMA tma_enabled device_description op.result_type.shape op.static_strides
      op.offsets op.src op.layout = some false) :
    ∃ strides dim_order boundary_checks,
      ComputeStrides op.src.type.shape op.strides op.layout = some strides ∧
      ComputeBoundaryChecks op.src.type.shape op.result_type.shape = some boundary_checks ∧
      RewriteExtract.matchAndRewrite device_description tma_enabled op
        = some (LogicalResult.success
            ⟨[], Tile.LoadOp
              (Ptr.MakeTensorPtrOp
                (Ptr.AddPtrOp (Ptr.UnrealizedConversionCastOp op.src)
                  (ComputeLinearOffset op.src.type op.offsets op.layout))
                (ComputeResidualShape op.src.type.shape op.offsets) strides
                (List.replicate op.result_type.shape.length (Scalar.CreateConst IntType.I32 0))
                (op.result_type.shape.map toInt32) dim_order)
              boundary_checks
              (if !boundary_checks.isEmpty then some PaddingOption.PAD_ZERO else none)⟩) := by
  obtain ⟨⟨_, _, _, hlay, hperm⟩, hstr⟩ := hwf
  obtain ⟨strides, hrun, _⟩ := ComputeStrides_entries op.src.type.shape op.strides op.layout
    hperm hlay.symm (by rw [hstr, hlay])
  obtain ⟨boundary_checks, hchecks⟩ :=
    ComputeBoundaryChecks_defined op.src.type.shape op.result_type.shape htile
  refine ⟨strides, (List.range op.layout.length).reverse.map (fun k : Nat => (k : Int)),
    boundary_checks, hrun, hchecks, ?_⟩
  simp only [RewriteExtract.matchAndRewrite, hcan, CreateMakeTensorPtrOp, hrun, CreateAddPtrOp,
    hchecks]

/-- When `CanUseTMA` returns `false` on a well-formed tile insert without a tile size 0,
`RewriteInsert` takes the generic path: pointer advance, tensor pointer, store. -/
theorem RewriteInsert_generic (device_description : DeviceDescription) (tma_enabled : Bool)
    (op : InsertOp) (hwf : op.WellFormed) (htile : ∀ t ∈ op.src_type.shape, t ≠ 0)
    (hcan : CanUseTMA tma_enabled device_description op.src_type.shape op.static_strides
      op.offsets op.dst op.layout = some false) :
    ∃ strides dim_order boundary_checks,
      ComputeStrides op.dst.type.shape op.strides op.layout = some strides ∧
      ComputeBoundaryChecks op.dst.type.shape op.src_type.shape = some boundary_checks ∧
      RewriteInsert.matchAndRewrite device_description tma_enabled op
        = some (LogicalResult.success
            ⟨[], Store.StoreOp
              (Ptr.MakeTensorPtrOp
                (Ptr.AddPtrOp (Ptr.UnrealizedConversionCastOp op.dst)
                  (ComputeLinearOffset op.dst.type op.offsets op.layout))
                (ComputeResidualShape op.dst.type.shape op.offsets) strides
                (List.replicate op.src_type.shape.length (Scalar.CreateConst IntType.I32 0))
                (op.src_type.shape.map toInt32) dim_order)
              Tile.operand boundary_checks, op.dst⟩) := by
  obtain ⟨⟨_, _, _, hlay, hperm⟩, hstr⟩ := hwf
  obtain ⟨strides, hrun, _⟩ := ComputeStrides_entries op.dst.type.shape op.strides op.layout
    hperm hlay.symm (by rw [hstr, hlay])
  obtain ⟨boundary_checks, hchecks⟩ :=
    ComputeBoundaryChecks_defined op.dst.type.shape op.src_type.shape htile
  refine ⟨strides, (List.range op.layout.length).reverse.map (fun k : Nat => (k : Int)),
    boundary_checks, hrun, hchecks, ?_⟩
  simp only [RewriteInsert.matchAndRewrite, hcan, CreateMakeTensorPtrOp, hrun, CreateAddPtrOp,
    hchecks]

/-- C16: for the end-to-end access of the spec (original shape `[1024, 1024]`, tile shape
`[128, 128]`, constant offsets `[0, 0]`, layout `[1, 0]`, strides `[1, 1]`, a function argument
with a single use, the fast path enabled and supported by the device) and every element byte
size in `{1, 2, 4, 8}`: `CanUseTMA` returns `true`, the extract is replaced by the descriptor
load itself, without transpose, and the TMA attribute set on the argument records the global
shape `[1024, 1024]`, the tile shape `[128, 128]`, the strides `[1, 1]` and the layout
`[1, 0]`. -/
theorem RewriteExtract_end_to_end (element_byte_size : Nat)
    (he : element_byte_size ∈ [1, 2, 4, 8]) :
    CanUseTMA true ⟨true⟩ (endToEndExtract (8 * element_byte_size)).result_type.shape
      (endToEndExtract (8 * element_byte_size)).static_strides
      (endToEndExtract (8 * element_byte_size)).offsets
      (endToEndExtract (8 * element_byte_size)).src
      (endToEndExtract (8 * element_byte_size)).layout = some true ∧
    RewriteExtract.matchAndRewrite ⟨true⟩ true (endToEndExtract (8 * element_byte_size))
      = some (LogicalResult.success
          ⟨[("tt.nv_tma_desc", Attribute.IntegerAttr IntType.I32 1),
            ("tt.tma_descriptor",
              Attribute.TmaDescriptor
                ⟨[1024, 1024], [128, 128], [1, 1], [1, 0], element_byte_size⟩)],
            Tile.DescriptorLoadOp ⟨[128, 128], 8 * element_byte_size⟩
              ⟨⟨[128, 128], 8 * element_byte_size⟩,
                (endToEndExtract (8 * element_byte_size)).src⟩
              [Scalar.IndexCastUIOp IntType.I32 (Scalar.value (Value.constantIndex 0)),
                Scalar.IndexCastUIOp IntType.I32 (Scalar.value (Value.constantIndex 0))]⟩) := by
  simp only [List.mem_cons, List.mem_singleton, List.not_mem_nil, or_false] at he
  rcases he with rfl | rfl | rfl | rfl
  · exact ⟨by decide, rfl⟩
  · exact ⟨by decide, rfl⟩
  · exact ⟨by decide, rfl⟩
  · exact ⟨by decide, rfl⟩

/-- C16 for 4-byte elements. -/
theorem RewriteExtract_end_to_end_witness :
    (4 : Nat) ∈ [1, 2, 4, 8] ∧
    CanUseTMA true ⟨true⟩ (endToEndExtract (8 * 4)).result_type.shape
      (endToEndExtract (8 * 4)).static_strides (endToEndExtract (8 * 4)).offsets
      (endToEndExtract (8 * 4)).src (endToEndExtract (8 * 4)).layout = some true ∧
    RewriteExtract.matchAndRewrite ⟨true⟩ true (endToEndExtract (8 * 4))
      = some (LogicalResult.success
          ⟨[("tt.nv_tma_desc", Attribute.IntegerAttr IntType.I32 1),
            ("tt.tma_descriptor",
              Attribute.TmaDescriptor ⟨[1024, 1024], [128, 128], [1, 1], [1, 0], 4⟩)],
            Tile.DescriptorLoadOp ⟨[128, 128], 8 * 4⟩
              ⟨⟨[128, 128], 8 * 4⟩, (endToEndExtract (8 * 4)).src⟩
              [Scalar.IndexCastUIOp IntType.I32 (Scalar.value (Value.constantIndex 0)),
                Scalar.IndexCastUIOp IntType.I32 (Scalar.value (Value.constantIndex 0))]⟩) :=
  ⟨by decide, RewriteExtract_end_to_end 4 (by decide)⟩

/-- What `AddTmaAttributes` sets records the access it is called with. -/
theorem AddTmaAttributes_records (tensor : TensorValue)
    (tile_shape static_strides layout : List Int) (arg_attrs : List (String × Attribute))
    (h : AddTmaAttributes tensor tile_shape (static_strides.map canonicalStride) layout
      = some arg_attrs) :
    RecordsAccess arg_attrs tensor.type.shape tile_shape static_strides layout := by
  unfold AddTmaAttributes at h
  split at h
  · cases h
    exact ⟨⟨tensor.type.shape, tile_shape, static_strides.map canonicalStride, layout,
      tensor.type.elementTypeBitWidth / 8⟩, by simp, rfl, rfl, rfl, rfl⟩
  · cases h

/-- When `CanUseTMA` returns `true` and `RewriteExtract` succeeds, the attributes it sets are
those of `AddTmaAttributes` on the canonicalized static strides. -/
theorem RewriteExtract_tma_attrs (device_description : DeviceDescription) (tma_enabled : Bool)
    (op : ExtractOp) (rewrite : ExtractRewrite)
    (hcan : CanUseTMA tma_enabled device_description op.result_type.shape op.static_strides
      op.offsets op.src op.layout = some true)
    (hrun : RewriteExtract.matchAndRewrite device_description tma_enabled op
      = some (LogicalResult.success rewrite)) :
    CanonicalizeTileStrides op.static_strides op.result_type.shape op.src.type.shape
      = some (Status.OkStatus, op.static_strides.map canonicalStride) ∧
    AddTmaAttributes op.src op.result_type.shape (op.static_strides.map canonicalStride)
      op.layout = some rewrite.arg_attrs := by
  simp only [RewriteExtract.matchAndRewrite, hcan] at hrun
  cases hc : CanonicalizeTileStrides op.static_strides op.result_type.shape
      op.src.type.shape with
  | none => simp [hc] at hrun
  | some res =>
    obtain ⟨st, strides⟩ := res
    cases st with
    | InvalidArgumentError i t o => simp [hc] at hrun
    | OkStatus =>
      have hmap := CanonicalizeTileStrides_ok_eq_map _ _ _ _ hc
      subst hmap
      refine ⟨rfl, ?_⟩
      simp only [hc] at hrun
      cases ha : AddTmaAttributes op.src op.result_type.shape
          (op.static_strides.map canonicalStride) op.layout with
      | none => simp [ha] at hrun
      | some arg_attrs =>
        cases hn : Normalize op.result_type.shape op.layout with
        | none => simp [ha, hn] at hrun
        | some nts =>
          cases hv : NormalizeValues op.offsets op.layout with
          | none => simp [ha, hn, hv] at hrun
          | some noffs =>
            simp only [ha, hn, hv] at hrun
            split at hrun
            · cases hrun; rfl
            · cases hrun; rfl

/-- When `CanUseTMA` returns `true` and `RewriteInsert` succeeds, the attributes it sets are
those of `AddTmaAttributes` on the canonicalized static strides. -/
theorem RewriteInsert_tma_attrs (device_description : DeviceDescription) (tma_enabled : Bool)
    (op : InsertOp) (rewrite : InsertRewrite)
    (hcan : CanUseTMA tma_enabled device_description op.src_type.shape op.static_strides
      op.offsets op.dst op.layout = some true)
    (hrun : RewriteInsert.matchAndRewrite device_description tma_enabled op
      = some (LogicalResult.success rewrite)) :
    CanonicalizeTileStrides op.static_strides op.src_type.shape op.dst.type.shape
      = some (Status.OkStatus, op.static_strides.map canonicalStride) ∧
    AddTmaAttributes op.dst op.src_type.shape (op.static_strides.map canonicalStride)
      op.layout = some rewrite.arg_attrs := by
  simp only [RewriteInsert.matchAndRewrite, hcan] at hrun
  cases hc : CanonicalizeTileStrides op.static_strides op.src_type.shape
      op.dst.type.shape with
  | none => simp [hc] at hrun
  | some res =>
    obtain ⟨st, strides⟩ := res
    cases st with
    | InvalidArgumentError i t o => simp [hc] at hrun
    | OkStatus =>
      have hmap := CanonicalizeTileStrides_ok_eq_map _ _ _ _ hc
      subst hmap
      refine ⟨rfl, ?_⟩
      simp only [hc] at hrun
      cases ha : AddTmaAttributes op.dst op.src_type.shape
          (op.static_strides.map canonicalStride) op.layout with
      | none => simp [ha] at hrun
      | some arg_attrs =>
        cases hn : Normalize op.src_type.shape op.layout with
        | none => simp [ha, hn] at hrun
        | some nts =>
          cases hv : NormalizeValues op.offsets op.layout with
          | none => simp [ha, hn, hv] at hrun
          | some noffs =>
            simp only [ha, hn, hv] at hrun
            cases hrun
            rfl

/-- C20, the claim as stated fails: on the tensor of shape `[5, 8]` with 4-byte elements, the
extract of the tile `[1, 4]` with static strides `[0, 1]` and layout `[1, 0]` is accepted by
`CanUseTMA` and rewritten, and the attribute records the tile strides `[1, 1]`, which
normalized by the layout are not the static strides `[0, 1]` of the operation normalized the
same way. -/
theorem RewriteExtract_tma_attrs_counterexample :
    CanUseTMA true ⟨true⟩ [1, 4] [0, 1] [Value.constantIndex 0, Value.constantIndex 0]
      ⟨⟨[5, 8], 32⟩, true, 1, true⟩ [1, 0] = some true ∧
    RewriteExtract.matchAndRewrite ⟨true⟩ true
        ⟨⟨⟨[5, 8], 32⟩, true, 1, true⟩, ⟨[1, 4], 32⟩,
          [Value.constantIndex 0, Value.constantIndex 0], [0, 1],
          [Value.constantIndex 0, Value.constantIndex 1], [1, 0]⟩
      = some (LogicalResult.success
          ⟨[("tt.nv_tma_desc", Attribute.IntegerAttr IntType.I32 1),
            ("tt.tma_descriptor",
              Attribute.TmaDescriptor ⟨[5, 8], [1, 4], [1, 1], [1, 0], 4⟩)],
            Tile.DescriptorLoadOp ⟨[1, 4], 32⟩ ⟨⟨[1, 4], 32⟩, ⟨⟨[5, 8], 32⟩, true, 1, true⟩⟩
              [Scalar.IndexCastUIOp IntType.I32 (Scalar.value (Value.constantIndex 0)),
                Scalar.IndexCastUIOp IntType.I32 (Scalar.value (Value.constantIndex 0))]⟩) ∧
    Normalize [1, 1] [1, 0] = some [1, 1] ∧ Normalize [0, 1] [1, 0] = some [0, 1] ∧
    Normalize [1, 1] [1, 0] ≠ Normalize [0, 1] [1, 0] :=
  ⟨by decide, rfl, by decide, by decide, by decide⟩

/-- C20, amended: for every tile extract and tile insert on which `CanUseTMA` returns `true`
and the rewrite succeeds, the TMA attribute set on the argument records the shape of the tensor
as global shape, the tile shape and the layout of the operation, and as tile strides the static
strides of the operation with every 0 replaced by 1; so the recorded tile shape, tile strides
and layout, normalized by the recorded layout, are the tile shape, the canonicalized static
strides and the layout of the operation normalized by its layout, and the recorded strides
are the static strides themselves when none of these is 0. -/
theorem RewritePatterns_tma_attrs (device_description : DeviceDescription) (tma_enabled : Bool)
    (extract : ExtractOp) (extract_rewrite : ExtractRewrite) (insert : InsertOp)
    (insert_rewrite : InsertRewrite)
    (hcan_extract : CanUseTMA tma_enabled device_description extract.result_type.shape
      extract.static_strides extract.offsets extract.src extract.layout = some true)
    (hextract : RewriteExtract.matchAndRewrite device_description tma_enabled extract
      = some (LogicalResult.success extract_rewrite))
    (hcan_insert : CanUseTMA tma_enabled device_description insert.src_type.shape
      insert.static_strides insert.offsets insert.dst insert.layout = some true)
    (hinsert : RewriteInsert.matchAndRewrite device_description tma_enabled insert
      = some (LogicalResult.success insert_rewrite)) :
    (∃ attr : TmaDescriptorAttr,
      ("tt.tma_descriptor", Attribute.TmaDescriptor attr) ∈ extract_rewrite.arg_attrs ∧
      attr.global_shape = extract.src.type.shape ∧
      attr.tile_shape = extract.result_type.shape ∧
      attr.tile_strides = extract.static_strides.map canonicalStride ∧
      attr.layout = extract.layout ∧
      Normalize attr.tile_shape attr.layout
        = Normalize extract.result_type.shape extract.layout ∧
      Normalize attr.tile_strides attr.layout
        = Normalize (extract.static_strides.map canonicalStride) extract.layout ∧
      Normalize attr.layout attr.layout = Normalize extract.layout extract.layout ∧
      ((∀ s ∈ extract.static_strides, s ≠ 0) → attr.tile_strides = extract.static_strides)) ∧
    (∃ attr : TmaDescriptorAttr,
      ("tt.tma_descriptor", Attribute.TmaDescriptor attr) ∈ insert_rewrite.arg_attrs ∧
      attr.global_shape = insert.dst.type.shape ∧
      attr.tile_shape = insert.src_type.shape ∧
      attr.tile_strides = insert.static_strides.map canonicalStride ∧
      attr.layout = insert.layout ∧
      Normalize attr.tile_shape attr.layout
        = Normalize insert.src_type.shape insert.layout ∧
      Normalize attr.tile_strides attr.layout
        = Normalize (insert.static_strides.map canonicalStride) insert.layout ∧
      Normalize attr.layout attr.layout = Normalize insert.layout insert.layout ∧
      ((∀ s ∈ insert.static_strides, s ≠ 0) → attr.tile_strides = insert.static_strides)) := by
  have hmap : ∀ l : List Int, (∀ s ∈ l, s ≠ 0) → l.map canonicalStride = l := by
    intro l hl
    conv_rhs => rw [← List.map_id l]
    apply List.map_congr_left
    intro s hs
    simp [canonicalStride, hl s hs]
  refine ⟨?_, ?_⟩
  · obtain ⟨attr, hmem, h1, h2, h3, h4⟩ := AddTmaAttributes_records _ _ _ _ _
      (RewriteExtract_tma_attrs _ _ _ _ hcan_extract hextract).2
    refine ⟨attr, hmem, h1, h2, h3, h4, by rw [h2, h4], by rw [h3, h4], by rw [h4], ?_⟩
    intro hnz
    rw [h3, hmap _ hnz]
  · obtain ⟨attr, hmem, h1, h2, h3, h4⟩ := AddTmaAttributes_records _ _ _ _ _
      (RewriteInsert_tma_attrs _ _ _ _ hcan_insert hinsert).2
    refine ⟨attr, hmem, h1, h2, h3, h4, by rw [h2, h4], by rw [h3, h4], by rw [h4], ?_⟩
    intro hnz
    rw [h3, hmap _ hnz]

/-- C20, amended, at a concrete extract and insert of the tile `[1, 4]` with static strides
`[0, 1]` from a tensor of shape `[5, 8]`: the attribute records the strides `[1, 1]`. -/
theorem RewritePatterns_tma_attrs_witness :
    CanUseTMA true ⟨true⟩ [1, 4] [0, 1] [Value.constantIndex 0, Value.constantIndex 0]
      ⟨⟨[5, 8], 32⟩, true, 1, true⟩ [1, 0] = some true ∧
    RewriteExtract.matchAndRewrite ⟨true⟩ true
        ⟨⟨⟨[5, 8], 32⟩, true, 1, true⟩, ⟨[1, 4], 32⟩,
          [Value.constantIndex 0, Value.constantIndex 0], [0, 1],
          [Value.constantIndex 0, Value.constantIndex 1], [1, 0]⟩
      = some (LogicalResult.success
          ⟨[("tt.nv_tma_desc", Attribute.IntegerAttr IntType.I32 1),
            ("tt.tma_descriptor",
              Attribute.TmaDescriptor ⟨[5, 8], [1, 4], [1, 1], [1, 0], 4⟩)],
            Tile.DescriptorLoadOp ⟨[1, 4], 32⟩ ⟨⟨[1, 4], 32⟩, ⟨⟨[5, 8], 32⟩, true, 1, true⟩⟩
              [Scalar.IndexCastUIOp IntType.I32 (Scalar.value (Value.constantIndex 0)),
                Scalar.IndexCastUIOp IntType.I32 (Scalar.value (Value.constantIndex 0))]⟩) ∧
    RewriteInsert.matchAndRewrite ⟨true⟩ true
        ⟨⟨[1, 4], 32⟩, ⟨⟨[5, 8], 32⟩, true, 1, true⟩,
          [Value.constantIndex 0, Value.constantIndex 0], [0, 1],
          [Value.constantIndex 0, Value.constantIndex 1], [1, 0]⟩
      = some (LogicalResult.success
          ⟨[("tt.nv_tma_desc", Attribute.IntegerAttr IntType.I32 1),
            ("tt.tma_descriptor",
              Attribute.TmaDescriptor ⟨[5, 8], [1, 4], [1, 1], [1, 0], 4⟩)],
            Store.DescriptorStoreOp ⟨⟨[1, 4], 32⟩, ⟨⟨[5, 8], 32⟩, true, 1, true⟩⟩ Tile.operand
              [Scalar.IndexCastUIOp IntType.I32 (Scalar.value (Value.constantIndex 0)),
                Scalar.IndexCastUIOp IntType.I32 (Scalar.value (Value.constantIndex 0))],
            ⟨⟨[5, 8], 32⟩, true, 1, true⟩⟩) ∧
    (∃ attr : TmaDescriptorAttr,
      ("tt.tma_descriptor", Attribute.TmaDescriptor attr)
        ∈ [("tt.nv_tma_desc", Attribute.IntegerAttr IntType.I32 1),
            ("tt.tma_descriptor",
              Attribute.TmaDescriptor ⟨[5, 8], [1, 4], [1, 1], [1, 0], 4⟩)] ∧
      attr.global_shape = [5, 8] ∧ attr.tile_shape = [1, 4] ∧
      attr.tile_strides = ([0, 1] : List Int).map canonicalStride ∧ attr.layout = [1, 0]) :=
  ⟨by decide, rfl, rfl,
    (RewritePatterns_tma_attrs ⟨true⟩ true
      ⟨⟨⟨[5, 8], 32⟩, true, 1, true⟩, ⟨[1, 4], 32⟩,
        [Value.constantIndex 0, Value.constantIndex 0], [0, 1],
        [Value.constantIndex 0, Value.constantIndex 1], [1, 0]⟩
      ⟨[("tt.nv_tma_desc", Attribute.IntegerAttr IntType.I32 1),
        ("tt.tma_descriptor",
          Attribute.TmaDescriptor ⟨[5, 8], [1, 4], [1, 1], [1, 0], 4⟩)],
        Tile.DescriptorLoadOp ⟨[1, 4], 32⟩ ⟨⟨[1, 4], 32⟩, ⟨⟨[5, 8], 32⟩, true, 1, true⟩⟩
          [Scalar.IndexCastUIOp IntType.I32 (Scalar.value (Value.constantIndex 0)),
            Scalar.IndexCastUIOp IntType.I32 (Scalar.value (Value.constantIndex 0))]⟩
      ⟨⟨[1, 4], 32⟩, ⟨⟨[5, 8], 32⟩, true, 1, true⟩,
        [Value.constantIndex 0, Value.constantIndex 0], [0, 1],
        [Value.constantIndex 0, Value.constantIndex 1], [1, 0]⟩
      ⟨[("tt.nv_tma_desc", Attribute.IntegerAttr IntType.I32 1),
        ("tt.tma_descriptor",
          Attribute.TmaDescriptor ⟨[5, 8], [1, 4], [1, 1], [1, 0], 4⟩)],
        Store.DescriptorStoreOp ⟨⟨[1, 4], 32⟩, ⟨⟨[5, 8], 32⟩, true, 1, true⟩⟩ Tile.operand
          [Scalar.IndexCastUIOp IntType.I32 (Scalar.value (Value.constantIndex 0)),
            Scalar.IndexCastUIOp IntType.I32 (Scalar.value (Value.constantIndex 0))],
        ⟨⟨[5, 8], 32⟩, true, 1, true⟩⟩
      (by decide) rfl (by decide) rfl).1.imp
      (fun _ h => ⟨h.1, h.2.1, h.2.2.1, h.2.2.2.1, h.2.2.2.2.1⟩)⟩

/-! ## The access-site rules: what a successful rewrite is -/

/-- A successful `RewriteExtract` is one of two: on `CanUseTMA` the descriptor load of the
normalized tile at the normalized offsets, transposed back when the layout is not normalized,
with the attributes of `AddTmaAttributes`; else the load through the tensor pointer, without
attribute. -/
theorem RewriteExtract_success_inv (device_description : DeviceDescription) (tma_enabled : Bool)
    (op : ExtractOp) (rewrite : ExtractRewrite)
    (hrun : RewriteExtract.matchAndRewrite device_description tma_enabled op
      = some (LogicalResult.success rewrite)) :
    (CanUseTMA tma_enabled device_description op.result_type.shape op.static_strides
        op.offsets op.src op.layout = some true ∧
      ∃ strides arg_attrs normalized_tile_shape normalized_offsets,
        CanonicalizeTileStrides op.static_strides op.result_type.shape op.src.type.shape
          = some (Status.OkStatus, strides) ∧
        AddTmaAttributes op.src op.result_type.shape strides op.layout = some arg_attrs ∧
        Normalize op.result_type.shape op.layout = some normalized_tile_shape ∧
        NormalizeValues op.offsets op.layout = some normalized_offsets ∧
        rewrite = ⟨arg_attrs,
          if !IsNormalizedLayout op.layout then
            Tile.TransOp op.result_type
              (Tile.DescriptorLoadOp ⟨normalized_tile_shape, op.result_type.elementTypeBitWidth⟩
                ⟨⟨normalized_tile_shape, op.result_type.elementTypeBitWidth⟩, op.src⟩
                (IndexCastUI IntType.I32 normalized_offsets))
              ((GetInverseLayoutPermutation op.layout).map (fun k : Nat => (k : Int)))
          else
            Tile.DescriptorLoadOp ⟨normalized_tile_shape, op.result_type.elementTypeBitWidth⟩
              ⟨⟨normalized_tile_shape, op.result_type.elementTypeBitWidth⟩, op.src⟩
              (IndexCastUI IntType.I32 normalized_offsets)⟩) ∨
    (CanUseTMA tma_enabled device_description op.result_type.shape op.static_strides
        op.offsets op.src op.layout = some false ∧
      ∃ ptr boundary_checks,
        CreateMakeTensorPtrOp (CreateAddPtrOp op.src op.offsets op.layout) op.src.type.shape
          op.result_type.shape op.offsets op.strides op.layout = some ptr ∧
        ComputeBoundaryChecks op.src.type.shape op.result_type.shape = some boundary_checks ∧
        rewrite = ⟨[], Tile.LoadOp ptr boundary_checks
          (if !boundary_checks.isEmpty then some PaddingOption.PAD_ZERO else none)⟩) := by
  cases hcan : CanUseTMA tma_enabled device_description op.result_type.shape op.static_strides
      op.offsets op.src op.layout with
  | none => simp [RewriteExtract.matchAndRewrite, hcan] at hrun
  | some b =>
    cases b with
    | false =>
      right
      refine ⟨rfl, ?_⟩
      simp only [RewriteExtract.matchAndRewrite, hcan] at hrun
      cases hp : CreateMakeTensorPtrOp (CreateAddPtrOp op.src op.offsets op.layout)
          op.src.type.shape op.result_type.shape op.offsets op.strides op.layout with
      | none => simp [hp] at hrun
      | some ptr =>
        cases hb : ComputeBoundaryChecks op.src.type.shape op.result_type.shape with
        | none => simp [hp, hb] at hrun
        | some boundary_checks =>
          simp only [hp, hb, Option.some.injEq, LogicalResult.success.injEq] at hrun
          exact ⟨ptr, boundary_checks, rfl, rfl, hrun.symm⟩
    | true =>
      left
      refine ⟨rfl, ?_⟩
      simp only [RewriteExtract.matchAndRewrite, hcan] at hrun
      cases hc : CanonicalizeTileStrides op.static_strides op.result_type.shape
          op.src.type.shape with
      | none => simp [hc] at hrun
      | some res =>
        obtain ⟨st, strides⟩ := res
        cases st with
        | InvalidArgumentError i t o => simp [hc] at hrun
        | OkStatus =>
          simp only [hc] at hrun
          cases ha : AddTmaAttributes op.src op.result_type.shape strides op.layout with
          | none => simp [ha] at hrun
          | some arg_attrs =>
            cases hn : Normalize op.result_type.shape op.layout with
            | none => simp [ha, hn] at hrun
            | some nts =>
              cases hv : NormalizeValues op.offsets op.layout with
              | none => simp [ha, hn, hv] at hrun
              | some noffs =>
                simp only [ha, hn, hv] at hrun
                refine ⟨strides, arg_attrs, nts, noffs, rfl, ha, rfl, rfl, ?_⟩
                split at hrun
                · rename_i hnorm
                  simp only [Option.some.injEq, LogicalResult.success.injEq] at hrun
                  rw [if_pos hnorm]
                  exact hrun.symm
                · rename_i hnorm
                  simp only [Option.some.injEq, LogicalResult.success.injEq] at hrun
                  rw [if_neg hnorm]
                  exact hrun.symm

/-- A successful `RewriteInsert` is one of two: on `CanUseTMA` the descriptor store of the
tile, transposed first when the layout is not normalized, at the normalized offsets, with the
attributes of `AddTmaAttributes`; else the store through the tensor pointer, without
attribute. Either way the destination replaces the uses of the result. -/
theorem RewriteInsert_success_inv (device_description : DeviceDescription) (tma_enabled : Bool)
    (op : InsertOp) (rewrite : InsertRewrite)
    (hrun : RewriteInsert.matchAndRewrite device_description tma_enabled op
      = some (LogicalResult.success rewrite)) :
    (CanUseTMA tma_enabled device_description op.src_type.shape op.static_strides
        op.offsets op.dst op.layout = some true ∧
      ∃ strides arg_attrs normalized_tile_shape normalized_offsets,
        CanonicalizeTileStrides op.static_strides op.src_type.shape op.dst.type.shape
          = some (Status.OkStatus, strides) ∧
        AddTmaAttributes op.dst op.src_type.shape strides op.layout = some arg_attrs ∧
        Normalize op.src_type.shape op.layout = some normalized_tile_shape ∧
        NormalizeValues op.offsets op.layout = some normalized_offsets ∧
        rewrite = ⟨arg_attrs,
          Store.DescriptorStoreOp
            ⟨⟨normalized_tile_shape, op.src_type.elementTypeBitWidth⟩, op.dst⟩
            (if !IsNormalizedLayout op.layout then
              Tile.TransOp ⟨normalized_tile_shape, op.src_type.elementTypeBitWidth⟩
                Tile.operand op.layout.reverse
            else Tile.operand)
            (IndexCastUI IntType.I32 normalized_offsets),
          op.dst⟩) ∨
    (CanUseTMA tma_enabled device_description op.src_type.shape op.static_strides
        op.offsets op.dst op.layout = some false ∧
      ∃ ptr boundary_checks,
        CreateMakeTensorPtrOp (CreateAddPtrOp op.dst op.offsets op.layout) op.dst.type.shape
          op.src_type.shape op.offsets op.strides op.layout = some ptr ∧
        ComputeBoundaryChecks op.dst.type.shape op.src_type.shape = some boundary_checks ∧
        rewrite = ⟨[], Store.StoreOp ptr Tile.operand boundary_checks, op.dst⟩) := by
  cases hcan : CanUseTMA tma_enabled device_description op.src_type.shape op.static_strides
      op.offsets op.dst op.layout with
  | none => simp [RewriteInsert.matchAndRewrite, hcan] at hrun
  | some b =>
    cases b with
    | false =>
      right
      refine ⟨rfl, ?_⟩
      simp only [RewriteInsert.matchAndRewrite, hcan] at hrun
      cases hp : CreateMakeTensorPtrOp (CreateAddPtrOp op.dst op.offsets op.layout)
          op.dst.type.shape op.src_type.shape op.offsets op.strides op.layout with
      | none => simp [hp] at hrun
      | some ptr =>
        cases hb : ComputeBoundaryChecks op.dst.type.shape op.src_type.shape with
        | none => simp [hp, hb] at hrun
        | some boundary_checks =>
          simp only [hp, hb, Option.some.injEq, LogicalResult.success.injEq] at hrun
          exact ⟨ptr, boundary_checks, rfl, rfl, hrun.symm⟩
    | true =>
      left
      refine ⟨rfl, ?_⟩
      simp only [RewriteInsert.matchAndRewrite, hcan] at hrun
      cases hc : CanonicalizeTileStrides op.static_strides op.src_type.shape
          op.dst.type.shape with
      | none => simp [hc] at hrun
      | some res =>
        obtain ⟨st, strides⟩ := res
        cases st with
        | InvalidArgumentError i t o => simp [hc] at hrun
        | OkStatus =>
          simp only [hc] at hrun
          cases ha : AddTmaAttributes op.dst op.src_type.shape strides op.layout with
          | none => simp [ha] at hrun
          | some arg_attrs =>
            cases hn : Normalize op.src_type.shape op.layout with
            | none => simp [ha, hn] at hrun
            | some nts =>
              cases hv : NormalizeValues op.offsets op.layout with
              | none => simp [ha, hn, hv] at hrun
              | some noffs =>
                simp only [ha, hn, hv, Option.some.injEq, LogicalResult.success.injEq] at hrun
                exact ⟨strides, arg_attrs, nts, noffs, rfl, ha, rfl, rfl, hrun.symm⟩

/-- Normalizing by a permutation layout of the length of the values returns, whatever the
values are. -/
theorem NormalizeImpl_defined {α : Type} (values : List α) (layout : List Int)
    (hperm : IsPermutation layout) (hlen : values.length = layout.length) :
    ∃ r, NormalizeImpl values layout = some r := by
  by_cases hn : IsNormalizedLayout layout = true
  · exact ⟨values, by simp [NormalizeImpl, hn]⟩
  · obtain ⟨r, hr, _⟩ := NormalizeImpl_of_not_normalized values layout hperm hlen
      (by simpa using hn)
    exact ⟨r, hr⟩

/-- Without a violation of the input contract on strides, `CanonicalizeTileStrides` returns
`OkStatus` and the canonical strides. -/
theorem CanonicalizeTileStrides_of_no_violation
    (tile_strides tile_shape original_shape : List Int)
    (hts : tile_strides.length ≤ tile_shape.length)
    (hos : tile_strides.length ≤ original_shape.length)
    (hno : ¬ ZeroStrideViolation tile_strides tile_shape original_shape) :
    CanonicalizeTileStrides tile_strides tile_shape original_shape
      = some (Status.OkStatus, tile_strides.map canonicalStride) := by
  obtain ⟨st, r, hc⟩ := CanonicalizeTileStrides.loop_defined tile_shape original_shape
    tile_strides.length 0 tile_strides (by simp) hts hos
  have hs := CanonicalizeTileStrides.loop_sound tile_shape original_shape tile_strides.length 0
    tile_strides st r (by simp) hc
  cases st with
  | OkStatus =>
    have hr := CanonicalizeTileStrides_ok_eq_map tile_strides tile_shape original_shape r hc
    rw [← hr]
    exact hc
  | InvalidArgumentError j t o =>
    obtain ⟨_, h0, ht, ho, ht1, ho1⟩ := hs.2 j t o rfl
    exact absurd ⟨j, t, o, h0, ht, ho, ht1, ho1⟩ hno

/-- On the fast path `RewriteExtract` returns: for a well-formed extract without a violation
of the input contract on strides, it succeeds with the descriptor load. -/
theorem RewriteExtract_tma_success (device_description : DeviceDescription)
    (tma_enabled : Bool) (op : ExtractOp) (hwf : op.WellFormed)
    (hcan : CanUseTMA tma_enabled device_description op.result_type.shape op.static_strides
      op.offsets op.src op.layout = some true)
    (hno : ¬ ZeroStrideViolation op.static_strides op.result_type.shape op.src.type.shape) :
    ∃ rewrite, RewriteExtract.matchAndRewrite device_description tma_enabled op
      = some (LogicalResult.success rewrite) := by
  obtain ⟨⟨hts, hoff, hst, hlay, hperm⟩, _⟩ := hwf
  have hc := CanonicalizeTileStrides_of_no_violation op.static_strides op.result_type.shape
    op.src.type.shape (by omega) (by omega) hno
  obtain ⟨_, _, _, hblock, _, hfunc, _⟩ := CanUseTMA_true_inv _ _ _ _ _ _ _ hcan
  obtain ⟨nts, hn⟩ := NormalizeImpl_defined op.result_type.shape op.layout hperm (by omega)
  obtain ⟨noffs, hv⟩ := NormalizeImpl_defined op.offsets op.layout hperm (by omega)
  unfold RewriteExtract.matchAndRewrite
  simp only [hcan, hc, AddTmaAttributes, hblock, hfunc, Bool.and_self, if_true, Normalize,
    NormalizeValues, hn, hv]
  split
  · exact ⟨_, rfl⟩
  · exact ⟨_, rfl⟩

/-- On the fast path `RewriteInsert` returns: for a well-formed insert without a violation of
the input contract on strides, it succeeds with the descriptor store. -/
theorem RewriteInsert_tma_success (device_description : DeviceDescription)
    (tma_enabled : Bool) (op : InsertOp) (hwf : op.WellFormed)
    (hcan : CanUseTMA tma_enabled device_description op.src_type.shape op.static_strides
      op.offsets op.dst op.layout = some true)
    (hno : ¬ ZeroStrideViolation op.static_strides op.src_type.shape op.dst.type.shape) :
    ∃ rewrite, RewriteInsert.matchAndRewrite device_description tma_enabled op
      = some (LogicalResult.success rewrite) := by
  obtain ⟨⟨hts, hoff, hst, hlay, hperm⟩, _⟩ := hwf
  have hc := CanonicalizeTileStrides_of_no_violation op.static_strides op.src_type.shape
    op.dst.type.shape (by omega) (by omega) hno
  obtain ⟨_, _, _, hblock, _, hfunc, _⟩ := CanUseTMA_true_inv _ _ _ _ _ _ _ hcan
  obtain ⟨nts, hn⟩ := NormalizeImpl_defined op.src_type.shape op.layout hperm (by omega)
  obtain ⟨noffs, hv⟩ := NormalizeImpl_defined op.offsets op.layout hperm (by omega)
  unfold RewriteInsert.matchAndRewrite
  simp only [hcan, hc, AddTmaAttributes, hblock, hfunc, Bool.and_self, if_true, Normalize,
    NormalizeValues, hn, hv]
  exact ⟨_, rfl⟩

/-- Strides that are all different from 0 do not violate the input contract on strides. -/
theorem not_ZeroStrideViolation_of_ne_zero (tile_strides tile_shape original_shape : List Int)
    (h : ∀ s ∈ tile_strides, s ≠ 0) :
    ¬ ZeroStrideViolation tile_strides tile_shape original_shape := by
  rintro ⟨i, t, o, hi, _⟩
  have hlt : i < tile_strides.length := by
    by_contra hge
    rw [List.getElem?_eq_none (by omega)] at hi
    cases hi
  rw [List.getElem?_eq_getElem hlt, Option.some.injEq] at hi
  exact h _ (List.getElem_mem _) hi

/-- C21: on the fast path, that is when `CanUseTMA` returns `true` on a well-formed access
whose strides do not violate the input contract, both rules succeed; `RewriteExtract` replaces
the extract by the descriptor load itself when the layout is normalized and by its transpose
by `GetInverseLayoutPermutation(layout)` otherwise, and `RewriteInsert` stores the tile itself
when the layout is normalized and its transpose by the reversed layout otherwise; the
descriptor operation of either rule has `Normalize(tile_shape, layout)` as tile shape and
`Normalize(offsets, layout)` as offsets. -/
theorem RewritePatterns_transpose_iff_not_normalized (device_description : DeviceDescription)
    (tma_enabled : Bool) (extract : ExtractOp) (insert : InsertOp)
    (hwf_extract : extract.WellFormed)
    (hcan_extract : CanUseTMA tma_enabled device_description extract.result_type.shape
      extract.static_strides extract.offsets extract.src extract.layout = some true)
    (hno_extract : ¬ ZeroStrideViolation extract.static_strides extract.result_type.shape
      extract.src.type.shape)
    (hwf_insert : insert.WellFormed)
    (hcan_insert : CanUseTMA tma_enabled device_description insert.src_type.shape
      insert.static_strides insert.offsets insert.dst insert.layout = some true)
    (hno_insert : ¬ ZeroStrideViolation insert.static_strides insert.src_type.shape
      insert.dst.type.shape) :
    (∃ normalized_tile_shape normalized_offsets extract_rewrite,
      Normalize extract.result_type.shape extract.layout = some normalized_tile_shape ∧
      NormalizeValues extract.offsets extract.layout = some normalized_offsets ∧
      RewriteExtract.matchAndRewrite device_description tma_enabled extract
        = some (LogicalResult.success extract_rewrite) ∧
      (IsNormalizedLayout extract.layout = true →
        extract_rewrite.replacement
          = Tile.DescriptorLoadOp
              ⟨normalized_tile_shape, extract.result_type.elementTypeBitWidth⟩
              ⟨⟨normalized_tile_shape, extract.result_type.elementTypeBitWidth⟩, extract.src⟩
              (IndexCastUI IntType.I32 normalized_offsets)) ∧
      (IsNormalizedLayout extract.layout = false →
        extract_rewrite.replacement
          = Tile.TransOp extract.result_type
              (Tile.DescriptorLoadOp
                ⟨normalized_tile_shape, extract.result_type.elementTypeBitWidth⟩
                ⟨⟨normalized_tile_shape, extract.result_type.elementTypeBitWidth⟩,
                  extract.src⟩
                (IndexCastUI IntType.I32 normalized_offsets))
              ((GetInverseLayoutPermutation extract.layout).map
                (fun k : Nat => (k : Int))))) ∧
    (∃ normalized_tile_shape normalized_offsets insert_rewrite src,
      Normalize insert.src_type.shape insert.layout = some normalized_tile_shape ∧
      NormalizeValues insert.offsets insert.layout = some normalized_offsets ∧
      RewriteInsert.matchAndRewrite device_description tma_enabled insert
        = some (LogicalResult.success insert_rewrite) ∧
      insert_rewrite.store
        = Store.DescriptorStoreOp
            ⟨⟨normalized_tile_shape, insert.src_type.elementTypeBitWidth⟩, insert.dst⟩ src
            (IndexCastUI IntType.I32 normalized_offsets) ∧
      (IsNormalizedLayout insert.layout = true → src = Tile.operand) ∧
      (IsNormalizedLayout insert.layout = false →
        src = Tile.TransOp ⟨normalized_tile_shape, insert.src_type.elementTypeBitWidth⟩
          Tile.operand insert.layout.reverse)) := by
  obtain ⟨extract_rewrite, hextract⟩ := RewriteExtract_tma_success device_description
    tma_enabled extract hwf_extract hcan_extract hno_extract
  obtain ⟨insert_rewrite, hinsert⟩ := RewriteInsert_tma_success device_description
    tma_enabled insert hwf_insert hcan_insert hno_insert
  refine ⟨?_, ?_⟩
  · rcases RewriteExtract_success_inv _ _ _ _ hextract with
      ⟨_, _, _, nts, noffs, _, _, hn, hv, hrw⟩ | ⟨hfalse, _⟩
    · refine ⟨nts, noffs, extract_rewrite, hn, hv, hextract, ?_, ?_⟩
      · intro hnorm
        rw [hrw]
        simp [hnorm]
      · intro hnorm
        rw [hrw]
        simp [hnorm]
    · rw [hcan_extract] at hfalse
      cases hfalse
  · rcases RewriteInsert_success_inv _ _ _ _ hinsert with
      ⟨_, _, _, nts, noffs, _, _, hn, hv, hrw⟩ | ⟨hfalse, _⟩
    · refine ⟨nts, noffs, insert_rewrite, _, hn, hv, hinsert, by rw [hrw], ?_, ?_⟩
      · intro hnorm
        simp [hnorm]
      · intro hnorm
        simp [hnorm]
    · rw [hcan_insert] at hfalse
      cases hfalse

/-- C21 at concrete accesses of the tile `[64, 128]` of a `[1024, 1024]` tensor with the layout
`[0, 1]`, which is not normalized: the extract becomes the transpose by `[1, 0]` of the
descriptor load of the tile `[128, 64]`, and the insert stores the transpose by `[1, 0]`. -/
theorem RewritePatterns_transpose_iff_not_normalized_witness :
    CanUseTMA true ⟨true⟩ [64, 128] [1, 1] [Value.constantIndex 0, Value.blockArgument 7]
      ⟨⟨[1024, 1024], 32⟩, true, 1, true⟩ [0, 1] = some true ∧
    RewriteExtract.matchAndRewrite ⟨true⟩ true
        ⟨⟨⟨[1024, 1024], 32⟩, true, 1, true⟩, ⟨[64, 128], 32⟩,
          [Value.constantIndex 0, Value.blockArgument 7], [1, 1],
          [Value.constantIndex 1, Value.constantIndex 1], [0, 1]⟩
      = some (LogicalResult.success
          ⟨[("tt.nv_tma_desc", Attribute.IntegerAttr IntType.I32 1),
            ("tt.tma_descriptor",
              Attribute.TmaDescriptor ⟨[1024, 1024], [64, 128], [1, 1], [0, 1], 4⟩)],
            Tile.TransOp ⟨[64, 128], 32⟩
              (Tile.DescriptorLoadOp ⟨[128, 64], 32⟩
                ⟨⟨[128, 64], 32⟩, ⟨⟨[1024, 1024], 32⟩, true, 1, true⟩⟩
                [Scalar.IndexCastUIOp IntType.I32 (Scalar.value (Value.blockArgument 7)),
                  Scalar.IndexCastUIOp IntType.I32 (Scalar.value (Value.constantIndex 0))])
              [1, 0]⟩) ∧
    RewriteInsert.matchAndRewrite ⟨true⟩ true
        ⟨⟨[64, 128], 32⟩, ⟨⟨[1024, 1024], 32⟩, true, 1, true⟩,
          [Value.constantIndex 0, Value.blockArgument 7], [1, 1],
          [Value.constantIndex 1, Value.constantIndex 1], [0, 1]⟩
      = some (LogicalResult.success
          ⟨[("tt.nv_tma_desc", Attribute.IntegerAttr IntType.I32 1),
            ("tt.tma_descriptor",
              Attribute.TmaDescriptor ⟨[1024, 1024], [64, 128], [1, 1], [0, 1], 4⟩)],
            Store.DescriptorStoreOp ⟨⟨[128, 64], 32⟩, ⟨⟨[1024, 1024], 32⟩, true, 1, true⟩⟩
              (Tile.TransOp ⟨[128, 64], 32⟩ Tile.operand [1, 0])
              [Scalar.IndexCastUIOp IntType.I32 (Scalar.value (Value.blockArgument 7)),
                Scalar.IndexCastUIOp IntType.I32 (Scalar.value (Value.constantIndex 0))],
            ⟨⟨[1024, 1024], 32⟩, true, 1, true⟩⟩) ∧
    IsNormalizedLayout [0, 1] = false ∧
    (∃ normalized_tile_shape normalized_offsets extract_rewrite,
      Normalize [64, 128] [0, 1] = some normalized_tile_shape ∧
      NormalizeValues [Value.constantIndex 0, Value.blockArgument 7] [0, 1]
        = some normalized_offsets ∧
      RewriteExtract.matchAndRewrite ⟨true⟩ true
          ⟨⟨⟨[1024, 1024], 32⟩, true, 1, true⟩, ⟨[64, 128], 32⟩,
            [Value.constantIndex 0, Value.blockArgument 7], [1, 1],
            [Value.constantIndex 1, Value.constantIndex 1], [0, 1]⟩
        = some (LogicalResult.success extract_rewrite)) :=
  ⟨by decide, rfl, rfl, by decide,
    (RewritePatterns_transpose_iff_not_normalized ⟨true⟩ true
      ⟨⟨⟨[1024, 1024], 32⟩, true, 1, true⟩, ⟨[64, 128], 32⟩,
        [Value.constantIndex 0, Value.blockArgument 7], [1, 1],
        [Value.constantIndex 1, Value.constantIndex 1], [0, 1]⟩
      ⟨⟨[64, 128], 32⟩, ⟨⟨[1024, 1024], 32⟩, true, 1, true⟩,
        [Value.constantIndex 0, Value.blockArgument 7], [1, 1],
        [Value.constantIndex 1, Value.constantIndex 1], [0, 1]⟩
      (by decide) (by decide) (not_ZeroStrideViolation_of_ne_zero _ _ _ (by decide))
      (by decide) (by decide) (not_ZeroStrideViolation_of_ne_zero _ _ _ (by decide))).1.imp
      (fun _ h => h.imp (fun _ h2 => h2.imp (fun _ h3 => ⟨h3.1, h3.2.1, h3.2.2.1⟩)))⟩

/-- C22: on the generic path of `RewriteExtract`, that is when `CanUseTMA` returns `false` on a
well-formed extract, the load of every successful rewrite has exactly the result of
`ComputeBoundaryChecks(original_shape, tile_shape)` as boundary checks, zero padding if and
only if that result is not empty, and no padding otherwise; and the rewrite succeeds when no
tile extent is 0 (where the source divides by zero in `ComputeBoundaryChecks`). -/
theorem RewriteExtract_generic_padding (device_description : DeviceDescription)
    (tma_enabled : Bool) (op : ExtractOp) (hwf : op.WellFormed)
    (hcan : CanUseTMA tma_enabled device_description op.result_type.shape op.static_strides
      op.offsets op.src op.layout = some false) :
    (∀ rewrite, RewriteExtract.matchAndRewrite device_description tma_enabled op
        = some (LogicalResult.success rewrite) →
      ∃ ptr boundary_checks padding,
        ComputeBoundaryChecks op.src.type.shape op.result_type.shape = some boundary_checks ∧
        rewrite = ⟨[], Tile.LoadOp ptr boundary_checks padding⟩ ∧
        (padding = some PaddingOption.PAD_ZERO ↔ boundary_checks ≠ []) ∧
        (padding = none ↔ boundary_checks = [])) ∧
    ((∀ t ∈ op.result_type.shape, t ≠ 0) →
      ∃ ptr boundary_checks padding,
        ComputeBoundaryChecks op.src.type.shape op.result_type.shape = some boundary_checks ∧
        RewriteExtract.matchAndRewrite device_description tma_enabled op
          = some (LogicalResult.success ⟨[], Tile.LoadOp ptr boundary_checks padding⟩) ∧
        (padding = some PaddingOption.PAD_ZERO ↔ boundary_checks ≠ []) ∧
        (padding = none ↔ boundary_checks = [])) := by
  constructor
  · intro rewrite hrun
    rcases RewriteExtract_success_inv _ _ _ _ hrun with ⟨htrue, _⟩ | ⟨_, ptr, checks, _, hb, hrw⟩
    · rw [hcan] at htrue
      cases htrue
    · refine ⟨ptr, checks, _, hb, hrw, ?_, ?_⟩
      · cases checks <;> simp
      · cases checks <;> simp
  · intro htile
    obtain ⟨strides, dim_order, checks, _, hb, hrun⟩ :=
      RewriteExtract_generic device_description tma_enabled op hwf htile hcan
    refine ⟨_, checks, _, hb, hrun, ?_, ?_⟩
    · cases checks <;> simp
    · cases checks <;> simp

/-- C22 at concrete extracts, with the fast path disabled: the tile `[4, 4]` of a `[9, 8]`
tensor is loaded with the boundary check `[0]` and zero padding, the tile `[128, 128]` of the
`[1024, 1024]` tensor of the end-to-end example without boundary check and without padding. -/
theorem RewriteExtract_generic_padding_witness :
    (⟨⟨⟨[9, 8], 32⟩, true, 1, true⟩, ⟨[4, 4], 32⟩,
      [Value.constantIndex 0, Value.constantIndex 0], [1, 1],
      [Value.constantIndex 1, Value.constantIndex 1], [1, 0]⟩ : ExtractOp).WellFormed ∧
    CanUseTMA false ⟨true⟩ [4, 4] [1, 1] [Value.constantIndex 0, Value.constantIndex 0]
      ⟨⟨[9, 8], 32⟩, true, 1, true⟩ [1, 0] = some false ∧
    (∀ t ∈ ([4, 4] : List Int), t ≠ 0) ∧
    (∃ ptr boundary_checks padding,
      ComputeBoundaryChecks [9, 8] [4, 4] = some boundary_checks ∧
      RewriteExtract.matchAndRewrite ⟨true⟩ false
          ⟨⟨⟨[9, 8], 32⟩, true, 1, true⟩, ⟨[4, 4], 32⟩,
            [Value.constantIndex 0, Value.constantIndex 0], [1, 1],
            [Value.constantIndex 1, Value.constantIndex 1], [1, 0]⟩
        = some (LogicalResult.success ⟨[], Tile.LoadOp ptr boundary_checks padding⟩) ∧
      (padding = some PaddingOption.PAD_ZERO ↔ boundary_checks ≠ []) ∧
      (padding = none ↔ boundary_checks = [])) ∧
    ComputeBoundaryChecks [9, 8] [4, 4] = some [0] ∧
    (∃ ptr, RewriteExtract.matchAndRewrite ⟨true⟩ false
        ⟨⟨⟨[9, 8], 32⟩, true, 1, true⟩, ⟨[4, 4], 32⟩,
          [Value.constantIndex 0, Value.constantIndex 0], [1, 1],
          [Value.constantIndex 1, Value.constantIndex 1], [1, 0]⟩
      = some (LogicalResult.success
          ⟨[], Tile.LoadOp ptr [0] (some PaddingOption.PAD_ZERO)⟩)) ∧
    ComputeBoundaryChecks [1024, 1024] [128, 128] = some [] ∧
    (∃ ptr, RewriteExtract.matchAndRewrite ⟨true⟩ false (endToEndExtract 32)
      = some (LogicalResult.success ⟨[], Tile.LoadOp ptr [] none⟩)) :=
  ⟨by decide, by decide, by decide,
    (RewriteExtract_generic_padding ⟨true⟩ false
      ⟨⟨⟨[9, 8], 32⟩, true, 1, true⟩, ⟨[4, 4], 32⟩,
        [Value.constantIndex 0, Value.constantIndex 0], [1, 1],
        [Value.constantIndex 1, Value.constantIndex 1], [1, 0]⟩
      (by decide) (by decide)).2 (by decide),
    by decide, ⟨_, rfl⟩, by decide, ⟨_, rfl⟩⟩

/-- C23: whenever `RewriteInsert` succeeds, the destination tensor of the insert replaces the
uses of its result, and the one store created writes the tile of the insert into that
destination: a descriptor store on the descriptor of the destination, of the tile or of its
transpose, or a store of the tile through the tensor pointer built on the destination. -/
theorem RewriteInsert_forwards_destination (device_description : DeviceDescription)
    (tma_enabled : Bool) (op : InsertOp) (rewrite : InsertRewrite)
    (hrun : RewriteInsert.matchAndRewrite device_description tma_enabled op
      = some (LogicalResult.success rewrite)) :
    rewrite.result_replaced_by = op.dst ∧
    ((∃ desc src indices, rewrite.store = Store.DescriptorStoreOp desc src indices ∧
        desc.tensor = op.dst ∧
        (src = Tile.operand ∨ ∃ type order, src = Tile.TransOp type Tile.operand order)) ∨
      (∃ shape strides offsets tensor_shape order boundary_checks,
        rewrite.store
          = Store.StoreOp
              (Ptr.MakeTensorPtrOp
                (Ptr.AddPtrOp (Ptr.UnrealizedConversionCastOp op.dst)
                  (ComputeLinearOffset op.dst.type op.offsets op.layout))
                shape strides offsets tensor_shape order)
              Tile.operand boundary_checks)) := by
  rcases RewriteInsert_success_inv _ _ _ _ hrun with
    ⟨_, _, _, nts, noffs, _, _, _, _, hrw⟩ | ⟨_, ptr, checks, hptr, _, hrw⟩
  · rw [hrw]
    refine ⟨rfl, Or.inl ⟨_, _, _, rfl, rfl, ?_⟩⟩
    by_cases hnorm : IsNormalizedLayout op.layout = true
    · left; simp [hnorm]
    · right
      exact ⟨⟨nts, op.src_type.elementTypeBitWidth⟩, op.layout.reverse, by simp [hnorm]⟩
  · rw [hrw]
    refine ⟨rfl, Or.inr ?_⟩
    unfold CreateMakeTensorPtrOp at hptr
    cases hs : ComputeStrides op.dst.type.shape op.strides op.layout with
    | none => simp [hs] at hptr
    | some strides =>
      simp only [hs, Option.some.injEq] at hptr
      exact ⟨_, _, _, _, _, _, by rw [← hptr]; rfl⟩

/-- C23 at concrete inserts of the tile `[128, 128]` into a `[1024, 1024]` tensor: with the
fast path the destination is forwarded and one descriptor store is created, without it the
destination is forwarded and one store through the tensor pointer. -/
theorem RewriteInsert_forwards_destination_witness :
    RewriteInsert.matchAndRewrite ⟨true⟩ true
        ⟨⟨[128, 128], 32⟩, ⟨⟨[1024, 1024], 32⟩, true, 1, true⟩,
          [Value.constantIndex 0, Value.constantIndex 0], [1, 1],
          [Value.constantIndex 1, Value.constantIndex 1], [1, 0]⟩
      = some (LogicalResult.success
          ⟨[("tt.nv_tma_desc", Attribute.IntegerAttr IntType.I32 1),
            ("tt.tma_descriptor",
              Attribute.TmaDescriptor ⟨[1024, 1024], [128, 128], [1, 1], [1, 0], 4⟩)],
            Store.DescriptorStoreOp ⟨⟨[128, 128], 32⟩, ⟨⟨[1024, 1024], 32⟩, true, 1, true⟩⟩
              Tile.operand
              [Scalar.IndexCastUIOp IntType.I32 (Scalar.value (Value.constantIndex 0)),
                Scalar.IndexCastUIOp IntType.I32 (Scalar.value (Value.constantIndex 0))],
            ⟨⟨[1024, 1024], 32⟩, true, 1, true⟩⟩) ∧
    (⟨[("tt.nv_tma_desc", Attribute.IntegerAttr IntType.I32 1),
        ("tt.tma_descriptor",
          Attribute.TmaDescriptor ⟨[1024, 1024], [128, 128], [1, 1], [1, 0], 4⟩)],
        Store.DescriptorStoreOp ⟨⟨[128, 128], 32⟩, ⟨⟨[1024, 1024], 32⟩, true, 1, true⟩⟩
          Tile.operand
          [Scalar.IndexCastUIOp IntType.I32 (Scalar.value (Value.constantIndex 0)),
            Scalar.IndexCastUIOp IntType.I32 (Scalar.value (Value.constantIndex 0))],
        ⟨⟨[1024, 1024], 32⟩, true, 1, true⟩⟩ : InsertRewrite).result_replaced_by
      = (⟨⟨[128, 128], 32⟩, ⟨⟨[1024, 1024], 32⟩, true, 1, true⟩,
          [Value.constantIndex 0, Value.constantIndex 0], [1, 1],
          [Value.constantIndex 1, Value.constantIndex 1], [1, 0]⟩ : InsertOp).dst :=
  ⟨rfl,
    (RewriteInsert_forwards_destination ⟨true⟩ true
      ⟨⟨[128, 128], 32⟩, ⟨⟨[1024, 1024], 32⟩, true, 1, true⟩,
        [Value.constantIndex 0, Value.constantIndex 0], [1, 1],
        [Value.constantIndex 1, Value.constantIndex 1], [1, 0]⟩
      ⟨[("tt.nv_tma_desc", Attribute.IntegerAttr IntType.I32 1),
        ("tt.tma_descriptor",
          Attribute.TmaDescriptor ⟨[1024, 1024], [128, 128], [1, 1], [1, 0], 4⟩)],
        Store.DescriptorStoreOp ⟨⟨[128, 128], 32⟩, ⟨⟨[1024, 1024], 32⟩, true, 1, true⟩⟩
          Tile.operand
          [Scalar.IndexCastUIOp IntType.I32 (Scalar.value (Value.constantIndex 0)),
            Scalar.IndexCastUIOp IntType.I32 (Scalar.value (Value.constantIndex 0))],
        ⟨⟨[1024, 1024], 32⟩, true, 1, true⟩⟩
      rfl).1⟩

/-! ## The signature rule: theorems -/

/-- Setting an attribute leaves the attributes of other names as they are. -/
theorem lookup_setAttr_of_ne (dictionary : List (String × Attribute)) (name other : String)
    (value : Attribute) (hne : other ≠ name) :
    (setAttr dictionary name value).lookup other = dictionary.lookup other := by
  unfold setAttr
  induction dictionary with
  | nil =>
    have : (other == name) = false := by simpa using hne
    simp [List.lookup, this]
  | cons p rest ih =>
    obtain ⟨k, v⟩ := p
    by_cases hk : k = name
    · subst hk
      have h1 : (other == k) = false := by simpa using hne
      simp [List.filter, List.lookup, h1, ih]
    · have h1 : (k != name) = true := by simpa using hk
      have hf : List.filter (fun named : String × Attribute => named.1 != name) ((k, v) :: rest)
          = (k, v) :: List.filter (fun named : String × Attribute => named.1 != name) rest := by
        simp [List.filter_cons, h1]
      rw [hf, List.cons_append]
      by_cases ho : other = k
      · subst ho
        simp [List.lookup]
      · have h2 : (other == k) = false := by simpa using ho
        simp [List.lookup, h2, ih]

/-- Setting an attribute makes it the attribute of its name. -/
theorem lookup_setAttr_self (dictionary : List (String × Attribute)) (name : String)
    (value : Attribute) : (setAttr dictionary name value).lookup name = some value := by
  unfold setAttr
  induction dictionary with
  | nil => simp [List.lookup]
  | cons p rest ih =>
    obtain ⟨k, v⟩ := p
    by_cases hk : k = name
    · subst hk
      simp [List.filter, ih]
    · have h1 : (k != name) = true := by simpa using hk
      have h2 : (name == k) = false := by
        simpa using (fun h : name = k => hk h.symm)
      have hf : List.filter (fun named : String × Attribute => named.1 != name) ((k, v) :: rest)
          = (k, v) :: List.filter (fun named : String × Attribute => named.1 != name) rest := by
        simp [List.filter_cons, h1]
      rw [hf, List.cons_append]
      simp [List.lookup, h2, ih]

/-- The loop over the operand types returns exactly when every round does, and then holds the
result of round `j` at position `j`. -/
theorem RewriteFuncOp.operandTypes_eq_some (StorageType : Nat → Nat) (op : FuncOp) :
    ∀ (types : List MlirType) (index : Nat) (operands : List (MlirType × MlirType)),
      RewriteFuncOp.operandTypes StorageType op index types = some operands ↔
        operands.length = types.length ∧
        ∀ j : Nat, j < types.length →
          ∃ type operand, types[j]? = some type ∧ operands[j]? = some operand ∧
            RewriteFuncOp.operandType StorageType op (index + j) type = some operand := by
  intro types
  induction types with
  | nil =>
    intro index operands
    simp only [RewriteFuncOp.operandTypes, Option.some.injEq, List.length_nil]
    constructor
    · intro h
      subst h
      exact ⟨rfl, fun j hj => absurd hj (Nat.not_lt_zero _)⟩
    · intro h
      exact (List.length_eq_zero.1 h.1).symm
  | cons type rest ih =>
    intro index operands
    rw [RewriteFuncOp.operandTypes]
    cases h1 : RewriteFuncOp.operandType StorageType op index type with
    | none =>
      simp only
      constructor
      · intro h; cases h
      · intro h
        obtain ⟨t, o, ht, _, ho⟩ := h.2 0 (by simp)
        simp only [List.getElem?_cons_zero, Option.some.injEq] at ht
        subst ht
        rw [Nat.add_zero, h1] at ho
        cases ho
    | some operand =>
      simp only
      cases h2 : RewriteFuncOp.operandTypes StorageType op (index + 1) rest with
      | none =>
        simp only
        constructor
        · intro h; cases h
        · intro h
          exfalso
          cases operands with
          | nil => simp at h
          | cons o os =>
            have hrest := (ih (index + 1) os).2 ⟨by simpa using h.1, fun j hj => by
              obtain ⟨t, o', ht, ho', hrun⟩ := h.2 (j + 1) (by simpa using hj)
              refine ⟨t, o', by simpa using ht, by simpa using ho', ?_⟩
              rw [← hrun]
              congr 1
              omega⟩
            rw [h2] at hrest
            cases hrest
      | some rest_operands =>
        simp only [Option.some.injEq]
        obtain ⟨hlen, hall⟩ := (ih (index + 1) rest_operands).1 h2
        constructor
        · intro h
          subst h
          refine ⟨by simp [hlen], ?_⟩
          intro j hj
          cases j with
          | zero => exact ⟨type, operand, by simp, by simp, by simpa using h1⟩
          | succ j =>
            obtain ⟨t, o, ht, ho, hrun⟩ := hall j (by simpa using hj)
            refine ⟨t, o, by simpa using ht, by simpa using ho, ?_⟩
            rw [← hrun]
            congr 1
            omega
        · intro h
          cases operands with
          | nil => simp at h
          | cons o os =>
            obtain ⟨t0, o0, ht0, ho0, hrun0⟩ := h.2 0 (by simp)
            simp only [List.getElem?_cons_zero, Option.some.injEq] at ht0 ho0
            subst ht0
            subst ho0
            rw [Nat.add_zero, h1] at hrun0
            have hos := (ih (index + 1) os).2 ⟨by simpa using h.1, fun j hj => by
              obtain ⟨t, o', ht, ho', hrun⟩ := h.2 (j + 1) (by simpa using hj)
              refine ⟨t, o', by simpa using ht, by simpa using ho', ?_⟩
              rw [← hrun]
              congr 1
              omega⟩
            rw [h2] at hos
            rw [Option.some.inj hrun0, Option.some.inj hos]

/-- The check `AreRankedTensors` holds exactly when every listed type is a ranked tensor. -/
theorem AreRankedTensors_iff (types : List MlirType) :
    AreRankedTensors types = true ↔
      ∀ type ∈ types, ∃ tensor_type, type = MlirType.RankedTensor tensor_type := by
  unfold AreRankedTensors
  rw [List.all_eq_true]
  constructor
  · intro h type hmem
    have := h type hmem
    cases type with
    | RankedTensor tensor_type => exact ⟨tensor_type, rfl⟩
    | TensorDesc _ => simp at this
    | GlobalPointer _ => simp at this
    | Other _ => simp at this
  · intro h type hmem
    obtain ⟨tensor_type, rfl⟩ := h type hmem
    rfl

/-- Normalizing by a permutation layout of the length of the values returns. -/
theorem Normalize_defined (values : List Int) (layout : List Int)
    (hperm : IsPermutation layout) (hlen : values.length = layout.length) :
    ∃ r, Normalize values layout = some r ∧ r.length = layout.length := by
  by_cases hn : IsNormalizedLayout layout = true
  · exact ⟨values, by simp [Normalize, NormalizeImpl, hn], hlen⟩
  · obtain ⟨r, hr, hrl, _⟩ := NormalizeImpl_of_not_normalized values layout hperm hlen
      (by simpa using hn)
    exact ⟨r, hr, hrl⟩

/-- A successful run of the signature rule: the inputs and results are ranked tensors, the
loop over the operand types returned, and the new function is built from its result. -/
theorem RewriteFuncOp_success_inv (StorageType : Nat → Nat) (op : FuncOp)
    (new_func : TritonFuncOp) (cast_types : List MlirType)
    (hrun : RewriteFuncOp.matchAndRewrite StorageType op
      = some (FuncMatchResult.success new_func cast_types)) :
    AreRankedTensors op.inputs = true ∧ AreRankedTensors op.results = true ∧
    ∃ operands, RewriteFuncOp.operandTypes StorageType op 0 op.inputs = some operands ∧
      new_func.name = op.name ∧
      new_func.inputs = operands.map Prod.fst ∧
      new_func.results = [] ∧
      new_func.arg_attrs = (List.range op.inputs.length).map (fun i : Nat =>
        if (op.getArgAttr i "tt.nv_tma_desc").isSome then (op.arg_attrs.getD []).getD i []
        else setAttr ((op.arg_attrs.getD []).getD i []) "tt.divisibility"
          (Attribute.IntegerAttr IntType.I32 16)) ∧
      cast_types = operands.map Prod.snd := by
  unfold RewriteFuncOp.matchAndRewrite at hrun
  simp only at hrun
  by_cases hin : AreRankedTensors op.inputs = true
  · by_cases hout : AreRankedTensors op.results = true
    · rw [if_neg (by simp [hin, hout])] at hrun
      cases hops : RewriteFuncOp.operandTypes StorageType op 0 op.inputs with
      | none => rw [hops] at hrun; cases hrun
      | some operands =>
        rw [hops] at hrun
        simp only [Option.some.injEq, FuncMatchResult.success.injEq] at hrun
        obtain ⟨hfunc, hcast⟩ := hrun
        have hlen := ((RewriteFuncOp.operandTypes_eq_some StorageType op op.inputs 0
          operands).1 hops).1
        refine ⟨hin, hout, operands, rfl, ?_, ?_, ?_, ?_, hcast.symm⟩
        · rw [← hfunc]
        · rw [← hfunc]
        · rw [← hfunc]
        · rw [← hfunc]
          simp only [List.length_map, hlen]
          cases op.arg_attrs <;> rfl
    · rw [if_pos (by simp [hout])] at hrun
      cases hrun
  · rw [if_pos (by simp [hin])] at hrun
    cases hrun

/-- C24: the signature rule rejects a function with an input or a result that is not a ranked
tensor, and otherwise (the descriptor attributes being well formed) builds a function of the
same name with one argument per input and no results, whose argument `i` has the descriptor
type of the normalized tile shape of its `tt.tma_descriptor` attribute and of the element type
of the input when it carries that attribute, the global pointer to the storage type of the
element type when it does not, and the attributes of the old argument under every name other
than `tt.divisibility`. -/
theorem RewriteFuncOp_signature (StorageType : Nat → Nat) (op : FuncOp) :
    ((AreRankedTensors op.inputs = false ∨ AreRankedTensors op.results = false) →
      ∃ message, RewriteFuncOp.matchAndRewrite StorageType op
        = some (FuncMatchResult.failure message)) ∧
    (AreRankedTensors op.inputs = true → AreRankedTensors op.results = true →
      op.DescriptorsWellFormed →
      ∃ new_func cast_types, RewriteFuncOp.matchAndRewrite StorageType op
          = some (FuncMatchResult.success new_func cast_types) ∧
        new_func.name = op.name ∧
        new_func.inputs.length = op.inputs.length ∧
        new_func.results = [] ∧
        new_func.arg_attrs.length = op.inputs.length ∧
        (∀ (i : Nat) (tensor_type : RankedTensorType),
          op.inputs[i]? = some (MlirType.RankedTensor tensor_type) →
          (∀ d, op.getArgAttr i "tt.tma_descriptor" = some (Attribute.TmaDescriptor d) →
            ∃ normalized_block_shape,
              Normalize d.tile_shape d.layout = some normalized_block_shape ∧
              new_func.inputs[i]? = some (MlirType.TensorDesc
                ⟨normalized_block_shape, tensor_type.elementTypeBitWidth⟩)) ∧
          (op.getArgAttr i "tt.tma_descriptor" = none →
            new_func.inputs[i]?
              = some (GetTensorPtrType StorageType tensor_type.elementTypeBitWidth)) ∧
          ∀ name : String, name ≠ "tt.divisibility" →
            (new_func.arg_attrs.getD i []).lookup name = op.getArgAttr i name)) := by
  constructor
  · intro h
    refine ⟨"Expected all inputs and results to have tensor type.", ?_⟩
    unfold RewriteFuncOp.matchAndRewrite
    simp only
    rw [if_pos]
    rcases h with h | h <;> simp [h]
  · intro hin hout hwf
    have htypes := (AreRankedTensors_iff op.inputs).1 hin
    -- every round of the loop returns
    have hround : ∀ j : Nat, j < op.inputs.length →
        ∃ type operand, op.inputs[j]? = some type ∧
          RewriteFuncOp.operandType StorageType op (0 + j) type = some operand := by
      intro j hj
      obtain ⟨tensor_type, ht⟩ := htypes op.inputs[j] (List.getElem_mem _)
      refine ⟨op.inputs[j], ?_⟩
      rw [Nat.zero_add, ht]
      cases hattr : op.getArgAttr j "tt.tma_descriptor" with
      | none =>
        exact ⟨(GetTensorPtrType StorageType tensor_type.elementTypeBitWidth,
            MlirType.RankedTensor tensor_type),
          by rw [← ht]; exact List.getElem?_eq_getElem hj,
          by simp [RewriteFuncOp.operandType, hattr]⟩
      | some attr =>
        obtain ⟨d, rfl, hperm, hlen⟩ := hwf j attr hattr
        obtain ⟨r, hr, _⟩ := Normalize_defined d.tile_shape d.layout hperm hlen
        exact ⟨(MlirType.TensorDesc ⟨r, tensor_type.elementTypeBitWidth⟩,
            MlirType.TensorDesc ⟨r, tensor_type.elementTypeBitWidth⟩),
          by rw [← ht]; exact List.getElem?_eq_getElem hj,
          by simp [RewriteFuncOp.operandType, hattr, hr]⟩
    have hdef : ∃ operands,
        RewriteFuncOp.operandTypes StorageType op 0 op.inputs = some operands := by
      have key : ∀ (types : List MlirType) (index : Nat),
          (∀ j : Nat, j < types.length → ∃ type operand, types[j]? = some type ∧
            RewriteFuncOp.operandType StorageType op (index + j) type = some operand) →
          ∃ operands, RewriteFuncOp.operandTypes StorageType op index types
            = some operands := by
        intro types
        induction types with
        | nil => intro index _; exact ⟨[], rfl⟩
        | cons type rest ih =>
          intro index h
          obtain ⟨t0, o0, ht0, hr0⟩ := h 0 (by simp)
          simp only [List.getElem?_cons_zero, Option.some.injEq] at ht0
          subst ht0
          rw [Nat.add_zero] at hr0
          obtain ⟨os, hos⟩ := ih (index + 1) (fun j hj => by
            obtain ⟨t, o, ht, hr⟩ := h (j + 1) (by simpa using hj)
            refine ⟨t, o, by simpa using ht, ?_⟩
            rw [← hr]
            congr 1
            omega)
          exact ⟨o0 :: os, by rw [RewriteFuncOp.operandTypes, hr0]; simp only [hos]⟩
      exact key op.inputs 0 hround
    obtain ⟨operands, hops⟩ := hdef
    obtain ⟨hlen, hall⟩ :=
      (RewriteFuncOp.operandTypes_eq_some StorageType op op.inputs 0 operands).1 hops
    have hrun : ∃ new_func cast_types, RewriteFuncOp.matchAndRewrite StorageType op
        = some (FuncMatchResult.success new_func cast_types) := by
      unfold RewriteFuncOp.matchAndRewrite
      simp only
      rw [if_neg (by simp [hin, hout]), hops]
      exact ⟨_, _, rfl⟩
    obtain ⟨new_func, cast_types, hrun⟩ := hrun
    obtain ⟨_, _, operands2, hops2, hname, hinputs, hresults, hattrs, _⟩ :=
      RewriteFuncOp_success_inv StorageType op new_func cast_types hrun
    rw [hops] at hops2
    cases hops2
    refine ⟨new_func, cast_types, hrun, hname, by simp [hinputs, hlen], hresults,
      by simp [hattrs], ?_⟩
    intro i tensor_type hi
    have hilt : i < op.inputs.length := by
      by_contra hge
      rw [List.getElem?_eq_none (by omega)] at hi
      cases hi
    obtain ⟨type, operand, ht, ho, hr⟩ := hall i hilt
    rw [hi] at ht
    cases ht
    rw [Nat.zero_add] at hr
    have hinput : new_func.inputs[i]? = some operand.1 := by
      rw [hinputs, List.getElem?_map, ho]
      rfl
    refine ⟨?_, ?_, ?_⟩
    · intro d hattr
      obtain ⟨d2, hd, hperm, hdl⟩ := hwf i _ hattr
      cases hd
      obtain ⟨r, hnorm, _⟩ := Normalize_defined d.tile_shape d.layout hperm hdl
      refine ⟨r, hnorm, ?_⟩
      rw [hinput]
      simp only [RewriteFuncOp.operandType, hattr, hnorm, Option.some.injEq] at hr
      rw [← hr]
    · intro hattr
      rw [hinput]
      simp only [RewriteFuncOp.operandType, hattr, Option.some.injEq] at hr
      rw [← hr]
    · intro name hname
      have hget : new_func.arg_attrs.getD i []
          = if (op.getArgAttr i "tt.nv_tma_desc").isSome then (op.arg_attrs.getD []).getD i []
            else setAttr ((op.arg_attrs.getD []).getD i []) "tt.divisibility"
              (Attribute.IntegerAttr IntType.I32 16) := by
        rw [hattrs, List.getD_eq_getElem?_getD, List.getElem?_map, List.getElem?_range hilt]
        rfl
      have hold : ((op.arg_attrs.getD []).getD i []).lookup name = op.getArgAttr i name := by
        unfold FuncOp.getArgAttr
        cases op.arg_attrs with
        | none => simp [List.lookup]
        | some dictionaries => rfl
      rw [hget]
      split
      · exact hold
      · rw [lookup_setAttr_of_ne _ _ _ _ hname]
        exact hold

/-- C24 at a concrete function: argument 0 of `fusedFuncOp` becomes a descriptor of the
normalized tile `[32, 16]`, argument 1 a global pointer, and the result is dropped. -/
theorem RewriteFuncOp_signature_witness :
    AreRankedTensors fusedFuncOp.inputs = true ∧ AreRankedTensors fusedFuncOp.results = true ∧
    fusedFuncOp.DescriptorsWellFormed ∧
    RewriteFuncOp.matchAndRewrite (fun width => width) fusedFuncOp
      = some (FuncMatchResult.success
          ⟨"fused_computation",
            [MlirType.TensorDesc ⟨[32, 16], 32⟩, MlirType.GlobalPointer 16], [],
            [[("tt.nv_tma_desc", Attribute.IntegerAttr IntType.I32 1),
                ("tt.tma_descriptor",
                  Attribute.TmaDescriptor ⟨[128, 64], [16, 32], [1, 1], [0, 1], 4⟩)],
              [("tt.divisibility", Attribute.IntegerAttr IntType.I32 16)]]⟩
          [MlirType.TensorDesc ⟨[32, 16], 32⟩, MlirType.RankedTensor ⟨[128, 64], 16⟩]) ∧
    (∃ new_func cast_types, RewriteFuncOp.matchAndRewrite (fun width => width) fusedFuncOp
        = some (FuncMatchResult.success new_func cast_types) ∧
      new_func.name = fusedFuncOp.name ∧
      new_func.inputs.length = fusedFuncOp.inputs.length ∧
      new_func.results = [] ∧
      new_func.arg_attrs.length = fusedFuncOp.inputs.length ∧
      (∀ (i : Nat) (tensor_type : RankedTensorType),
        fusedFuncOp.inputs[i]? = some (MlirType.RankedTensor tensor_type) →
        (∀ d, fusedFuncOp.getArgAttr i "tt.tma_descriptor" = some (Attribute.TmaDescriptor d) →
          ∃ normalized_block_shape,
            Normalize d.tile_shape d.layout = some normalized_block_shape ∧
            new_func.inputs[i]? = some (MlirType.TensorDesc
              ⟨normalized_block_shape, tensor_type.elementTypeBitWidth⟩)) ∧
        (fusedFuncOp.getArgAttr i "tt.tma_descriptor" = none →
          new_func.inputs[i]?
            = some (GetTensorPtrType (fun width => width) tensor_type.elementTypeBitWidth)) ∧
        ∀ name : String, name ≠ "tt.divisibility" →
          (new_func.arg_attrs.getD i []).lookup name = fusedFuncOp.getArgAttr i name)) := by
  have hwf : fusedFuncOp.DescriptorsWellFormed := by
    intro i attr h
    match i, h with
    | 0, h =>
      refine ⟨⟨[128, 64], [16, 32], [1, 1], [0, 1], 4⟩, ?_, by decide, rfl⟩
      have h0 : fusedFuncOp.getArgAttr 0 "tt.tma_descriptor" = some (Attribute.TmaDescriptor
          ⟨[128, 64], [16, 32], [1, 1], [0, 1], 4⟩) := by decide
      rw [h0] at h
      exact (Option.some.inj h).symm
    | 1, h =>
      have h1 : fusedFuncOp.getArgAttr 1 "tt.tma_descriptor" = none := by decide
      rw [h1] at h
      cases h
    | n + 2, h =>
      have h2 : fusedFuncOp.getArgAttr (n + 2) "tt.tma_descriptor" = none := rfl
      rw [h2] at h
      cases h
  exact ⟨by decide, by decide, hwf, by decide,
    (RewriteFuncOp_signature (fun width => width) fusedFuncOp).2 (by decide) (by decide) hwf⟩

/-- The attributes `AddTmaAttributes` sets hold `tt.nv_tma_desc` and `tt.tma_descriptor`
together, and setting them on the dictionary of an argument leaves it with both. -/
theorem AddTmaAttributes_paired (tensor : TensorValue) (tile_shape tile_strides layout : List Int)
    (attrs : List (String × Attribute)) (dictionary : List (String × Attribute))
    (h : AddTmaAttributes tensor tile_shape tile_strides layout = some attrs) :
    ((attrs.foldl (fun dict named => setAttr dict named.1 named.2) dictionary).lookup
      "tt.nv_tma_desc").isSome = true ∧
    ((attrs.foldl (fun dict named => setAttr dict named.1 named.2) dictionary).lookup
      "tt.tma_descriptor").isSome = true := by
  unfold AddTmaAttributes at h
  split at h
  · cases h
    simp only [List.foldl_cons, List.foldl_nil]
    constructor
    · rw [lookup_setAttr_of_ne _ _ _ _ (by decide), lookup_setAttr_self]
      rfl
    · rw [lookup_setAttr_self]
      rfl
  · cases h

/-- C25, as stated, fails for a function on which the two TMA attributes do not come together:
an argument that carries `tt.nv_tma_desc` alone is given the pointer type without the hint,
and an argument that carries `tt.tma_descriptor` alone is given a descriptor type and the
hint `tt.divisibility = 16`. -/
theorem RewriteFuncOp_divisibility_counterexample :
    RewriteFuncOp.matchAndRewrite (fun width => width)
        ⟨"fused_computation", [MlirType.RankedTensor ⟨[128, 64], 32⟩], [],
          some [[("tt.nv_tma_desc", Attribute.IntegerAttr IntType.I32 1)]]⟩
      = some (FuncMatchResult.success
          ⟨"fused_computation", [MlirType.GlobalPointer 32], [],
            [[("tt.nv_tma_desc", Attribute.IntegerAttr IntType.I32 1)]]⟩
          [MlirType.RankedTensor ⟨[128, 64], 32⟩]) ∧
    List.lookup "tt.divisibility" [("tt.nv_tma_desc", Attribute.IntegerAttr IntType.I32 1)]
      = none ∧
    RewriteFuncOp.matchAndRewrite (fun width => width)
        ⟨"fused_computation", [MlirType.RankedTensor ⟨[128, 64], 32⟩], [],
          some [[("tt.tma_descriptor",
            Attribute.TmaDescriptor ⟨[128, 64], [16, 32], [1, 1], [0, 1], 4⟩)]]⟩
      = some (FuncMatchResult.success
          ⟨"fused_computation", [MlirType.TensorDesc ⟨[32, 16], 32⟩], [],
            [[("tt.tma_descriptor",
                Attribute.TmaDescriptor ⟨[128, 64], [16, 32], [1, 1], [0, 1], 4⟩),
              ("tt.divisibility", Attribute.IntegerAttr IntType.I32 16)]]⟩
          [MlirType.TensorDesc ⟨[32, 16], 32⟩]) ∧
    List.lookup "tt.divisibility"
        [("tt.tma_descriptor",
            Attribute.TmaDescriptor ⟨[128, 64], [16, 32], [1, 1], [0, 1], 4⟩),
          ("tt.divisibility", Attribute.IntegerAttr IntType.I32 16)]
      = some (Attribute.IntegerAttr IntType.I32 16) := by
  decide

/-- What the signature rule does with argument `i` of a function it rewrites: the input is a
ranked tensor, the new type is the result of `RewriteFuncOp.operandType` on it, and the new
attribute dictionary is the old one, with `tt.divisibility = 16` set when the argument does
not carry `tt.nv_tma_desc`. -/
theorem RewriteFuncOp_argument (StorageType : Nat → Nat) (op : FuncOp)
    (new_func : TritonFuncOp) (cast_types : List MlirType)
    (hrun : RewriteFuncOp.matchAndRewrite StorageType op
      = some (FuncMatchResult.success new_func cast_types))
    (i : Nat) (hi : i < new_func.inputs.length) :
    ∃ tensor_type operand,
      op.inputs[i]? = some (MlirType.RankedTensor tensor_type) ∧
      RewriteFuncOp.operandType StorageType op i (MlirType.RankedTensor tensor_type)
        = some operand ∧
      new_func.inputs[i]? = some operand.1 ∧
      new_func.arg_attrs.getD i []
        = if (op.getArgAttr i "tt.nv_tma_desc").isSome then (op.arg_attrs.getD []).getD i []
          else setAttr ((op.arg_attrs.getD []).getD i []) "tt.divisibility"
            (Attribute.IntegerAttr IntType.I32 16) := by
  obtain ⟨hin, _, operands, hops, _, hinputs, _, hattrs, _⟩ :=
    RewriteFuncOp_success_inv StorageType op new_func cast_types hrun
  obtain ⟨hlen, hall⟩ :=
    (RewriteFuncOp.operandTypes_eq_some StorageType op op.inputs 0 operands).1 hops
  have hilt : i < op.inputs.length := by
    rw [hinputs, List.length_map, hlen] at hi
    exact hi
  obtain ⟨type, operand, ht, ho, hr⟩ := hall i hilt
  rw [Nat.zero_add] at hr
  have hmem : type ∈ op.inputs := by
    rw [List.getElem?_eq_getElem hilt, Option.some.injEq] at ht
    rw [← ht]
    exact List.getElem_mem _
  obtain ⟨tensor_type, rfl⟩ := (AreRankedTensors_iff op.inputs).1 hin type hmem
  refine ⟨tensor_type, operand, ht, hr, ?_, ?_⟩
  · rw [hinputs, List.getElem?_map, ho]
    rfl
  · rw [hattrs, List.getD_eq_getElem?_getD, List.getElem?_map, List.getElem?_range hilt]
    rfl

/-- C25, amended: after the signature rule rewrote a function, an argument is given the
pointer type exactly when it does not carry `tt.tma_descriptor` and a descriptor type exactly
when it does; every argument that does not carry `tt.nv_tma_desc` carries
`tt.divisibility = 16`, and the attribute dictionary of an argument that carries
`tt.nv_tma_desc` is the old one, with nothing added by the rule. So for an argument that
carries the two attributes together or neither of them, as `AddTmaAttributes` sets them, the
pointer type comes with the hint and the descriptor type with no hint added. -/
theorem RewriteFuncOp_divisibility (StorageType : Nat → Nat) (op : FuncOp)
    (new_func : TritonFuncOp) (cast_types : List MlirType)
    (hrun : RewriteFuncOp.matchAndRewrite StorageType op
      = some (FuncMatchResult.success new_func cast_types)) :
    ∀ i : Nat, i < new_func.inputs.length →
      ((∃ pointee, new_func.inputs[i]? = some (MlirType.GlobalPointer pointee)) ↔
        op.getArgAttr i "tt.tma_descriptor" = none) ∧
      ((∃ block_type, new_func.inputs[i]? = some (MlirType.TensorDesc block_type)) ↔
        (op.getArgAttr i "tt.tma_descriptor").isSome = true) ∧
      (op.getArgAttr i "tt.nv_tma_desc" = none →
        (new_func.arg_attrs.getD i []).lookup "tt.divisibility"
          = some (Attribute.IntegerAttr IntType.I32 16)) ∧
      ((op.getArgAttr i "tt.nv_tma_desc").isSome = true →
        new_func.arg_attrs.getD i [] = (op.arg_attrs.getD []).getD i []) ∧
      ((op.getArgAttr i "tt.nv_tma_desc").isSome
          = (op.getArgAttr i "tt.tma_descriptor").isSome →
        (∀ pointee, new_func.inputs[i]? = some (MlirType.GlobalPointer pointee) →
          (new_func.arg_attrs.getD i []).lookup "tt.divisibility"
            = some (Attribute.IntegerAttr IntType.I32 16)) ∧
        (∀ block_type, new_func.inputs[i]? = some (MlirType.TensorDesc block_type) →
          new_func.arg_attrs.getD i [] = (op.arg_attrs.getD []).getD i [])) := by
  intro i hi
  obtain ⟨tensor_type, operand, _, hr, hinput, hget⟩ :=
    RewriteFuncOp_argument StorageType op new_func cast_types hrun i hi
  -- the hint follows `tt.nv_tma_desc`
  have hhint : op.getArgAttr i "tt.nv_tma_desc" = none →
      (new_func.arg_attrs.getD i []).lookup "tt.divisibility"
        = some (Attribute.IntegerAttr IntType.I32 16) := by
    intro hnone
    rw [hget, hnone]
    simp only [Option.isSome_none, Bool.false_eq_true, if_false]
    exact lookup_setAttr_self _ _ _
  have hkeep : (op.getArgAttr i "tt.nv_tma_desc").isSome = true →
      new_func.arg_attrs.getD i [] = (op.arg_attrs.getD []).getD i [] := by
    intro hsome
    rw [hget, if_pos hsome]
  -- the type follows `tt.tma_descriptor`
  have htype : (op.getArgAttr i "tt.tma_descriptor" = none ∧
        ∃ pointee, operand.1 = MlirType.GlobalPointer pointee) ∨
      ((op.getArgAttr i "tt.tma_descriptor").isSome = true ∧
        ∃ block_type, operand.1 = MlirType.TensorDesc block_type) := by
    cases hattr : op.getArgAttr i "tt.tma_descriptor" with
    | none =>
      left
      simp only [RewriteFuncOp.operandType, hattr, Option.some.injEq] at hr
      rw [← hr]
      exact ⟨rfl, _, rfl⟩
    | some attr =>
      right
      simp only [RewriteFuncOp.operandType, hattr] at hr
      cases attr with
      | IntegerAttr _ _ => cases hr
      | TmaDescriptor d =>
        simp only at hr
        cases hnorm : Normalize d.tile_shape d.layout with
        | none => rw [hnorm] at hr; cases hr
        | some normalized_block_shape =>
          rw [hnorm] at hr
          simp only [Option.some.injEq] at hr
          rw [← hr]
          exact ⟨rfl, _, rfl⟩
  rw [hinput]
  rcases htype with ⟨hnone, pointee, hptr⟩ | ⟨hsome, block_type, hdesc⟩
  · rw [hptr, hnone]
    refine ⟨⟨fun _ => rfl, fun _ => ⟨pointee, rfl⟩⟩, ⟨?_, ?_⟩, hhint, hkeep, ?_⟩
    · rintro ⟨_, h⟩
      cases h
    · intro h
      cases h
    · intro hpair
      refine ⟨fun _ _ => hhint ?_, ?_⟩
      · cases hnv : op.getArgAttr i "tt.nv_tma_desc" with
        | none => rfl
        | some _ => rw [hnv] at hpair; cases hpair
      · intro _ h
        cases h
  · rw [hdesc]
    refine ⟨⟨?_, ?_⟩, ⟨fun _ => hsome, fun _ => ⟨block_type, rfl⟩⟩, hhint, hkeep, ?_⟩
    · rintro ⟨_, h⟩
      cases h
    · intro h
      rw [h] at hsome
      cases hsome
    · intro hpair
      rw [hsome] at hpair
      refine ⟨?_, fun _ _ => hkeep hpair⟩
      intro _ h
      cases h

/-- C25, amended, at a concrete function: argument 1 of `fusedFuncOp` carries neither
attribute and is given the pointer type and the hint, argument 0 carries both and is given a
descriptor type and keeps its two attributes only. -/
theorem RewriteFuncOp_divisibility_witness :
    RewriteFuncOp.matchAndRewrite (fun width => width) fusedFuncOp
      = some (FuncMatchResult.success
          ⟨"fused_computation",
            [MlirType.TensorDesc ⟨[32, 16], 32⟩, MlirType.GlobalPointer 16], [],
            [[("tt.nv_tma_desc", Attribute.IntegerAttr IntType.I32 1),
                ("tt.tma_descriptor",
                  Attribute.TmaDescriptor ⟨[128, 64], [16, 32], [1, 1], [0, 1], 4⟩)],
              [("tt.divisibility", Attribute.IntegerAttr IntType.I32 16)]]⟩
          [MlirType.TensorDesc ⟨[32, 16], 32⟩, MlirType.RankedTensor ⟨[128, 64], 16⟩]) ∧
    ∀ i : Nat, i < 2 →
      ((∃ pointee, [MlirType.TensorDesc ⟨[32, 16], 32⟩, MlirType.GlobalPointer 16][i]?
          = some (MlirType.GlobalPointer pointee)) ↔
        fusedFuncOp.getArgAttr i "tt.tma_descriptor" = none) ∧
      ((∃ block_type, [MlirType.TensorDesc ⟨[32, 16], 32⟩, MlirType.GlobalPointer 16][i]?
          = some (MlirType.TensorDesc block_type)) ↔
        (fusedFuncOp.getArgAttr i "tt.tma_descriptor").isSome = true) ∧
      (fusedFuncOp.getArgAttr i "tt.nv_tma_desc" = none →
        (List.getD [[("tt.nv_tma_desc", Attribute.IntegerAttr IntType.I32 1),
              ("tt.tma_descriptor",
                Attribute.TmaDescriptor ⟨[128, 64], [16, 32], [1, 1], [0, 1], 4⟩)],
            [("tt.divisibility", Attribute.IntegerAttr IntType.I32 16)]] i []).lookup
            "tt.divisibility"
          = some (Attribute.IntegerAttr IntType.I32 16)) ∧
      ((fusedFuncOp.getArgAttr i "tt.nv_tma_desc").isSome = true →
        List.getD [[("tt.nv_tma_desc", Attribute.IntegerAttr IntType.I32 1),
              ("tt.tma_descriptor",
                Attribute.TmaDescriptor ⟨[128, 64], [16, 32], [1, 1], [0, 1], 4⟩)],
            [("tt.divisibility", Attribute.IntegerAttr IntType.I32 16)]] i []
          = (fusedFuncOp.arg_attrs.getD []).getD i []) ∧
      ((fusedFuncOp.getArgAttr i "tt.nv_tma_desc").isSome
          = (fusedFuncOp.getArgAttr i "tt.tma_descriptor").isSome →
        (∀ pointee, [MlirType.TensorDesc ⟨[32, 16], 32⟩, MlirType.GlobalPointer 16][i]?
            = some (MlirType.GlobalPointer pointee) →
          (List.getD [[("tt.nv_tma_desc", Attribute.IntegerAttr IntType.I32 1),
                ("tt.tma_descriptor",
                  Attribute.TmaDescriptor ⟨[128, 64], [16, 32], [1, 1], [0, 1], 4⟩)],
              [("tt.divisibility", Attribute.IntegerAttr IntType.I32 16)]] i []).lookup
              "tt.divisibility"
            = some (Attribute.IntegerAttr IntType.I32 16)) ∧
        (∀ block_type, [MlirType.TensorDesc ⟨[32, 16], 32⟩, MlirType.GlobalPointer 16][i]?
            = some (MlirType.TensorDesc block_type) →
          List.getD [[("tt.nv_tma_desc", Attribute.IntegerAttr IntType.I32 1),
                ("tt.tma_descriptor",
                  Attribute.TmaDescriptor ⟨[128, 64], [16, 32], [1, 1], [0, 1], 4⟩)],
              [("tt.divisibility", Attribute.IntegerAttr IntType.I32 16)]] i []
            = (fusedFuncOp.arg_attrs.getD []).getD i [])) :=
  ⟨by decide, RewriteFuncOp_divisibility (fun width => width) fusedFuncOp
    ⟨"fused_computation",
      [MlirType.TensorDesc ⟨[32, 16], 32⟩, MlirType.GlobalPointer 16], [],
      [[("tt.nv_tma_desc", Attribute.IntegerAttr IntType.I32 1),
          ("tt.tma_descriptor",
            Attribute.TmaDescriptor ⟨[128, 64], [16, 32], [1, 1], [0, 1], 4⟩)],
        [("tt.divisibility", Attribute.IntegerAttr IntType.I32 16)]]⟩
    [MlirType.TensorDesc ⟨[32, 16], 32⟩, MlirType.RankedTensor ⟨[128, 64], 16⟩]
    (by decide)⟩

/-! ## The access-site rules: strides of 0 -/

/-- On a violation of the input contract on strides, `CanonicalizeTileStrides` returns the
error of an index at which the contract is violated. -/
theorem CanonicalizeTileStrides_violation (tile_strides tile_shape original_shape : List Int)
    (hts : tile_strides.length ≤ tile_shape.length)
    (hos : tile_strides.length ≤ original_shape.length)
    (hviol : ZeroStrideViolation tile_strides tile_shape original_shape) :
    ∃ (j : Nat) (t o : Int) (r : List Int),
      CanonicalizeTileStrides tile_strides tile_shape original_shape
        = some (Status.InvalidArgumentError j t o, r) ∧
      tile_strides[j]? = some 0 ∧ tile_shape[j]? = some t ∧ original_shape[j]? = some o ∧
      t ≠ 1 ∧ o ≠ 1 := by
  obtain ⟨st, r, hc⟩ := CanonicalizeTileStrides.loop_defined tile_shape original_shape
    tile_strides.length 0 tile_strides (by simp) hts hos
  have hs := CanonicalizeTileStrides.loop_sound tile_shape original_shape tile_strides.length 0
    tile_strides st r (by simp) hc
  cases st with
  | OkStatus =>
    exfalso
    obtain ⟨i, t, o, hi, ht, ho, ht1, ho1⟩ := hviol
    rcases (hs.1 rfl).1 i (Nat.zero_le _) hi with h | h
    · rw [ht] at h
      exact ht1 (Option.some.inj h)
    · rw [ho] at h
      exact ho1 (Option.some.inj h)
  | InvalidArgumentError j t o =>
    obtain ⟨_, h0, ht, ho, ht1, ho1⟩ := hs.2 j t o rfl
    exact ⟨j, t, o, r, hc, h0, ht, ho, ht1, ho1⟩

/-- C26, as stated, fails on the generic path: the tensor of the access has two uses, so the
access is lowered through a pointer; its stride is 0 at index 0, where the tile extent 2 and
the tensor extent 5 differ from 1, and both rules rewrite it. -/
theorem RewritePatterns_zero_stride_counterexample :
    ZeroStrideViolation [0, 1] [2, 4] [5, 8] ∧
    CanonicalizeTileStrides [0, 1] [2, 4] [5, 8]
      = some (Status.InvalidArgumentError 0 2 5, [0, 1]) ∧
    ExtractOp.WellFormed ⟨⟨⟨[5, 8], 32⟩, true, 2, true⟩, ⟨[2, 4], 32⟩,
      [Value.constantIndex 0, Value.constantIndex 0], [0, 1],
      [Value.constantIndex 0, Value.constantIndex 1], [1, 0]⟩ ∧
    InsertOp.WellFormed ⟨⟨[2, 4], 32⟩, ⟨⟨[5, 8], 32⟩, true, 2, true⟩,
      [Value.constantIndex 0, Value.constantIndex 0], [0, 1],
      [Value.constantIndex 0, Value.constantIndex 1], [1, 0]⟩ ∧
    (∃ ptr, RewriteExtract.matchAndRewrite ⟨true⟩ true
        ⟨⟨⟨[5, 8], 32⟩, true, 2, true⟩, ⟨[2, 4], 32⟩,
          [Value.constantIndex 0, Value.constantIndex 0], [0, 1],
          [Value.constantIndex 0, Value.constantIndex 1], [1, 0]⟩
      = some (LogicalResult.success ⟨[], Tile.LoadOp ptr [0] (some PaddingOption.PAD_ZERO)⟩)) ∧
    (∃ ptr, RewriteInsert.matchAndRewrite ⟨true⟩ true
        ⟨⟨[2, 4], 32⟩, ⟨⟨[5, 8], 32⟩, true, 2, true⟩,
          [Value.constantIndex 0, Value.constantIndex 0], [0, 1],
          [Value.constantIndex 0, Value.constantIndex 1], [1, 0]⟩
      = some (LogicalResult.success
          ⟨[], Store.StoreOp ptr Tile.operand [0], ⟨⟨[5, 8], 32⟩, true, 2, true⟩⟩)) :=
  ⟨⟨0, 2, 5, rfl, rfl, rfl, by decide, by decide⟩, by decide, by decide, by decide,
    ⟨_, rfl⟩, ⟨_, rfl⟩⟩

/-- C26, amended: for a well-formed tile extract or tile insert with a stride of 0 at an index
where both the tile extent and the tensor extent differ from 1, the access-site rule reports
the match failure of `CanonicalizeTileStrides` (naming an index at which the contract is
violated) and does not rewrite the operation when the access takes the fast path, and rewrites
it through a pointer, without the check, when it takes the generic path and no tile extent is
0 (where the source divides by zero in `ComputeBoundaryChecks`). -/
theorem RewritePatterns_zero_stride (device_description : DeviceDescription)
    (tma_enabled : Bool) (extract : ExtractOp) (insert : InsertOp) :
    (extract.WellFormed →
      ZeroStrideViolation extract.static_strides extract.result_type.shape
        extract.src.type.shape →
      (CanUseTMA tma_enabled device_description extract.result_type.shape
          extract.static_strides extract.offsets extract.src extract.layout = some true →
        ∃ (j : Nat) (t o : Int),
          RewriteExtract.matchAndRewrite device_description tma_enabled extract
            = some (LogicalResult.failure (Status.InvalidArgumentError j t o)) ∧
          extract.static_strides[j]? = some 0 ∧ extract.result_type.shape[j]? = some t ∧
          extract.src.type.shape[j]? = some o ∧ t ≠ 1 ∧ o ≠ 1) ∧
      (CanUseTMA tma_enabled device_description extract.result_type.shape
          extract.static_strides extract.offsets extract.src extract.layout = some false →
        (∀ t ∈ extract.result_type.shape, t ≠ 0) →
        ∃ rewrite, RewriteExtract.matchAndRewrite device_description tma_enabled extract
          = some (LogicalResult.success rewrite))) ∧
    (insert.WellFormed →
      ZeroStrideViolation insert.static_strides insert.src_type.shape insert.dst.type.shape →
      (CanUseTMA tma_enabled device_description insert.src_type.shape
          insert.static_strides insert.offsets insert.dst insert.layout = some true →
        ∃ (j : Nat) (t o : Int),
          RewriteInsert.matchAndRewrite device_description tma_enabled insert
            = some (LogicalResult.failure (Status.InvalidArgumentError j t o)) ∧
          insert.static_strides[j]? = some 0 ∧ insert.src_type.shape[j]? = some t ∧
          insert.dst.type.shape[j]? = some o ∧ t ≠ 1 ∧ o ≠ 1) ∧
      (CanUseTMA tma_enabled device_description insert.src_type.shape
          insert.static_strides insert.offsets insert.dst insert.layout = some false →
        (∀ t ∈ insert.src_type.shape, t ≠ 0) →
        ∃ rewrite, RewriteInsert.matchAndRewrite device_description tma_enabled insert
          = some (LogicalResult.success rewrite))) := by
  constructor
  · intro hwf hviol
    constructor
    · intro hcan
      obtain ⟨⟨hts, _, hst, _, _⟩, _⟩ := hwf
      obtain ⟨j, t, o, r, hc, h0, ht, ho, ht1, ho1⟩ := CanonicalizeTileStrides_violation
        extract.static_strides extract.result_type.shape extract.src.type.shape
        (by omega) (by omega) hviol
      refine ⟨j, t, o, ?_, h0, ht, ho, ht1, ho1⟩
      unfold RewriteExtract.matchAndRewrite
      simp only [hcan, hc]
    · intro hcan htile
      obtain ⟨_, _, _, _, _, h⟩ := RewriteExtract_generic device_description tma_enabled
        extract hwf htile hcan
      exact ⟨_, h⟩
  · intro hwf hviol
    constructor
    · intro hcan
      obtain ⟨⟨hts, _, hst, _, _⟩, _⟩ := hwf
      obtain ⟨j, t, o, r, hc, h0, ht, ho, ht1, ho1⟩ := CanonicalizeTileStrides_violation
        insert.static_strides insert.src_type.shape insert.dst.type.shape
        (by omega) (by omega) hviol
      refine ⟨j, t, o, ?_, h0, ht, ho, ht1, ho1⟩
      unfold RewriteInsert.matchAndRewrite
      simp only [hcan, hc]
    · intro hcan htile
      obtain ⟨_, _, _, _, _, h⟩ := RewriteInsert_generic device_description tma_enabled
        insert hwf htile hcan
      exact ⟨_, h⟩

/-- C26, amended, at concrete accesses. On the fast path: the tile `[64, 128]` of a
`1024 x 1024` tensor of layout `[0, 1]` with strides `[1, 0]` has stride 0 at index 1, where
the extents are 128 and 1024, and both rules report the failure of index 1. On the generic
path: the tile `[2, 4]` of a `5 x 8` tensor with two uses and strides `[0, 1]` is rewritten. -/
theorem RewritePatterns_zero_stride_witness :
    RewriteExtract.matchAndRewrite ⟨true⟩ true
        ⟨⟨⟨[1024, 1024], 32⟩, true, 1, true⟩, ⟨[64, 128], 32⟩,
          [Value.constantIndex 0, Value.blockArgument 7], [1, 0],
          [Value.constantIndex 1, Value.constantIndex 0], [0, 1]⟩
      = some (LogicalResult.failure (Status.InvalidArgumentError 1 128 1024)) ∧
    RewriteInsert.matchAndRewrite ⟨true⟩ true
        ⟨⟨[64, 128], 32⟩, ⟨⟨[1024, 1024], 32⟩, true, 1, true⟩,
          [Value.constantIndex 0, Value.blockArgument 7], [1, 0],
          [Value.constantIndex 1, Value.constantIndex 0], [0, 1]⟩
      = some (LogicalResult.failure (Status.InvalidArgumentError 1 128 1024)) ∧
    (∃ (j : Nat) (t o : Int),
      RewriteExtract.matchAndRewrite ⟨true⟩ true
          ⟨⟨⟨[1024, 1024], 32⟩, true, 1, true⟩, ⟨[64, 128], 32⟩,
            [Value.constantIndex 0, Value.blockArgument 7], [1, 0],
            [Value.constantIndex 1, Value.constantIndex 0], [0, 1]⟩
        = some (LogicalResult.failure (Status.InvalidArgumentError j t o)) ∧
      ([1, 0] : List Int)[j]? = some 0 ∧ ([64, 128] : List Int)[j]? = some t ∧
      ([1024, 1024] : List Int)[j]? = some o ∧ t ≠ 1 ∧ o ≠ 1) ∧
    (∃ (j : Nat) (t o : Int),
      RewriteInsert.matchAndRewrite ⟨true⟩ true
          ⟨⟨[64, 128], 32⟩, ⟨⟨[1024, 1024], 32⟩, true, 1, true⟩,
            [Value.constantIndex 0, Value.blockArgument 7], [1, 0],
            [Value.constantIndex 1, Value.constantIndex 0], [0, 1]⟩
        = some (LogicalResult.failure (Status.InvalidArgumentError j t o)) ∧
      ([1, 0] : List Int)[j]? = some 0 ∧ ([64, 128] : List Int)[j]? = some t ∧
      ([1024, 1024] : List Int)[j]? = some o ∧ t ≠ 1 ∧ o ≠ 1) ∧
    (∃ rewrite, RewriteExtract.matchAndRewrite ⟨true⟩ true
        ⟨⟨⟨[5, 8], 32⟩, true, 2, true⟩, ⟨[2, 4], 32⟩,
          [Value.constantIndex 0, Value.constantIndex 0], [0, 1],
          [Value.constantIndex 0, Value.constantIndex 1], [1, 0]⟩
      = some (LogicalResult.success rewrite)) ∧
    (∃ rewrite, RewriteInsert.matchAndRewrite ⟨true⟩ true
        ⟨⟨[2, 4], 32⟩, ⟨⟨[5, 8], 32⟩, true, 2, true⟩,
          [Value.constantIndex 0, Value.constantIndex 0], [0, 1],
          [Value.constantIndex 0, Value.constantIndex 1], [1, 0]⟩
      = some (LogicalResult.success rewrite)) :=
  ⟨rfl, rfl,
    ((RewritePatterns_zero_stride ⟨true⟩ true
      ⟨⟨⟨[1024, 1024], 32⟩, true, 1, true⟩, ⟨[64, 128], 32⟩,
        [Value.constantIndex 0, Value.blockArgument 7], [1, 0],
        [Value.constantIndex 1, Value.constantIndex 0], [0, 1]⟩
      ⟨⟨[64, 128], 32⟩, ⟨⟨[1024, 1024], 32⟩, true, 1, true⟩,
        [Value.constantIndex 0, Value.blockArgument 7], [1, 0],
        [Value.constantIndex 1, Value.constantIndex 0], [0, 1]⟩).1 (by decide)
      ⟨1, 128, 1024, rfl, rfl, rfl, by decide, by decide⟩).1 (by decide),
    ((RewritePatterns_zero_stride ⟨true⟩ true
      ⟨⟨⟨[1024, 1024], 32⟩, true, 1, true⟩, ⟨[64, 128], 32⟩,
        [Value.constantIndex 0, Value.blockArgument 7], [1, 0],
        [Value.constantIndex 1, Value.constantIndex 0], [0, 1]⟩
      ⟨⟨[64, 128], 32⟩, ⟨⟨[1024, 1024], 32⟩, true, 1, true⟩,
        [Value.constantIndex 0, Value.blockArgument 7], [1, 0],
        [Value.constantIndex 1, Value.constantIndex 0], [0, 1]⟩).2 (by decide)
      ⟨1, 128, 1024, rfl, rfl, rfl, by decide, by decide⟩).1 (by decide),
    ((RewritePatterns_zero_stride ⟨true⟩ true
      ⟨⟨⟨[5, 8], 32⟩, true, 2, true⟩, ⟨[2, 4], 32⟩,
        [Value.constantIndex 0, Value.constantIndex 0], [0, 1],
        [Value.constantIndex 0, Value.constantIndex 1], [1, 0]⟩
      ⟨⟨[2, 4], 32⟩, ⟨⟨[5, 8], 32⟩, true, 2, true⟩,
        [Value.constantIndex 0, Value.constantIndex 0], [0, 1],
        [Value.constantIndex 0, Value.constantIndex 1], [1, 0]⟩).1 (by decide)
      ⟨0, 2, 5, rfl, rfl, rfl, by decide, by decide⟩).2 (by decide) (by decide),
    ((RewritePatterns_zero_stride ⟨true⟩ true
      ⟨⟨⟨[5, 8], 32⟩, true, 2, true⟩, ⟨[2, 4], 32⟩,
        [Value.constantIndex 0, Value.constantIndex 0], [0, 1],
        [Value.constantIndex 0, Value.constantIndex 1], [1, 0]⟩
      ⟨⟨[2, 4], 32⟩, ⟨⟨[5, 8], 32⟩, true, 2, true⟩,
        [Value.constantIndex 0, Value.constantIndex 0], [0, 1],
        [Value.constantIndex 0, Value.constantIndex 1], [1, 0]⟩).2 (by decide)
      ⟨0, 2, 5, rfl, rfl, rfl, by decide, by decide⟩).2 (by decide) (by decide)⟩

/-! ## `CanUseTMA`: the conditions it accepts on -/

/-- The converse of `CanUseTMA_true_inv`: when every check passes, `CanUseTMA` returns
`true`. -/
theorem CanUseTMA_true_of (tma_enabled : Bool) (device_description : DeviceDescription)
    (tile_shape tile_strides : List Int) (offsets : List Value) (tensor : TensorValue)
    (minor_to_major_layout : List Int) (minor_dim_idx minor_tile : Int)
    (global_strides : List Int) (offset : Value)
    (e1 : tma_enabled = true) (e2 : IsTmaEnabledForDevice device_description = true)
    (e3 : (tile_shape.isEmpty || decide (tile_shape.length > 5)) = false)
    (e4 : tensor.isBlockArgument = true) (e4u : tensor.numUses = 1)
    (e5 : tensor.ownerIsFuncOp = true)
    (hm : minor_to_major_layout[0]? = some minor_dim_idx)
    (h6 : tensor.type.shape.any (fun dim => toUInt64 dim == 0 || toUInt64 dim > kMaxGlobalDim)
      = false)
    (hmt : readAt tile_shape minor_dim_idx = some minor_tile)
    (h7 : toUInt64 (toUInt64 minor_tile * ((tensor.type.elementTypeBitWidth / 8 : Nat) : Int))
      % kByteDivisibilityFactor = 0)
    (h8 : tile_shape.any (fun dim => toUInt64 dim == 0 || toUInt64 dim > kMaxBoxDim) = false)
    (h9 : tile_strides.any (fun s => s == kDynamic) = false)
    (hms : readAt tile_strides minor_dim_idx = some 1)
    (hgs : CanUseTMA.validateGlobalStrides tensor.type.shape minor_to_major_layout
      minor_dim_idx ((tensor.type.elementTypeBitWidth / 8 : Nat) : Int)
      = some (true, global_strides))
    (hoff : readAt offsets minor_dim_idx = some offset)
    (h11 : IsOffsetDivisibilityGuaranteed offset
      (toInt64 ((tensor.type.elementTypeBitWidth / 8 : Nat) : Int)) = true) :
    CanUseTMA tma_enabled device_description tile_shape tile_strides offsets tensor
      minor_to_major_layout = some true := by
  unfold CanUseTMA
  rw [if_neg (by simp [e1]), if_neg (by simp [e2]), if_neg (by simp [e3]),
    if_neg (by simp [e4, e4u]), if_neg (by simp [e5])]
  simp only [hm]
  rw [if_neg (by simp [h6])]
  simp only [hmt]
  rw [if_neg (fun h => h h7), if_neg (by simp [h8]), if_neg (by simp [h9])]
  simp only [hms]
  rw [if_neg (by simp)]
  simp only [hgs, hoff]
  rw [if_neg (by rw [h11]; simp)]

/-- The exact byte stride number 0: the element size times the minor dimension. -/
theorem exactByteStride_zero (element_byte_size : Int) (global_shape layout : List Int)
    (d : Int) (hd : layout[0]? = some d) :
    exactByteStride element_byte_size global_shape layout 0
      = element_byte_size * (readAt global_shape d).getD 1 := by
  unfold exactByteStride
  rw [List.take_succ, hd]
  simp

/-- Each exact byte stride is the one before times the next dimension of the layout. -/
theorem exactByteStride_succ (element_byte_size : Int) (global_shape layout : List Int)
    (i : Nat) (d : Int) (hd : layout[i + 1]? = some d) :
    exactByteStride element_byte_size global_shape layout (i + 1)
      = exactByteStride element_byte_size global_shape layout i
        * (readAt global_shape d).getD 1 := by
  unfold exactByteStride
  rw [List.take_succ (n := i + 1), hd]
  simp only [Option.toList_some, List.map_append, List.map_cons, List.map_nil,
    List.prod_append, List.prod_cons, List.prod_nil, mul_one]
  rw [mul_assoc]

/-- A number from 0 to `2^40 - 1` is its own `int64_t` and its own `uint64_t`. -/
theorem toInt64_toUInt64_of_small (x : Int) (h0 : 0 ≤ x) (h : x ≤ 2 ^ 40 - 1) :
    toInt64 x = x ∧ toUInt64 x = x := by
  unfold toInt64 toUInt64
  omega

/-- While the exact byte strides stay within `2^40 - 1`, the loop over the global strides
computes them without overflow and passes every check. -/
theorem CanUseTMA.stridesLoop_true (element_byte_size : Int)
    (global_shape minor_to_major_layout : List Int)
    (hlen : minor_to_major_layout.length = global_shape.length)
    (hrange : ∀ x ∈ minor_to_major_layout, 0 ≤ x ∧ x < global_shape.length)
    (hpos : ∀ dim ∈ global_shape, 0 < dim)
    (hmax : ∀ j : Nat, j < global_shape.length →
      exactByteStride element_byte_size global_shape minor_to_major_layout j ≤ 2 ^ 40 - 1) :
    ∀ (n i : Nat) (global_strides : List Int), i + n = global_shape.length →
      global_strides.length = i → 1 ≤ i →
      global_strides[i - 1]?
        = some (exactByteStride element_byte_size global_shape minor_to_major_layout (i - 1)) →
      0 ≤ exactByteStride element_byte_size global_shape minor_to_major_layout (i - 1) →
      ∃ r, CanUseTMA.stridesLoop global_shape minor_to_major_layout n i global_strides
        = some (true, r) := by
  intro n
  induction n with
  | zero => intro i gs _ _ _ _ _; exact ⟨_, rfl⟩
  | succ n ih =>
    intro i gs hi hgs h1 hprev hnonneg
    have hib : i < minor_to_major_layout.length := by omega
    obtain ⟨d, hl⟩ : ∃ d, minor_to_major_layout[i]? = some d :=
      ⟨_, List.getElem?_eq_getElem hib⟩
    obtain ⟨h0, hlt⟩ := hrange d (List.getElem?_mem hl)
    have hidx : d.toNat < global_shape.length := by omega
    obtain ⟨size, hsize, hsize_pos⟩ : ∃ size, readAt global_shape d = some size ∧ 0 < size :=
      ⟨global_shape[d.toNat], by simp [readAt, h0, List.getElem?_eq_getElem hidx],
        hpos _ (List.getElem_mem _)⟩
    have hl2 : minor_to_major_layout[i - 1 + 1]? = some d := by
      rw [Nat.sub_add_cancel h1]
      exact hl
    have hstep : exactByteStride element_byte_size global_shape minor_to_major_layout i
        = exactByteStride element_byte_size global_shape minor_to_major_layout (i - 1)
          * size := by
      have h := exactByteStride_succ element_byte_size global_shape minor_to_major_layout
        (i - 1) d hl2
      rw [Nat.sub_add_cancel h1, hsize, Option.getD_some] at h
      exact h
    have hnext0 : 0 ≤ exactByteStride element_byte_size global_shape minor_to_major_layout i := by
      rw [hstep]
      exact Int.mul_nonneg hnonneg (by omega)
    obtain ⟨hi64, hu64⟩ := toInt64_toUInt64_of_small _ hnext0 (hmax i (by omega))
    have hnew : (gs ++ [toInt64 (exactByteStride element_byte_size global_shape
          minor_to_major_layout (i - 1) * size)])[i]?
        = some (exactByteStride element_byte_size global_shape minor_to_major_layout i) := by
      rw [List.getElem?_append_right (by omega), ← hstep, hi64]
      simp [hgs]
    rw [CanUseTMA.stridesLoop]
    simp only [hprev, hl, hsize, hnew]
    rw [if_neg (by rw [hu64]; unfold kMaxGlobalStride; exact not_lt.2 (hmax i (by omega)))]
    refine ih (i + 1) _ (by omega) (by simp [hgs]) (by omega) ?_ ?_
    · rw [Nat.add_sub_cancel]
      exact hnew
    · rw [Nat.add_sub_cancel]
      exact hnext0

/-- When the first exact byte stride is a multiple of 16 and the exact byte strides, the byte
size of the whole tensor included, stay within `2^40 - 1`, the block "Validate global strides"
passes. -/
theorem CanUseTMA.validateGlobalStrides_true (element_byte_size : Int)
    (global_shape minor_to_major_layout : List Int) (minor_dim_idx : Int)
    (hlen : minor_to_major_layout.length = global_shape.length)
    (hrange : ∀ x ∈ minor_to_major_layout, 0 ≤ x ∧ x < global_shape.length)
    (hm : minor_to_major_layout[0]? = some minor_dim_idx)
    (he : 0 ≤ element_byte_size)
    (hdims : ∀ dim ∈ global_shape, 0 < dim ∧ dim ≤ 2 ^ 32)
    (h16 : 2 ≤ global_shape.length →
      (16 : Int) ∣ exactByteStride element_byte_size global_shape minor_to_major_layout 0)
    (hmax : 2 ≤ global_shape.length → ∀ j : Nat, j < global_shape.length →
      exactByteStride element_byte_size global_shape minor_to_major_layout j ≤ 2 ^ 40 - 1) :
    ∃ global_strides, CanUseTMA.validateGlobalStrides global_shape minor_to_major_layout
      minor_dim_idx element_byte_size = some (true, global_strides) := by
  unfold CanUseTMA.validateGlobalStrides
  by_cases hrank : global_shape.length ≥ 2
  · rw [if_pos hrank]
    have hmem : minor_dim_idx ∈ minor_to_major_layout := List.getElem?_mem hm
    obtain ⟨h0, hlt⟩ := hrange _ hmem
    have hidx : minor_dim_idx.toNat < global_shape.length := by omega
    have hsize : readAt global_shape minor_dim_idx = some global_shape[minor_dim_idx.toNat] := by
      simp [readAt, h0, List.getElem?_eq_getElem hidx]
    obtain ⟨hsize_pos, hsize_max⟩ := hdims _ (List.getElem_mem hidx)
    have hE0 : exactByteStride element_byte_size global_shape minor_to_major_layout 0
        = global_shape[minor_dim_idx.toNat] * element_byte_size := by
      rw [exactByteStride_zero _ _ _ _ hm, hsize, Option.getD_some, mul_comm]
    have hE0nonneg : 0 ≤ exactByteStride element_byte_size global_shape
        minor_to_major_layout 0 := by
      rw [hE0]
      exact Int.mul_nonneg (by omega) he
    have hu : toUInt64 global_shape[minor_dim_idx.toNat] = global_shape[minor_dim_idx.toNat] := by
      unfold toUInt64
      omega
    obtain ⟨hi64, hu64⟩ := toInt64_toUInt64_of_small _ hE0nonneg (hmax hrank 0 (by omega))
    simp only [hsize, hu, ← hE0, hu64, hi64, List.getElem?_cons_zero]
    rw [if_neg]
    · exact CanUseTMA.stridesLoop_true element_byte_size global_shape minor_to_major_layout
        hlen hrange (fun dim hd => (hdims dim hd).1) (hmax hrank) (global_shape.length - 1) 1 _
        (by omega) rfl (le_refl 1) (by simp) hE0nonneg
    · rw [not_or]
      refine ⟨?_, ?_⟩
      · rw [not_not]
        unfold kByteDivisibilityFactor
        exact Int.emod_eq_zero_of_dvd (h16 hrank)
      · unfold kMaxGlobalStride
        exact not_lt.2 (hmax hrank 0 (by omega))
  · rw [if_neg hrank]
    exact ⟨[], rfl⟩

/-- For a constant offset `IsOffsetDivisibilityGuaranteed` tests whether the byte offset is a
multiple of 16. -/
theorem IsOffsetDivisibilityGuaranteed_constant_iff (c e : Int) :
    IsOffsetDivisibilityGuaranteed (Value.constantIndex c) e = true ↔ (16 : Int) ∣ c * e := by
  show (Int.tmod c (Int.tdiv 16 (Int.gcd 16 e)) == 0) = true ↔ (16 : Int) ∣ c * e
  have hdiv : Int.tdiv 16 (Int.gcd 16 e) = ((16 / Nat.gcd 16 e.natAbs : Nat) : Int) := by
    rw [Int.ofNat_tdiv]
    rfl
  rw [beq_iff_eq, hdiv]
  have key := sixteen_div_gcd_dvd_iff c.natAbs e.natAbs
  have h1 : ((16 / Nat.gcd 16 e.natAbs : Nat) : Int) ∣ c ↔ 16 / Nat.gcd 16 e.natAbs ∣ c.natAbs :=
    Int.natCast_dvd
  have h2 : (16 : Int) ∣ c * e ↔ 16 ∣ c.natAbs * e.natAbs := by
    rw [← Int.natAbs_mul]
    exact Int.natCast_dvd (m := 16)
  rw [h2, ← key, ← h1]
  exact ⟨Int.dvd_of_tmod_eq_zero, Int.tmod_eq_zero_of_dvd⟩

/-- A constant offset that is a multiple of `16 / gcd(16, element_byte_size)` passes
`IsOffsetDivisibilityGuaranteed` on the element byte size as the `int64_t` it is passed as. -/
theorem IsOffsetDivisibilityGuaranteed_of_dvd (c : Int) (element_byte_size : Nat)
    (hdiv : ((16 / Nat.gcd 16 element_byte_size : Nat) : Int) ∣ c) :
    IsOffsetDivisibilityGuaranteed (Value.constantIndex c)
      (toInt64 (element_byte_size : Int)) = true := by
  rw [IsOffsetDivisibilityGuaranteed_constant_iff]
  have h1 : 16 ∣ c.natAbs * element_byte_size :=
    (sixteen_div_gcd_dvd_iff c.natAbs element_byte_size).1 (Int.natCast_dvd.1 hdiv)
  have h2 : (16 : Int) ∣ c * (element_byte_size : Int) := by
    have h3 : ((16 : Nat) : Int) ∣ ((c.natAbs * element_byte_size : Nat) : Int) :=
      Int.natCast_dvd_natCast.2 h1
    rw [Nat.cast_mul] at h3
    rcases Int.natAbs_eq c with hc | hc
    · rw [hc]
      exact h3
    · rw [hc, Int.neg_mul]
      exact (Int.dvd_neg).2 h3
  have hmod := toInt64_modEq (element_byte_size : Int)
  have h4 : (2 : Int) ^ 64 ∣ (element_byte_size : Int) - toInt64 (element_byte_size : Int) :=
    Int.ModEq.dvd hmod
  have h5 : (16 : Int) ∣ (element_byte_size : Int) - toInt64 (element_byte_size : Int) :=
    Dvd.dvd.trans (by norm_num) h4
  have h6 : c * toInt64 (element_byte_size : Int)
      = c * (element_byte_size : Int)
        - c * ((element_byte_size : Int) - toInt64 (element_byte_size : Int)) := by ring
  rw [h6]
  exact Int.dvd_sub h2 (Dvd.dvd.mul_left h5 c)

/-- C27, as stated, fails: a tile `[128, 128]` of unit strides at the constant offsets 0 of a
function argument of shape `[2^20, 2^20]` with 4-byte elements and layout `[1, 0]`, used once,
meets every listed condition (the one non-minor byte stride is `2^22`), and `CanUseTMA`
returns `false`: the loop over the global strides bounds every cumulative product up to index
`rank - 1`, the last of which is the byte size `2^42` of the whole tensor. On the shape
`[1024, 1024]` the same access is accepted. -/
theorem CanUseTMA_accepts_counterexample :
    CanUseTMA true ⟨true⟩ [128, 128] [1, 1] [Value.constantIndex 0, Value.constantIndex 0]
      ⟨⟨[1048576, 1048576], 32⟩, true, 1, true⟩ [1, 0] = some false ∧
    IsTmaEnabledForDevice ⟨true⟩ = true ∧
    (1 ≤ ([128, 128] : List Int).length ∧ ([128, 128] : List Int).length ≤ 5) ∧
    (∀ dim ∈ ([1048576, 1048576] : List Int), 0 < dim ∧ dim ≤ 2 ^ 32) ∧
    readAt ([128, 128] : List Int) 1 = some 128 ∧ (16 : Int) ∣ 128 * 4 ∧
    (∀ dim ∈ ([128, 128] : List Int), 0 < dim ∧ dim ≤ 256) ∧
    (∀ stride ∈ ([1, 1] : List Int), stride ≠ kDynamic) ∧
    readAt ([1, 1] : List Int) 1 = some 1 ∧
    readAt [Value.constantIndex 0, Value.constantIndex 0] 1 = some (Value.constantIndex 0) ∧
    (16 / Nat.gcd 16 4 : Nat) ∣ 0 ∧
    exactByteStride 4 [1048576, 1048576] [1, 0] 0 = 2 ^ 22 ∧
    (16 : Int) ∣ exactByteStride 4 [1048576, 1048576] [1, 0] 0 ∧
    exactByteStride 4 [1048576, 1048576] [1, 0] 0 ≤ 2 ^ 40 - 1 ∧
    CanUseTMA.validateGlobalStrides [1048576, 1048576] [1, 0] 1 4
      = some (false, [4194304, 4398046511104]) ∧
    (4398046511104 : Int) = 4 * (1048576 * 1048576) ∧
    ¬ ((4398046511104 : Int) ≤ 2 ^ 40 - 1) ∧
    CanUseTMA true ⟨true⟩ [128, 128] [1, 1] [Value.constantIndex 0, Value.constantIndex 0]
      ⟨⟨[1024, 1024], 32⟩, true, 1, true⟩ [1, 0] = some true :=
  ⟨by decide, by decide, by decide, by decide, by decide, by decide, by decide, by decide,
    by decide, rfl, by decide, by decide, by decide, by decide, by decide, by decide, by decide,
    by decide⟩

/-- C27, amended: `CanUseTMA` returns `true` on every well-formed access that meets the listed
conditions and whose tensor, for rank at least 2, takes at most `2^40 - 1` bytes. The
conditions: the fast path is enabled and supported by the device, the rank is from 1 to 5, the
tensor is a function argument with exactly one use, every global dimension is in `(0, 2^32]`,
the byte size of the minor tile dimension is a multiple of 16, every tile dimension is in
`(0, 256]`, the tile strides are static with minor stride 1, the minor offset is a constant
that `16 / gcd(16, element_byte_size)` divides, and the byte stride of every non-minor
dimension `layout[i + 1]`, `i + 1 < rank`, that is `exactByteStride` number `i`, is a multiple
of 16 and at most `2^40 - 1`. The byte size of the whole tensor is `exactByteStride` number
`rank - 1`. -/
theorem CanUseTMA_accepts (tma_enabled : Bool) (device_description : DeviceDescription)
    (tile_shape tile_strides : List Int) (offsets : List Value) (tensor : TensorValue)
    (minor_to_major_layout : List Int) (minor_dim_idx minor_tile c : Int)
    (hwf : WellFormedAccess tensor.type.shape tile_shape offsets tile_strides
      minor_to_major_layout)
    (henabled : tma_enabled = true)
    (hdevice : IsTmaEnabledForDevice device_description = true)
    (hrank : 1 ≤ tile_shape.length ∧ tile_shape.length ≤ 5)
    (harg : tensor.isBlockArgument = true ∧ tensor.ownerIsFuncOp = true ∧ tensor.numUses = 1)
    (hglobal : ∀ dim ∈ tensor.type.shape, 0 < dim ∧ dim ≤ 2 ^ 32)
    (hminor : minor_to_major_layout[0]? = some minor_dim_idx)
    (hminor_tile : readAt tile_shape minor_dim_idx = some minor_tile)
    (hbytes : (16 : Int) ∣ minor_tile * ((tensor.type.elementTypeBitWidth / 8 : Nat) : Int))
    (htile : ∀ dim ∈ tile_shape, 0 < dim ∧ dim ≤ 256)
    (hstatic : ∀ stride ∈ tile_strides, stride ≠ kDynamic)
    (hunit : readAt tile_strides minor_dim_idx = some 1)
    (hoffset : readAt offsets minor_dim_idx = some (Value.constantIndex c))
    (hdiv : ((16 / Nat.gcd 16 (tensor.type.elementTypeBitWidth / 8) : Nat) : Int) ∣ c)
    (hstride : ∀ i : Nat, i + 1 < tensor.type.shape.length →
      (16 : Int) ∣ exactByteStride ((tensor.type.elementTypeBitWidth / 8 : Nat) : Int)
        tensor.type.shape minor_to_major_layout i ∧
      exactByteStride ((tensor.type.elementTypeBitWidth / 8 : Nat) : Int)
        tensor.type.shape minor_to_major_layout i ≤ 2 ^ 40 - 1)
    (htotal : 2 ≤ tensor.type.shape.length →
      exactByteStride ((tensor.type.elementTypeBitWidth / 8 : Nat) : Int)
        tensor.type.shape minor_to_major_layout (tensor.type.shape.length - 1) ≤ 2 ^ 40 - 1) :
    CanUseTMA tma_enabled device_description tile_shape tile_strides offsets tensor
      minor_to_major_layout = some true := by
  obtain ⟨hts, _, _, hlay, hperm⟩ := hwf
  have hrange : ∀ x ∈ minor_to_major_layout, 0 ≤ x ∧ x < tensor.type.shape.length := by
    intro x hx
    have := (hperm.mem_iff x).1 hx
    rw [hlay] at this
    exact this
  -- the block over the global strides passes
  obtain ⟨global_strides, hgs⟩ := CanUseTMA.validateGlobalStrides_true
    ((tensor.type.elementTypeBitWidth / 8 : Nat) : Int) tensor.type.shape
    minor_to_major_layout minor_dim_idx hlay hrange hminor (Int.natCast_nonneg _) hglobal
    (fun h2 => (hstride 0 (by omega)).1)
    (fun h2 j hj => by
      by_cases hlast : j + 1 < tensor.type.shape.length
      · exact (hstride j hlast).2
      · have hj2 : j = tensor.type.shape.length - 1 := by omega
        rw [hj2]
        exact htotal h2)
  refine CanUseTMA_true_of tma_enabled device_description tile_shape tile_strides offsets
    tensor minor_to_major_layout minor_dim_idx minor_tile global_strides
    (Value.constantIndex c) henabled hdevice ?_ harg.1 harg.2.2 harg.2.1 hminor ?_
    hminor_tile ?_ ?_ ?_ hunit hgs hoffset
    (IsOffsetDivisibilityGuaranteed_of_dvd c _ hdiv)
  · have hne : tile_shape ≠ [] := by
      intro h
      rw [h] at hrank
      simp at hrank
    have h5 : ¬ tile_shape.length > 5 := by omega
    simp [hne, h5]
  · rw [List.any_eq_false]
    intro dim hdim
    obtain ⟨h0, hmax⟩ := hglobal dim hdim
    have hu : toUInt64 dim = dim := by
      unfold toUInt64
      omega
    rw [hu]
    unfold kMaxGlobalDim
    simp only [Bool.or_eq_true, beq_iff_eq, decide_eq_true_eq, not_or, not_lt]
    exact ⟨by omega, hmax⟩
  · unfold kByteDivisibilityFactor
    rw [toUInt64_mul_emod_sixteen]
    exact Int.emod_eq_zero_of_dvd hbytes
  · rw [List.any_eq_false]
    intro dim hdim
    obtain ⟨h0, hmax⟩ := htile dim hdim
    have hu : toUInt64 dim = dim := by
      unfold toUInt64
      omega
    rw [hu]
    unfold kMaxBoxDim
    simp only [Bool.or_eq_true, beq_iff_eq, decide_eq_true_eq, not_or, not_lt]
    exact ⟨by omega, hmax⟩
  · rw [List.any_eq_false]
    intro stride hs
    simpa using hstatic stride hs

/-- C27, amended, at the end-to-end access of the spec: tile `[128, 128]` of a `[1024, 1024]`
tensor of 4-byte elements, layout `[1, 0]`; the byte stride of the major dimension is 4096
and the tensor takes `2^22` bytes. -/
theorem CanUseTMA_accepts_witness :
    WellFormedAccess [1024, 1024] [128, 128] [Value.constantIndex 0, Value.constantIndex 0]
      [1, 1] [1, 0] ∧
    exactByteStride 4 [1024, 1024] [1, 0] 0 = 4096 ∧
    exactByteStride 4 [1024, 1024] [1, 0] 1 = 2 ^ 22 ∧
    CanUseTMA true ⟨true⟩ [128, 128] [1, 1] [Value.constantIndex 0, Value.constantIndex 0]
      ⟨⟨[1024, 1024], 32⟩, true, 1, true⟩ [1, 0] = some true :=
  ⟨by decide, by decide, by decide,
    CanUseTMA_accepts true ⟨true⟩ [128, 128] [1, 1]
      [Value.constantIndex 0, Value.constantIndex 0] ⟨⟨[1024, 1024], 32⟩, true, 1, true⟩ [1, 0]
      1 128 0 (by decide) rfl rfl (by decide) (by decide) (by decide) rfl (by decide)
      (by decide) (by decide) (by decide) (by decide) rfl (by decide)
      (fun i hi => by
        have h0 : i = 0 := by
          simp only [List.length_cons, List.length_nil] at hi
          omega
        subst h0
        decide)
      (fun _ => by decide)⟩

/-- C30, the code at a failing input: for a function argument of 1-bit elements the quotient
`element_bit_width / 8` is 0, every byte check passes on the product 0, and `CanUseTMA`
returns `true` for a tile whose minor dimension 8 takes `8 * 1 = 8` bits, not a multiple of
128; the extract is then lowered to a descriptor load. -/
theorem CanUseTMA_sub_byte_element :
    CanUseTMA true ⟨true⟩ [8, 8] [1, 1] [Value.constantIndex 0, Value.constantIndex 3]
      ⟨⟨[1024, 1024], 1⟩, true, 1, true⟩ [1, 0] = some true ∧
    (([1, 0] : List Int)[0]? = some 1 ∧ readAt ([8, 8] : List Int) 1 = some 8) ∧
    ¬ ((128 : Int) ∣ 8 * ((1 : Nat) : Int)) ∧
    (1 / 8 : Nat) = 0 ∧
    CanUseTMA.validateGlobalStrides [1024, 1024] [1, 0] 1 ((1 / 8 : Nat) : Int)
      = some (true, [0, 0]) ∧
    IsOffsetDivisibilityGuaranteed (Value.constantIndex 3) (toInt64 ((1 / 8 : Nat) : Int))
      = true ∧
    RewriteExtract.matchAndRewrite ⟨true⟩ true
        ⟨⟨⟨[1024, 1024], 1⟩, true, 1, true⟩, ⟨[8, 8], 1⟩,
          [Value.constantIndex 0, Value.constantIndex 3], [1, 1],
          [Value.constantIndex 1, Value.constantIndex 1], [1, 0]⟩
      = some (LogicalResult.success
          ⟨[("tt.nv_tma_desc", Attribute.IntegerAttr IntType.I32 1),
            ("tt.tma_descriptor",
              Attribute.TmaDescriptor ⟨[1024, 1024], [8, 8], [1, 1], [1, 0], 0⟩)],
            Tile.DescriptorLoadOp ⟨[8, 8], 1⟩
              ⟨⟨[8, 8], 1⟩, ⟨⟨[1024, 1024], 1⟩, true, 1, true⟩⟩
              [Scalar.IndexCastUIOp IntType.I32 (Scalar.value (Value.constantIndex 0)),
                Scalar.IndexCastUIOp IntType.I32 (Scalar.value (Value.constantIndex 3))]⟩) :=
  ⟨by decide, by decide, by decide, by decide, by decide, by decide, rfl⟩

/-! ## Boundary checks and the residual shape -/

/-- C28: for a dimension `d` with tile extent `t >= 1` and an offset `o` that is a multiple of
`t` with `0 <= o < original_shape[d]`, if the list `ComputeBoundaryChecks` returns does not
flag `d` then
`t <= original_shape[d] - o`: the entry `d` of the residual shape that `ComputeResidualShape`
builds evaluates to `original_shape[d] - o`, the tile extent is at most that, and every
position `o + k`, `0 <= k < t`, that a tile of unit stride touches lies inside the
dimension. -/
theorem ComputeBoundaryChecks_sound (original_shape tile_shape : List Int)
    (offsets : List Value) (valueOf : Value → Int) (d : Nat) (s t : Int) (offset : Value)
    (hs : original_shape[d]? = some s) (ht : tile_shape[d]? = some t)
    (ho : offsets[d]? = some offset) (hfit : IsInt64 s) (ht1 : 1 ≤ t)
    (h0 : 0 ≤ offset.runtime valueOf) (hdvd : t ∣ offset.runtime valueOf)
    (hlt : offset.runtime valueOf < s) (boundary_checks : List Nat)
    (hrun : ComputeBoundaryChecks original_shape tile_shape = some boundary_checks)
    (hd : d ∉ boundary_checks) :
    t ≤ s - offset.runtime valueOf ∧
    (∃ residual, (ComputeResidualShape original_shape offsets)[d]? = some residual ∧
      residual.eval valueOf = s - offset.runtime valueOf ∧ t ≤ residual.eval valueOf) ∧
    ∀ k : Int, 0 ≤ k → k < t →
      0 ≤ offset.runtime valueOf + k ∧ offset.runtime valueOf + k < s := by
  have hmod : Int.tmod s t = 0 := by
    by_contra hne
    exact hd ((ComputeBoundaryChecks_mem original_shape tile_shape boundary_checks hrun d).2
      ⟨s, t, hs, ht, hne⟩)
  have hts : t ∣ s := Int.dvd_of_tmod_eq_zero hmod
  obtain ⟨a, ha⟩ := hts
  obtain ⟨b, hb⟩ := hdvd
  have hle : t ≤ s - offset.runtime valueOf := by
    have hba : b < a := by
      by_contra hge
      have hmul : t * a ≤ t * b := Int.mul_le_mul_of_nonneg_left (by omega) (by omega)
      omega
    have hmul : t * (b + 1) ≤ t * a := Int.mul_le_mul_of_nonneg_left (by omega) (by omega)
    rw [Int.mul_add, Int.mul_one] at hmul
    omega
  refine ⟨hle, ?_, ?_⟩
  · refine ⟨Scalar.SubIOp (Scalar.CreateConst IntType.I64 s)
      (Scalar.IndexCastUIOp IntType.I64 (Scalar.value offset)), ?_, ?_⟩
    · rw [ComputeResidualShape_eq_zipWith, List.getElem?_zipWith, hs, ho]
    · have hev : (Scalar.SubIOp (Scalar.CreateConst IntType.I64 s)
          (Scalar.IndexCastUIOp IntType.I64 (Scalar.value offset))).eval valueOf
          = s - offset.runtime valueOf := by
        simp only [Scalar.eval]
        unfold IsInt64 at hfit
        unfold toInt64
        omega
      rw [hev]
      exact ⟨rfl, hle⟩
  · intro k hk0 hkt
    omega

/-- C28 at a concrete access: the tile extent 4 divides the extent 8 of dimension 1, which is
not flagged, and at the offset 4 the tile fills the residual extent 4 exactly. -/
theorem ComputeBoundaryChecks_sound_witness :
    ComputeBoundaryChecks [9, 8] [4, 4] = some [0] ∧ 1 ∉ [0] ∧
    (4 ≤ (8 : Int) - (Value.constantIndex 4).runtime (fun _ => 0) ∧
    (∃ residual, (ComputeResidualShape [9, 8]
        [Value.constantIndex 4, Value.constantIndex 4])[1]? = some residual ∧
      residual.eval (fun _ => 0) = 8 - (Value.constantIndex 4).runtime (fun _ => 0) ∧
      4 ≤ residual.eval (fun _ => 0)) ∧
    ∀ k : Int, 0 ≤ k → k < 4 →
      0 ≤ (Value.constantIndex 4).runtime (fun _ => 0) + k ∧
      (Value.constantIndex 4).runtime (fun _ => 0) + k < 8) :=
  ⟨by decide, by decide,
    ComputeBoundaryChecks_sound [9, 8] [4, 4] [Value.constantIndex 4, Value.constantIndex 4]
      (fun _ => 0) 1 8 4 (Value.constantIndex 4) rfl rfl rfl (by decide) (by decide)
      (by decide) ⟨1, rfl⟩ (by decide) [0] (by decide) (by decide)⟩

/-! ## The normalized-layout shortcut -/

/-- C29: for values and a permutation layout of the same length `N` (normalized or not, `N`
within `int64_t`), `Normalize(values, layout)` returns the plain permutation of the values by
the reversed layout, `result[i] = values[layout[N-1-i]]`; the result has length `N` and is a
rearrangement of the values. -/
theorem Normalize_eq_NormalizePlain (values : List Int) (layout : List Int)
    (hperm : IsPermutation layout) (hlen : values.length = layout.length)
    (hN : (layout.length : Int) ≤ 2 ^ 63) :
    Normalize values layout = some (NormalizePlain values layout) ∧
    (NormalizePlain values layout).length = layout.length ∧
    (∀ i : Nat, i < layout.length →
      ∃ (d : Int) (v : Int), layout[layout.length - 1 - i]? = some d ∧
        readAt values d = some v ∧ (NormalizePlain values layout)[i]? = some v) ∧
    List.Perm (NormalizePlain values layout) values := by
  obtain ⟨r, hr, hrl, hget⟩ := NormalizeImpl_permuted values layout hperm hlen hN
  -- the plain permutation reads an entry at every position
  have hall : ∀ x ∈ List.range layout.length,
      ∃ y, (fun i : Nat => (layout[layout.length - 1 - i]?).bind (readAt values)) x
        = some y := by
    intro x hx
    obtain ⟨d, v, hd, hv, _⟩ := hget x (List.mem_range.1 hx)
    exact ⟨v, by simp only [hd, Option.some_bind, hv]⟩
  obtain ⟨hplen, hpget⟩ := filterMap_getElem?_of_forall
    (fun i : Nat => (layout[layout.length - 1 - i]?).bind (readAt values))
    (List.range layout.length) hall
  have heq : r = NormalizePlain values layout := by
    apply List.ext_getElem?
    intro i
    unfold NormalizePlain
    rw [hpget i]
    by_cases hi : i < layout.length
    · obtain ⟨d, v, hd, hv, hri⟩ := hget i hi
      rw [hri, List.getElem?_range hi]
      simp only [Option.some_bind, hd, hv]
    · rw [List.getElem?_eq_none (by omega), List.getElem?_eq_none (by simp; omega)]
      rfl
  subst heq
  refine ⟨hr, hrl, hget, ?_⟩
  -- the result is a rearrangement of the values
  by_cases hn : IsNormalizedLayout layout = true
  · have hv : NormalizeImpl values layout = some values := by
      simp [NormalizeImpl, hn]
    rw [hv] at hr
    rw [← Option.some.inj hr]
  · have hp : Permute values layout.reverse
        = some (NormalizePlain values layout) := by
      rw [← hr]
      simp [NormalizeImpl, hn]
    have hid := Permute_identity values
    unfold Permute at hp hid
    rw [if_pos ⟨by rw [List.length_reverse, hlen], hperm.reverse⟩] at hp
    split at hid
    · rw [← Option.some.inj hp]
      have hperm2 : List.Perm layout.reverse
          ((List.range values.length).map (fun k : Nat => (k : Int))) := by
        rw [hlen]
        exact (List.reverse_perm _).trans hperm
      have := hperm2.filterMap (fun p => readAt values p)
      rw [Option.some.inj hid] at this
      exact this
    · cases hid

/-- C29 at concrete inputs: the layout `[0, 2, 1]` takes the permutation path and the
normalized layout `[2, 1, 0]` takes the shortcut, each with the result of the plain
permutation. -/
theorem Normalize_eq_NormalizePlain_witness :
    Normalize [10, 20, 30] [0, 2, 1] = some [20, 30, 10] ∧
    NormalizePlain ([10, 20, 30] : List Int) [0, 2, 1] = [20, 30, 10] ∧
    IsNormalizedLayout [2, 1, 0] = true ∧
    NormalizePlain ([10, 20, 30] : List Int) [2, 1, 0] = [10, 20, 30] ∧
    (Normalize [10, 20, 30] [2, 1, 0] = some (NormalizePlain [10, 20, 30] [2, 1, 0]) ∧
    (NormalizePlain ([10, 20, 30] : List Int) [2, 1, 0]).length
      = ([2, 1, 0] : List Int).length ∧
    (∀ i : Nat, i < ([2, 1, 0] : List Int).length →
      ∃ (d : Int) (v : Int),
        ([2, 1, 0] : List Int)[([2, 1, 0] : List Int).length - 1 - i]? = some d ∧
        readAt [10, 20, 30] d = some v ∧
        (NormalizePlain ([10, 20, 30] : List Int) [2, 1, 0])[i]? = some v) ∧
    List.Perm (NormalizePlain ([10, 20, 30] : List Int) [2, 1, 0]) [10, 20, 30]) :=
  ⟨by decide, by decide, by decide, by decide,
    Normalize_eq_NormalizePlain [10, 20, 30] [2, 1, 0] (by decide) rfl (by decide)⟩

end TritonXLA
